import Mathlib

/-
  Verification of the SOFS11 file-system core (layers 1-4 and the fsck
  inode pass) against its natural-language specification.

  The development is a shallow embedding of the C sources: every function
  `soXxx` below is a direct translation of the C function of the same name
  (files sofs_ifuncs_*.c, fsck11_inode.c).  The buffer cache
  (load/get/store of the superblock, inode-table block and data-cluster
  slots) collapses to direct reads and writes of an explicit state record,
  which is faithful for the single-threaded sequential code of this
  repository.  Machine integers are modelled as `Nat` with explicit
  mod-2^32 arithmetic at the few points where uint32 wraparound is
  reachable.  Headers (sofs_inode.h, sofs_direntry.h, sofs_const.h) and
  the binary-only library sofs_basicconsist.c are not part of the source
  tree; the handful of constants and quick-check predicates taken from
  them are modelled from the specification and marked as such.
-/

set_option maxRecDepth 2048

namespace Sofs

/-- Error codes used by the embedded operations (sofs negative returns,
    modelled as an enumeration; the numeric values are irrelevant to the
    claims). -/
inductive Err where
  | EINVAL | ENOSPC | ELIBBAD | EBADF | EIO
  | EIUININVAL | EFDININVAL | EFININVAL | ELDCININVAL | EDCINVAL
  | EWGINODENB | ENOTDIR | ENOENT | EEXIST | EACCES | EPERM | EMLINK
  | ENAMETOOLONG | ENOTEMPTY | EDIRINVAL | EDEINVAL | EDCARDYIL | EDCNOTIL
  | EIBADHEAD | EIBADTAIL | EIBADINODEREF | EBADFREECOUNT
  | EILLNOTFREE | EILLLOOP | EILLBROKEN
  deriving DecidableEq

/-- NULL_INODE / NULL_CLUSTER / NULL_BLOCK: `(uint32_t)(~0UL)` (sofs_superblock.h). -/
def nullRef : Nat := 4294967295

/-- 2^32, the modulus of uint32 arithmetic. -/
def u32Mod : Nat := 4294967296

/-- uint32 addition. -/
def u32add (a b : Nat) : Nat := (a + b) % u32Mod

/-- uint32 subtraction (operands already reduced mod 2^32). -/
def u32sub (a b : Nat) : Nat := (a % u32Mod + (u32Mod - b % u32Mod)) % u32Mod

/-- Modelled from the spec: mode bit for a free inode (sofs_inode.h is not
    in the source tree; §Design notes: mode combines a file-type bit, nine
    permission bits and a free flag — bit 12 per the comment in
    sofs_ifuncs_2_ci.c). -/
def INODE_FREE : Nat := 4096

/-- Modelled from the spec: directory type bit (sofs_inode.h missing). -/
def INODE_DIR : Nat := 2048

/-- Modelled from the spec: regular-file type bit (sofs_inode.h missing). -/
def INODE_FILE : Nat := 1024

/-- Modelled from the spec: symbolic-link type bit (sofs_inode.h missing). -/
def INODE_SYMLINK : Nat := 512

/-- Modelled from the spec: mask of the three file-type bits (sofs_inode.h missing). -/
def INODE_TYPE_MASK : Nat := 3584

/-- Modelled from the spec: read permission request bit (POSIX triad layout,
    other-triad in bits 0-2 as used by soAccessGranted). -/
def permR : Nat := 4

/-- Modelled from the spec: write permission request bit. -/
def permW : Nat := 2

/-- Modelled from the spec: execute permission request bit. -/
def permX : Nat := 1

/-- Modelled from the spec: execute bit of the user triad (X shifted to bits 6-8). -/
def INODE_EX_USR : Nat := 64

/-- Modelled from the spec: execute bit of the group triad. -/
def INODE_EX_GRP : Nat := 8

/-- Modelled from the spec: execute bit of the other triad. -/
def INODE_EX_OTH : Nat := 1

/-- Compile-time layout parameters of the volume.  sofs_const.h and
    sofs_direntry.h are not in the source tree, so the concrete values
    (N_DIRECT, RPC, DPC, MAX_NAME, sizeof(SODirEntry), DZONE_CACHE_SIZE)
    are kept abstract; every theorem holds for all instantiations and the
    witnesses pick small representative ones. -/
structure Params where
  nDirect : Nat
  rpc : Nat
  dpc : Nat
  maxName : Nat
  deSize : Nat
  cacheSize : Nat

/-- MAX_FILE_CLUSTERS: modelled from the spec (§3 reference trees): the
    logical file-cluster index space is the direct zone, the
    single-indirect zone of RPC slots and the double-indirect zone of
    RPC*RPC slots. -/
def Params.maxFC (P : Params) : Nat := P.nDirect + P.rpc + P.rpc * P.rpc

/-- An inode record (SOInode).  `vD1`/`vD2` are the two union fields: time
    of last access / `next`, and time of last modification / `prev`.  The
    direct-reference array d[N_DIRECT] is a function on indices. -/
structure Inode where
  mode : Nat
  refcount : Nat
  owner : Nat
  group : Nat
  size : Nat
  clucount : Nat
  vD1 : Nat
  vD2 : Nat
  d : Nat → Nat
  i1 : Nat
  i2 : Nat

/-- A directory entry (SODirEntry): a name array of MAX_NAME+1 bytes and
    an inode number. -/
structure DirEntry where
  name : Nat → Nat
  nInode : Nat

/-- Payload of a data cluster, under the typed view with which the code
    accesses it: an array of cluster references, an array of directory
    entries, or raw file bytes (whose contents no claim observes). -/
inductive Payload where
  | refs (r : Nat → Nat)
  | dents (de : Nat → DirEntry)
  | bytes

/-- A data cluster (SODataClust): the three header fields and the payload. -/
structure Cluster where
  prev : Nat
  next : Nat
  stat : Nat
  info : Payload

/-- The mounted-volume state: the superblock fields used by the core, the
    inode table and the data zone (both addressed by logical number), plus
    the caller identity and the clock (the C code obtains them by
    getuid()/getgid()/time(NULL)). -/
structure FState where
  itotal : Nat
  ifree : Nat
  ihead : Nat
  itail : Nat
  dzoneTotal : Nat
  dzoneFree : Nat
  retrievIdx : Nat
  retriev : Nat → Nat
  insertIdx : Nat
  insertCache : Nat → Nat
  dhead : Nat
  dtail : Nat
  inodes : Nat → Inode
  clusters : Nat → Cluster
  uid : Nat
  gid : Nat
  now : Nat

/-- Pointwise update of a table (the store-back of one record of a loaded
    block). -/
def upd {α : Type} (f : Nat → α) (i : Nat) (v : α) : Nat → α :=
  fun j => if j = i then v else f j

theorem upd_same {α : Type} (f : Nat → α) (i : Nat) (v : α) : upd f i v i = v := by
  simp [upd]

theorem upd_other {α : Type} (f : Nat → α) (i : Nat) (v : α) {j : Nat} (h : j ≠ i) :
    upd f i v j = f j := by
  simp [upd, h]

/-- Inode status argument of soReadInode/soWriteInode: in use (IUIN) or
    free in the dirty state (FDIN). -/
inductive IStat where
  | iuin
  | fdin
  deriving DecidableEq

/-- Modelled from the spec: quick check of an inode in use
    (soQCheckInodeIU of the binary-only sofs_basicconsist.c): the free
    flag is clear and the mode carries one of the legal file types. -/
def soQCheckInodeIU (ino : Inode) : Bool :=
  (ino.mode &&& INODE_FREE == 0) &&
    (ino.mode &&& INODE_DIR == INODE_DIR ||
     ino.mode &&& INODE_FILE == INODE_FILE ||
     ino.mode &&& INODE_SYMLINK == INODE_SYMLINK)

/-- Modelled from the spec: quick check of a free inode in the dirty state
    (soQCheckFDInode, binary-only): the free flag is set. -/
def soQCheckFDInode (ino : Inode) : Bool :=
  ino.mode &&& INODE_FREE == INODE_FREE

/-- Modelled from the spec: quick check of a free inode, clean or dirty
    (soQCheckFInode, binary-only): the free flag is set. -/
def soQCheckFInode (ino : Inode) : Bool :=
  ino.mode &&& INODE_FREE == INODE_FREE

/-- Modelled from the spec: quick check of a free inode in the clean state
    (soQCheckFCInode, binary-only; §3: mode == FREE, all reference fields
    NULL_CLUSTER, refcount/size/clucount zero). -/
def soQCheckFCInode (P : Params) (ino : Inode) : Bool :=
  (ino.mode == INODE_FREE) &&
  (ino.refcount == 0) && (ino.size == 0) && (ino.clucount == 0) &&
  (ino.i1 == nullRef) && (ino.i2 == nullRef) &&
  (List.range P.nDirect).all (fun k => ino.d k == nullRef)

/-- soReadInode (sofs_ifuncs_2_ri.c).  Validates the inode number and the
    status, quick-checks consistency, and for an inode in use stamps the
    time of last access on the stored copy before returning it. -/
def soReadInode (s : FState) (nInode : Nat) (status : IStat) :
    Except Err (Inode × FState) :=
  if nInode ≥ s.itotal then .error .EINVAL
  else
    let ino := s.inodes nInode
    match status with
    | .iuin =>
      if soQCheckInodeIU ino = false then .error .EIUININVAL
      else
        let ino2 := { ino with vD1 := s.now }
        .ok (ino2, { s with inodes := upd s.inodes nInode ino2 })
    | .fdin =>
      if soQCheckFDInode ino = false then .error .EFDININVAL
      else .ok (ino, s)

/-- The legal-file-type switch `mode & INODE_TYPE_MASK ∈ {DIR, FILE, SYMLINK}`
    that several functions repeat. -/
def legalType (mode : Nat) : Bool :=
  mode &&& INODE_TYPE_MASK == INODE_DIR ||
  mode &&& INODE_TYPE_MASK == INODE_FILE ||
  mode &&& INODE_TYPE_MASK == INODE_SYMLINK

/-- soWriteInode (sofs_ifuncs_2_wi.c).  Validates, quick-checks the given
    record, requires a legal file type, writes it to the table and for an
    inode in use stamps both times with the current time. -/
def soWriteInode (s : FState) (ino : Inode) (nInode : Nat) (status : IStat) :
    Except Err FState :=
  if nInode ≥ s.itotal then .error .EINVAL
  else
    match status with
    | .iuin =>
      if soQCheckInodeIU ino = false then .error .EIUININVAL
      else if legalType ino.mode = false then .error .EIUININVAL
      else .ok { s with inodes := upd s.inodes nInode { ino with vD1 := s.now, vD2 := s.now } }
    | .fdin =>
      if soQCheckFDInode ino = false then .error .EFDININVAL
      else if legalType ino.mode = false then .error .EFDININVAL
      else .ok { s with inodes := upd s.inodes nInode ino }

/-- soAccessGranted (sofs_ifuncs_2_ag.c).  After validation and the root
    branch, the code tests the other triad first and unconditionally, then
    the group triad gated by the caller gid, then the user triad gated by
    the caller uid, and denies only when all three tests fall through. -/
def soAccessGranted (s : FState) (nInode : Nat) (opRequested : Nat) :
    Except Err FState :=
  if nInode ≥ s.itotal then .error .EINVAL
  else if opRequested > 7 ∨ opRequested < 1 then .error .EINVAL
  else
    match soReadInode s nInode .iuin with
    | .error e => .error e
    | .ok (inode, s1) =>
      if soQCheckInodeIU inode = false then .error .EIUININVAL
      else if legalType inode.mode = false then .error .EIUININVAL
      else
        let mode := inode.mode
        if s1.uid = 0 then
          if opRequested &&& permX = permX then
            if mode &&& INODE_EX_USR = INODE_EX_USR ∨
               mode &&& INODE_EX_GRP = INODE_EX_GRP ∨
               mode &&& INODE_EX_OTH = INODE_EX_OTH then .ok s1
            else .error .EACCES
          else .ok s1
        else
          if mode &&& opRequested = opRequested then .ok s1
          else if (mode &&& (opRequested <<< 3)) >>> 3 = opRequested ∧ s1.gid = inode.group
            then .ok s1
          else if (mode &&& (opRequested <<< 6)) >>> 6 = opRequested ∧ s1.uid = inode.owner
            then .ok s1
          else .error .EACCES

/-! ### C2: the permission check -/

/-- The permission triad of `mode` starting at bit `k` (user k=6, group k=3,
    other k=0). -/
def triad (mode k : Nat) : Nat := (mode >>> k) &&& 7

/-- What soAccessGranted actually grants a non-root caller: the union of
    the three tests it performs in order — other triad unconditionally,
    group triad gated by gid, user triad gated by uid. -/
def unionGrantB (uid gid : Nat) (ino : Inode) (op : Nat) : Bool :=
  (triad ino.mode 0 &&& op == op) ||
  ((triad ino.mode 3 &&& op == op) && gid == ino.group) ||
  ((triad ino.mode 6 &&& op == op) && uid == ino.owner)

/-- The claim's selection rule, written from the specification text: choose
    the permission triad by identity (owner uid → user triad; else caller
    gid == inode group → group triad; else → other triad) and grant iff the
    selected triad contains all requested bits.  Used only to compare the
    specification against the code. -/
def specSelectedTriadGrantB (uid gid : Nat) (ino : Inode) (op : Nat) : Bool :=
  let t := if uid == ino.owner then triad ino.mode 6
           else if gid == ino.group then triad ino.mode 3
           else triad ino.mode 0
  t &&& op == op

/-- The state after the access-time stamp that soReadInode applies to an
    inode in use. -/
def stampState (s : FState) (nInode : Nat) : FState :=
  { s with inodes := upd s.inodes nInode { s.inodes nInode with vD1 := s.now } }

theorem and_shiftLeft_shiftRight (m o k : Nat) :
    (m &&& (o <<< k)) >>> k = (m >>> k) &&& o := by
  apply Nat.eq_of_testBit_eq
  intro i
  simp [Nat.testBit_shiftRight, Nat.testBit_and, Nat.testBit_shiftLeft]

theorem land_seven_absorb (m op : Nat) (hop : op ≤ 7) :
    (m &&& 7) &&& op = m &&& op := by
  rw [Nat.land_assoc]
  have h7 : 7 &&& op = op := by interval_cases op <;> rfl
  rw [h7]

/-- soReadInode on an in-use inode succeeds, returning the record with the
    access time stamped and the state carrying the stamp. -/
theorem soReadInode_iuin_ok (s : FState) (n : Nat)
    (hn : n < s.itotal) (hiu : soQCheckInodeIU (s.inodes n) = true) :
    soReadInode s n .iuin = .ok ({ s.inodes n with vD1 := s.now }, stampState s n) := by
  unfold soReadInode
  rw [if_neg (by omega)]
  simp [hiu, stampState]

/-- The union rule, unfolded to the exact mask arithmetic of the code. -/
theorem unionGrantB_iff (ino : Inode) (op uid gid : Nat) (hop : op ≤ 7) :
    unionGrantB uid gid ino op = true ↔
      (ino.mode &&& op = op ∨
       ((ino.mode &&& (op <<< 3)) >>> 3 = op ∧ gid = ino.group) ∨
       ((ino.mode &&& (op <<< 6)) >>> 6 = op ∧ uid = ino.owner)) := by
  have h3 := and_shiftLeft_shiftRight ino.mode op 3
  have h6 := and_shiftLeft_shiftRight ino.mode op 6
  have l0 : (ino.mode &&& 7) &&& op = ino.mode &&& op :=
    land_seven_absorb _ _ hop
  have l3 : ((ino.mode >>> 3) &&& 7) &&& op = (ino.mode >>> 3) &&& op :=
    land_seven_absorb _ _ hop
  have l6 : ((ino.mode >>> 6) &&& 7) &&& op = (ino.mode >>> 6) &&& op :=
    land_seven_absorb _ _ hop
  simp [unionGrantB, triad, Nat.shiftRight_zero, h3, h6, l0, l3, l6]
  tauto

/-- Characterization of soAccessGranted for a non-root caller on an in-use
    inode of legal type: the operation is granted exactly under the union
    rule, and denied with EACCES otherwise. -/
theorem soAccessGranted_nonroot (s : FState) (n op : Nat)
    (hn : n < s.itotal) (hop1 : 1 ≤ op) (hop7 : op ≤ 7)
    (hroot : s.uid ≠ 0)
    (hiu : soQCheckInodeIU (s.inodes n) = true)
    (hty : legalType (s.inodes n).mode = true) :
    soAccessGranted s n op =
      (if unionGrantB s.uid s.gid (s.inodes n) op
       then .ok (stampState s n) else .error .EACCES) := by
  have hiu2 : soQCheckInodeIU ({ s.inodes n with vD1 := s.now } : Inode) = true := hiu
  have hty2 : legalType ({ s.inodes n with vD1 := s.now } : Inode).mode = true := hty
  have hgr := unionGrantB_iff (s.inodes n) op s.uid s.gid hop7
  unfold soAccessGranted
  rw [soReadInode_iuin_ok s n hn hiu]
  simp only []
  rw [if_neg (by omega), if_neg (by omega)]
  rw [if_neg (by simp [hiu2]), if_neg (by simp [hty2])]
  have hroot2 : ¬ ((stampState s n).uid = 0) := hroot
  rw [if_neg hroot2]
  by_cases h1 : (s.inodes n).mode &&& op = op
  · rw [if_pos h1, if_pos (hgr.mpr (Or.inl h1))]
  · rw [if_neg h1]
    by_cases h2 : ((s.inodes n).mode &&& (op <<< 3)) >>> 3 = op ∧ (stampState s n).gid =
        ({ s.inodes n with vD1 := s.now } : Inode).group
    · rw [if_pos h2, if_pos (hgr.mpr (Or.inr (Or.inl h2)))]
    · rw [if_neg h2]
      by_cases h3 : ((s.inodes n).mode &&& (op <<< 6)) >>> 6 = op ∧ (stampState s n).uid =
          ({ s.inodes n with vD1 := s.now } : Inode).owner
      · rw [if_pos h3, if_pos (hgr.mpr (Or.inr (Or.inr h3)))]
      · rw [if_neg h3, if_neg (by
          intro hu
          rcases hgr.mp hu with h | h | h
          · exact h1 h
          · exact h2 h
          · exact h3 h)]

/-- A regular file whose other triad grants read/write/execute while its
    user and group triads grant nothing; owned by uid 5 / gid 5. -/
def inoC2 : Inode :=
  { mode := INODE_FILE + 7, refcount := 1, owner := 5, group := 5, size := 0,
    clucount := 0, vD1 := 0, vD2 := 0, d := fun _ => nullRef,
    i1 := nullRef, i2 := nullRef }

/-- A placeholder cluster for states whose data zone is not exercised. -/
def clNone : Cluster := { prev := nullRef, next := nullRef, stat := nullRef, info := .bytes }

/-- A one-inode volume whose caller is the owner (uid 5, non-root) with a
    non-matching gid. -/
def stC2 : FState :=
  { itotal := 1, ifree := 0, ihead := nullRef, itail := nullRef,
    dzoneTotal := 1, dzoneFree := 0, retrievIdx := 0, retriev := fun _ => 0,
    insertIdx := 0, insertCache := fun _ => 0, dhead := nullRef, dtail := nullRef,
    inodes := fun _ => inoC2, clusters := fun _ => clNone,
    uid := 5, gid := 9, now := 100 }

/-- C2 counterexample: the caller is the owner (uid 5) and requests read;
    the spec's selection rule picks the user triad, which is empty, and
    denies — but soAccessGranted consults the other triad first and
    unconditionally, and the other triad carries read, so the code grants. -/
theorem claim_C2_counterexample :
    soAccessGranted stC2 0 permR = .ok (stampState stC2 0) ∧
    specSelectedTriadGrantB stC2.uid stC2.gid (stC2.inodes 0) permR = false := by
  constructor
  · rfl
  · rfl

/-- C2 (amended): for every in-use inode of legal type and every non-root
    caller, soAccessGranted grants a requested mask op (1..7) if and only
    if one of its three tests passes — the other triad contains all
    requested bits (consulted first and unconditionally, regardless of
    identity), or the caller's gid equals the inode group and the group
    triad contains them, or the caller's uid equals the inode owner and
    the user triad contains them; otherwise it returns EACCES.  On success
    the only state change is the access-time stamp of soReadInode. -/
theorem claim_C2_access_check (s : FState) (n op : Nat)
    (hn : n < s.itotal) (hop1 : 1 ≤ op) (hop7 : op ≤ 7)
    (hroot : s.uid ≠ 0)
    (hiu : soQCheckInodeIU (s.inodes n) = true)
    (hty : legalType (s.inodes n).mode = true) :
    soAccessGranted s n op =
      (if unionGrantB s.uid s.gid (s.inodes n) op
       then .ok (stampState s n) else .error .EACCES) :=
  soAccessGranted_nonroot s n op hn hop1 hop7 hroot hiu hty

/-- A one-inode volume whose caller matches the group (gid 7) of a file
    granting read to the group triad only. -/
def stC2w : FState :=
  { stC2 with
    inodes := fun _ =>
      { inoC2 with mode := INODE_FILE + 32, owner := 5, group := 7 },
    uid := 9, gid := 7 }

theorem claim_C2_access_check_witness :
    soAccessGranted stC2w 0 permR =
      (if unionGrantB stC2w.uid stC2w.gid (stC2w.inodes 0) permR
       then .ok (stampState stC2w 0) else .error .EACCES) :=
  claim_C2_access_check stC2w 0 permR (by decide) (by decide) (by decide)
    (by decide) (by decide) (by decide)

/-! ### Layer 1, data side: insertion/retrieval caches and the general free list -/

/-- Error-propagating sequencing of the C `if((status = f(...)) != 0) return status;`
    idiom. -/
def exBind {α β : Type} (m : Except Err α) (f : α → Except Err β) : Except Err β :=
  match m with
  | .error e => .error e
  | .ok a => f a

theorem exBind_ok {α β : Type} (a : α) (f : α → Except Err β) :
    exBind (.ok a) f = f a := rfl

theorem exBind_error {α β : Type} (e : Err) (f : α → Except Err β) :
    exBind (.error e) f = .error e := rfl

theorem exBind_eq_ok {α β : Type} {m : Except Err α} {f : α → Except Err β} {b : β}
    (h : exBind m f = .ok b) : ∃ a, m = .ok a ∧ f a = .ok b := by
  cases m with
  | error e => simp [exBind] at h
  | ok a => exact ⟨a, rfl, h⟩

/-- Store one inode record back into the table. -/
def setInode (s : FState) (i : Nat) (v : Inode) : FState :=
  { s with inodes := upd s.inodes i v }

/-- Store one data cluster back to the data zone (by logical number). -/
def setCluster (s : FState) (i : Nat) (v : Cluster) : FState :=
  { s with clusters := upd s.clusters i v }

/-- Read a payload slot under the reference-array view.  Reading a payload
    that was last written under a different view is a type-confused access
    the code never performs on a consistent volume; it yields 0 here (the
    bytes of a zero-filled cluster). -/
def getRef (c : Cluster) (j : Nat) : Nat :=
  match c.info with
  | .refs r => r j
  | _ => 0

/-- Write one slot of the reference-array view of a payload. -/
def setRef (c : Cluster) (j v : Nat) : Cluster :=
  match c.info with
  | .refs r => { c with info := .refs (upd r j v) }
  | _ => c

/-- The memset of all RPC reference slots to NULL_CLUSTER (each byte 0xFF). -/
def nullifyRefs (P : Params) (c : Cluster) : Cluster :=
  match c.info with
  | .refs r => { c with info := .refs (fun j => if j < P.rpc then nullRef else r j) }
  | _ => c

/-- The classification soQCheckStatDC returns. -/
inductive CStat where
  | freeCLT
  | allocCLT
  deriving DecidableEq

/-- Walk of the general free list from dhead looking for a cluster number,
    bounded by the size of the data zone. -/
def genListMem (s : FState) (nClust : Nat) : Nat → Nat → Bool
  | _, 0 => false
  | cur, fuel + 1 =>
    if cur = nullRef then false
    else if cur = nClust then true
    else genListMem s nClust (s.clusters cur).next fuel

/-- Modelled from the spec: soQCheckStatDC (binary-only
    sofs_basicconsist.c) classifies a data cluster as free or allocated;
    per §3 a free cluster is exactly one whose reference sits in the
    retrieval cache, the insertion cache or the general free list. -/
def soQCheckStatDC (P : Params) (s : FState) (nClust : Nat) : CStat :=
  if (List.range (P.cacheSize - s.retrievIdx)).any
       (fun k => s.retriev (s.retrievIdx + k) == nClust) ||
     (List.range s.insertIdx).any (fun k => s.insertCache k == nClust) ||
     genListMem s nClust s.dhead s.dzoneTotal
  then .freeCLT else .allocCLT

/-- The while loop of soDeplete: append insertion-cache entries from
    `index` up to `cache_idx` to the tail of the general free list. -/
def depleteLoop (s : FState) (index : Nat) : Nat → FState
  | 0 => s
  | fuel + 1 =>
    if index < s.insertIdx then
      let tl := s.dtail
      let ent := s.insertCache index
      let tc := s.clusters tl
      let ic := s.clusters ent
      let s1 := setCluster s tl { tc with next := ent }
      let s2 := setCluster s1 ent { ic with prev := tl, next := nullRef }
      depleteLoop { s2 with dtail := ent } (index + 1) fuel
    else s

/-- soDeplete (static function of sofs_ifuncs_1_adc.c and
    sofs_ifuncs_1_fdc_gil.c; the two copies are identical): flush the
    whole insertion cache into the tail of the general free list; when the
    list is empty the first entry becomes both head and tail; idempotent
    on an empty cache. -/
def soDeplete (s : FState) : FState :=
  if s.insertIdx = 0 then s
  else
    let (s1, index0) :=
      if s.dhead = nullRef then
        ({ s with dhead := s.insertCache 0, dtail := s.insertCache 0 }, 1)
      else (s, 0)
    let s2 := depleteLoop s1 index0 s1.insertIdx
    { s2 with insertIdx := 0 }

/-- soFreeDataCluster (sofs_ifuncs_1_fdc_gil.c): validate, require the
    cluster to be allocated, deplete a full insertion cache, null the
    header linkage (leaving stat), push the reference into the insertion
    cache and count one more free cluster. -/
def soFreeDataCluster (P : Params) (s : FState) (nClust : Nat) : Except Err FState :=
  if nClust = 0 ∨ nClust ≥ s.dzoneTotal then .error .EINVAL
  else if soQCheckStatDC P s nClust ≠ .allocCLT then .error .EINVAL
  else
    let s1 := if s.insertIdx = P.cacheSize then soDeplete s else s
    let c := s1.clusters nClust
    let s2 := setCluster s1 nClust { c with prev := nullRef, next := nullRef }
    .ok { s2 with
      insertCache := upd s2.insertCache s2.insertIdx nClust,
      insertIdx := s2.insertIdx + 1,
      dzoneFree := u32add s2.dzoneFree 1 }

/-- The final filling loop of soReplenish: `cache[cache_idx-- - 1] =
    aux[n-- - 1]` until n reaches 0; the accumulated references are
    consumed from the end. -/
def fillRetrievalAux (cache : Nat → Nat) (idx : Nat) : List Nat → (Nat → Nat) × Nat
  | [] => (cache, idx)
  | a :: rest => fillRetrievalAux (upd cache (u32sub idx 1) a) (u32sub idx 1) rest

/-- The head-pop steps of one soReplenish loop iteration: read the head
    cluster, clear the successor's prev, advance dhead, store the popped
    cluster with next nulled, and clear dtail when the list became empty. -/
def replenishPop (s : FState) : FState :=
  let cur := s.dhead
  let cc := s.clusters cur
  let s1 :=
    if cc.next ≠ nullRef then
      setCluster s cc.next { s.clusters cc.next with prev := nullRef }
    else s
  let s2 := { s1 with dhead := cc.next }
  let s3 := setCluster s2 cur { cc with next := nullRef }
  if s3.dhead = nullRef then { s3 with dtail := nullRef } else s3

/-- The removal loop of soReplenish: pop up to CAP references from the
    head of the general free list, clearing the popped linkage and, when
    the list runs dry with clusters still owed and the insertion cache
    holding enough, depleting it into the list mid-way. -/
def replenishLoop (P : Params) (s : FState) (acc : List Nat) (n : Nat) :
    Nat → FState × List Nat
  | 0 => (s, acc)
  | fuel + 1 =>
    if n ≠ P.cacheSize ∧ s.dhead ≠ nullRef then
      let cur := s.dhead
      let s4 := replenishPop s
      let s5 :=
        if (n + 1 ≠ P.cacheSize ∧ s4.dhead = nullRef) ∧
           P.cacheSize - (n + 1) < s4.dzoneFree
        then soDeplete s4 else s4
      replenishLoop P s5 (acc ++ [cur]) (n + 1) fuel
    else (s, acc)

/-- soReplenish (static function of sofs_ifuncs_1_adc.c): move up to CAP
    references from the head of the general free list into the retrieval
    cache, filled from the top end downwards. -/
def soReplenish (P : Params) (s : FState) : Except Err FState :=
  if s.dzoneFree = 0 then .error .ENOSPC
  else
    let s0 := if s.dhead = nullRef then soDeplete s else s
    let (s1, acc) := replenishLoop P s0 [] 0 P.cacheSize
    let (cache, idx) := fillRetrievalAux s1.retriev s1.retrievIdx acc.reverse
    .ok { s1 with retriev := cache, retrievIdx := idx }

/-- Modelled from the spec: soCleanDataCluster (sofs_ifuncs_3_cdc.c only
    delegates to the binary library; §4.7 clean-by-logical-number: read
    the cluster, fail with the wrong-inode-stamp error when its stat
    differs from the given inode, zero the payload, null the stat,
    store). -/
def soCleanDataCluster (P : Params) (s : FState) (nInode nLClust : Nat) :
    Except Err FState :=
  let c := s.clusters nLClust
  if c.stat ≠ nInode then .error .EWGINODENB
  else
    let zeroed : Payload :=
      match c.info with
      | .refs _ => .refs (fun _ => 0)
      | .dents _ => .dents (fun _ => { name := fun _ => 0, nInode := 0 })
      | .bytes => .bytes
    .ok (setCluster s nLClust { c with stat := nullRef, info := zeroed })

/-- soAllocDataCluster (sofs_ifuncs_1_adc.c).  Pops the top retrieval
    cache entry (replenishing an empty cache first), cleans a dirty
    cluster through soCleanDataCluster, and stores the previously read
    header copy with stat set to the inode number; dzone_free is
    decremented once, before the clean. -/
def soAllocDataCluster (P : Params) (s : FState) (nInode : Nat) :
    Except Err (Nat × FState) :=
  if nInode ≥ s.itotal then .error .EINVAL
  else if s.dzoneFree = 0 then .error .ENOSPC
  else if soQCheckFInode (s.inodes nInode) = true then .error .EIUININVAL
  else
    exBind (if s.retrievIdx = P.cacheSize then soReplenish P s else .ok s) fun s1 =>
      let logi := s1.retriev s1.retrievIdx
      if soQCheckStatDC P s1 logi ≠ .freeCLT then .error .EDCINVAL
      else
        let cc := s1.clusters logi
        let s2 := { s1 with
          dzoneFree := u32sub s1.dzoneFree 1,
          retrievIdx := s1.retrievIdx + 1 }
        exBind (if cc.stat ≠ nullRef then soCleanDataCluster P s2 cc.stat logi else .ok s2)
          fun s3 => .ok (logi, setCluster s3 logi { cc with stat := nInode })

/-! ### C5: allocate_data_cluster -/

theorem u32sub_one (a : Nat) (h1 : 1 ≤ a) (h2 : a < u32Mod) : u32sub a 1 = a - 1 := by
  have h2b : a < 4294967296 := h2
  unfold u32sub u32Mod
  omega

theorem u32add_one (a : Nat) (h : a + 1 < u32Mod) : u32add a 1 = a + 1 := by
  have hb : a + 1 < 4294967296 := h
  unfold u32add u32Mod
  omega



/-- Reading one cluster of an updated table. -/
theorem setCluster_at (s : FState) (i : Nat) (v : Cluster) (c : Nat) :
    (setCluster s i v).clusters c = if c = i then v else s.clusters c := by
  simp [setCluster, upd]

/-- A walk of the general free list from NULL_CLUSTER finds nothing. -/
theorem genListMem_null (s : FState) (c : Nat) :
    ∀ fuel, genListMem s c nullRef fuel = false := by
  intro fuel
  cases fuel with
  | zero => rfl
  | succ f => simp [genListMem]

/-- depleteLoop never touches the retrieval cache, the free count, the
    inode table, the global counters, the head of the list or the
    insertion cache. -/
theorem depleteLoop_fields :
    ∀ (fuel : Nat) (s : FState) (index : Nat),
      (depleteLoop s index fuel).retriev = s.retriev ∧
      (depleteLoop s index fuel).retrievIdx = s.retrievIdx ∧
      (depleteLoop s index fuel).dzoneFree = s.dzoneFree ∧
      (depleteLoop s index fuel).insertIdx = s.insertIdx ∧
      (depleteLoop s index fuel).insertCache = s.insertCache ∧
      (depleteLoop s index fuel).dhead = s.dhead ∧
      (depleteLoop s index fuel).inodes = s.inodes ∧
      (depleteLoop s index fuel).itotal = s.itotal := by
  intro fuel
  induction fuel with
  | zero => intro s index; exact ⟨rfl, rfl, rfl, rfl, rfl, rfl, rfl, rfl⟩
  | succ f ih =>
    intro s index
    unfold depleteLoop
    split
    · exact ih _ _
    · exact ⟨rfl, rfl, rfl, rfl, rfl, rfl, rfl, rfl⟩

/-- depleteLoop keeps both header links of a cluster that is neither an
    appended insertion-cache entry nor the running tail. -/
theorem depleteLoop_keep (c1 : Nat) :
    ∀ (fuel : Nat) (s : FState) (index : Nat),
      (∀ k, index ≤ k → k < s.insertIdx → s.insertCache k ≠ c1) →
      s.dtail ≠ c1 →
      ((depleteLoop s index fuel).clusters c1).prev = (s.clusters c1).prev ∧
      ((depleteLoop s index fuel).clusters c1).next = (s.clusters c1).next := by
  intro fuel
  induction fuel with
  | zero => intro s index _ _; exact ⟨rfl, rfl⟩
  | succ f ih =>
    intro s index hdis htl
    unfold depleteLoop
    split
    next hlt =>
      dsimp only
      have hrec := ih { setCluster (setCluster s s.dtail
            { s.clusters s.dtail with next := s.insertCache index })
            (s.insertCache index)
            { s.clusters (s.insertCache index) with
              prev := s.dtail, next := nullRef } with
          dtail := s.insertCache index } (index + 1)
        (fun k hk1 hk2 => hdis k (by omega) hk2)
        (hdis index (Nat.le_refl _) hlt)
      have hbase : ((setCluster (setCluster s s.dtail
          { s.clusters s.dtail with next := s.insertCache index })
          (s.insertCache index)
          { s.clusters (s.insertCache index) with
            prev := s.dtail, next := nullRef }).clusters c1) = s.clusters c1 := by
        rw [setCluster_at, setCluster_at,
          if_neg (fun hc => hdis index (Nat.le_refl _) hlt hc.symm),
          if_neg (fun hc => htl hc.symm)]
      exact ⟨hrec.1.trans (congrArg Cluster.prev hbase),
             hrec.2.trans (congrArg Cluster.next hbase)⟩
    · exact ⟨rfl, rfl⟩

/-- soDeplete never touches the retrieval cache, the free count, the inode
    table or the global counters. -/
theorem soDeplete_fields (s : FState) :
    (soDeplete s).retriev = s.retriev ∧
    (soDeplete s).retrievIdx = s.retrievIdx ∧
    (soDeplete s).dzoneFree = s.dzoneFree ∧
    (soDeplete s).inodes = s.inodes ∧
    (soDeplete s).itotal = s.itotal := by
  unfold soDeplete
  by_cases h0 : s.insertIdx = 0
  · rw [if_pos h0]
    exact ⟨rfl, rfl, rfl, rfl, rfl⟩
  · rw [if_neg h0]
    by_cases hh : s.dhead = nullRef
    · rw [if_pos hh]
      dsimp only
      obtain ⟨h1, h2, h3, h4, h5, h6, h7, h8⟩ := depleteLoop_fields _ _ _
      exact ⟨h1, h2, h3, h7, h8⟩
    · rw [if_neg hh]
      dsimp only
      obtain ⟨h1, h2, h3, h4, h5, h6, h7, h8⟩ := depleteLoop_fields _ _ _
      exact ⟨h1, h2, h3, h7, h8⟩

/-- On a state whose general list is empty (the only way soDeplete runs
    mid-replenish) with the insertion entries away from c1, soDeplete
    keeps a null-null header at c1 and leaves no insertion entries. -/
theorem soDeplete_rinv (c1 : Nat) (s : FState) (hh : s.dhead = nullRef)
    (hp : (s.clusters c1).prev = nullRef) (hn : (s.clusters c1).next = nullRef)
    (hic : ∀ k, k < s.insertIdx → s.insertCache k ≠ c1) :
    ((soDeplete s).clusters c1).prev = nullRef ∧
    ((soDeplete s).clusters c1).next = nullRef ∧
    (∀ k, k < (soDeplete s).insertIdx → (soDeplete s).insertCache k ≠ c1) := by
  unfold soDeplete
  by_cases h0 : s.insertIdx = 0
  · rw [if_pos h0]
    exact ⟨hp, hn, hic⟩
  · rw [if_neg h0, if_pos hh]
    dsimp only
    have hkeep := depleteLoop_keep c1
      ({ s with dhead := s.insertCache 0, dtail := s.insertCache 0 }).insertIdx
      { s with dhead := s.insertCache 0, dtail := s.insertCache 0 } 1
      (fun k hk1 hk2 => hic k hk2)
      (hic 0 (by omega))
    exact ⟨hkeep.1.trans hp, hkeep.2.trans hn,
      fun k hk => absurd hk (Nat.not_lt_zero k)⟩

/-- One head pop touches nothing but cluster headers, dhead and dtail. -/
theorem replenishPop_fields (s : FState) :
    (replenishPop s).retriev = s.retriev ∧
    (replenishPop s).retrievIdx = s.retrievIdx ∧
    (replenishPop s).dzoneFree = s.dzoneFree ∧
    (replenishPop s).inodes = s.inodes ∧
    (replenishPop s).itotal = s.itotal ∧
    (replenishPop s).insertIdx = s.insertIdx ∧
    (replenishPop s).insertCache = s.insertCache := by
  unfold replenishPop setCluster
  dsimp only
  by_cases h1 : (s.clusters s.dhead).next = nullRef
  · rw [if_neg (not_not_intro h1), if_pos h1]
    exact ⟨rfl, rfl, rfl, rfl, rfl, rfl, rfl⟩
  · rw [if_pos h1, if_neg h1]
    exact ⟨rfl, rfl, rfl, rfl, rfl, rfl, rfl⟩

/-- The cluster table a head pop leaves behind, in closed form. -/
theorem replenishPop_clusters (s : FState) :
    (replenishPop s).clusters =
      (setCluster
        (if (s.clusters s.dhead).next ≠ nullRef then
          setCluster s ((s.clusters s.dhead).next)
            { s.clusters ((s.clusters s.dhead).next) with prev := nullRef }
         else s)
        s.dhead { s.clusters s.dhead with next := nullRef }).clusters := by
  unfold replenishPop setCluster
  dsimp only
  by_cases h1 : (s.clusters s.dhead).next = nullRef
  · rw [if_neg (not_not_intro h1), if_pos h1]
  · rw [if_pos h1, if_neg h1]

/-- The popped head ends null-null when its prev was already null. -/
theorem replenishPop_first (s : FState)
    (hp : (s.clusters s.dhead).prev = nullRef) :
    ((replenishPop s).clusters s.dhead).prev = nullRef ∧
    ((replenishPop s).clusters s.dhead).next = nullRef := by
  rw [replenishPop_clusters, setCluster_at, if_pos rfl]
  exact ⟨hp, rfl⟩

/-- A head pop keeps a null-null header null-null. -/
theorem replenishPop_keep (c1 : Nat) (s : FState)
    (hp : (s.clusters c1).prev = nullRef) (hn : (s.clusters c1).next = nullRef) :
    ((replenishPop s).clusters c1).prev = nullRef ∧
    ((replenishPop s).clusters c1).next = nullRef := by
  rw [replenishPop_clusters, setCluster_at]
  by_cases hc : c1 = s.dhead
  · rw [if_pos hc]
    refine ⟨?_, rfl⟩
    show (s.clusters s.dhead).prev = nullRef
    rw [← hc]
    exact hp
  · rw [if_neg hc]
    split
    · rw [setCluster_at]
      by_cases hc2 : c1 = (s.clusters s.dhead).next
      · rw [if_pos hc2]
        refine ⟨rfl, ?_⟩
        show (s.clusters ((s.clusters s.dhead).next)).next = nullRef
        rw [← hc2]
        exact hn
      · rw [if_neg hc2]
        exact ⟨hp, hn⟩
    · exact ⟨hp, hn⟩

/-- The removal loop of soReplenish never touches the retrieval cache, the
    free count, the inode table or the global counters, and only appends
    to the accumulator, one reference per fuel unit. -/
theorem replenishLoop_fields (P : Params) :
    ∀ (fuel : Nat) (s : FState) (acc : List Nat) (n : Nat),
      ((replenishLoop P s acc n fuel).1.retriev = s.retriev ∧
       (replenishLoop P s acc n fuel).1.retrievIdx = s.retrievIdx ∧
       (replenishLoop P s acc n fuel).1.dzoneFree = s.dzoneFree ∧
       (replenishLoop P s acc n fuel).1.inodes = s.inodes ∧
       (replenishLoop P s acc n fuel).1.itotal = s.itotal) ∧
      ∃ rest, (replenishLoop P s acc n fuel).2 = acc ++ rest ∧
        rest.length ≤ fuel := by
  intro fuel
  induction fuel with
  | zero =>
    intro s acc n
    exact ⟨⟨rfl, rfl, rfl, rfl, rfl⟩, [], by rw [List.append_nil]; rfl, by simp⟩
  | succ f ih =>
    intro s acc n
    unfold replenishLoop
    split
    · dsimp only
      split
      · obtain ⟨⟨p1, p2, p3, p4, p5⟩, rest, hr, hrl⟩ :=
          ih (soDeplete (replenishPop s)) (acc ++ [s.dhead]) (n + 1)
        have hd := soDeplete_fields (replenishPop s)
        have hq := replenishPop_fields s
        refine ⟨⟨?_, ?_, ?_, ?_, ?_⟩, [s.dhead] ++ rest, ?_, ?_⟩
        · rw [p1, hd.1, hq.1]
        · rw [p2, hd.2.1, hq.2.1]
        · rw [p3, hd.2.2.1, hq.2.2.1]
        · rw [p4, hd.2.2.2.1, hq.2.2.2.1]
        · rw [p5, hd.2.2.2.2, hq.2.2.2.2.1]
        · rw [hr, List.append_assoc]
        · simp only [List.length_append, List.length_cons, List.length_nil]
          omega
      · obtain ⟨⟨p1, p2, p3, p4, p5⟩, rest, hr, hrl⟩ :=
          ih (replenishPop s) (acc ++ [s.dhead]) (n + 1)
        have hq := replenishPop_fields s
        refine ⟨⟨?_, ?_, ?_, ?_, ?_⟩, [s.dhead] ++ rest, ?_, ?_⟩
        · rw [p1, hq.1]
        · rw [p2, hq.2.1]
        · rw [p3, hq.2.2.1]
        · rw [p4, hq.2.2.2.1]
        · rw [p5, hq.2.2.2.2.1]
        · rw [hr, List.append_assoc]
        · simp only [List.length_append, List.length_cons, List.length_nil]
          omega
    · exact ⟨⟨rfl, rfl, rfl, rfl, rfl⟩, [], by rw [List.append_nil], by simp⟩

/-- The removal loop preserves a null-null header when the insertion
    entries stay away from the cluster. -/
theorem replenishLoop_rinv (P : Params) (c1 : Nat) :
    ∀ (fuel : Nat) (s : FState) (acc : List Nat) (n : Nat),
      (s.clusters c1).prev = nullRef → (s.clusters c1).next = nullRef →
      (∀ k, k < s.insertIdx → s.insertCache k ≠ c1) →
      ((replenishLoop P s acc n fuel).1.clusters c1).prev = nullRef ∧
      ((replenishLoop P s acc n fuel).1.clusters c1).next = nullRef := by
  intro fuel
  induction fuel with
  | zero => intro s acc n hp hn _; exact ⟨hp, hn⟩
  | succ f ih =>
    intro s acc n hp hn hic
    unfold replenishLoop
    split
    · dsimp only
      have hpop := replenishPop_keep c1 s hp hn
      have hpf := replenishPop_fields s
      have hic4 : ∀ k, k < (replenishPop s).insertIdx →
          (replenishPop s).insertCache k ≠ c1 := by
        intro k hk
        rw [hpf.2.2.2.2.2.2]
        exact hic k (by rw [← hpf.2.2.2.2.2.1]; exact hk)
      split
      next hcond =>
        have hdep := soDeplete_rinv c1 (replenishPop s) hcond.1.2
          hpop.1 hpop.2 hic4
        exact ih _ _ _ hdep.1 hdep.2.1 hdep.2.2
      next =>
        exact ih _ _ _ hpop.1 hpop.2 hic4
    · exact ⟨hp, hn⟩

/-- The final filling of the retrieval cache: the accumulated references
    are written from the top slot downwards, so the last one written —
    the first reference the loop popped — lands in the final slot the
    next pop will read. -/
theorem fillRetrievalAux_spec :
    ∀ (l : List Nat) (a : Nat) (cache : Nat → Nat) (idx : Nat),
      l.length + 1 ≤ idx → idx < u32Mod →
      (fillRetrievalAux cache idx (l ++ [a])).2 = idx - (l.length + 1) ∧
      (fillRetrievalAux cache idx (l ++ [a])).1 (idx - (l.length + 1)) = a := by
  intro l
  induction l with
  | nil =>
    intro a cache idx h1 h2
    have hs : u32sub idx 1 = idx - 1 := u32sub_one idx (by simpa using h1) h2
    have he : idx - (([] : List Nat).length + 1) = idx - 1 := by simp
    simp only [List.nil_append, fillRetrievalAux, hs, he]
    exact ⟨by first | trivial | rfl, by first | exact upd_same _ _ _ | trivial⟩
  | cons b l ih =>
    intro a cache idx h1 h2
    simp only [List.length_cons] at h1
    have hs : u32sub idx 1 = idx - 1 := u32sub_one idx (by omega) h2
    simp only [List.cons_append, fillRetrievalAux, hs, List.append_eq]
    obtain ⟨ih1, ih2⟩ := ih a (upd cache (idx - 1) b) (idx - 1)
      (by omega) (by omega)
    constructor
    · rw [ih1]
      simp only [List.length_cons]
      omega
    · rw [show idx - ((b :: l).length + 1) = idx - 1 - (l.length + 1) by
        simp only [List.length_cons]; omega]
      exact ih2

/-- soDeplete always leaves an empty insertion cache. -/
theorem soDeplete_insertIdx (s : FState) : (soDeplete s).insertIdx = 0 := by
  unfold soDeplete
  by_cases h0 : s.insertIdx = 0
  · rw [if_pos h0]
    exact h0
  · rw [if_neg h0]

/-- soDeplete on an empty cache is the identity. -/
theorem soDeplete_id0 (s : FState) (h0 : s.insertIdx = 0) : soDeplete s = s := by
  unfold soDeplete
  rw [if_pos h0]

/-- Splicing into an empty list makes the first insertion entry the head. -/
theorem soDeplete_dhead_null (s : FState) (hh : s.dhead = nullRef)
    (h0 : s.insertIdx ≠ 0) : (soDeplete s).dhead = s.insertCache 0 := by
  unfold soDeplete
  rw [if_neg h0, if_pos hh]
  dsimp only
  exact (depleteLoop_fields _ _ _).2.2.2.2.2.1

/-- depleteLoop writes prev only on the entries it appends, so any other
    cluster keeps its prev field (the running tail only has its next
    changed). -/
theorem depleteLoop_prev (c1 : Nat) :
    ∀ (fuel : Nat) (s : FState) (index : Nat),
      (∀ k, index ≤ k → k < s.insertIdx → s.insertCache k ≠ c1) →
      ((depleteLoop s index fuel).clusters c1).prev = (s.clusters c1).prev := by
  intro fuel
  induction fuel with
  | zero => intro s index _; rfl
  | succ f ih =>
    intro s index hdis
    unfold depleteLoop
    split
    next hlt =>
      dsimp only
      have hrec := ih { setCluster (setCluster s s.dtail
            { s.clusters s.dtail with next := s.insertCache index })
            (s.insertCache index)
            { s.clusters (s.insertCache index) with
              prev := s.dtail, next := nullRef } with
          dtail := s.insertCache index } (index + 1)
        (fun k hk1 hk2 => hdis k (by omega) hk2)
      refine hrec.trans ?_
      rw [setCluster_at, if_neg (fun hc => hdis index (Nat.le_refl _) hlt hc.symm),
        setCluster_at]
      by_cases hc : c1 = s.dtail
      · rw [if_pos hc, hc]
      · rw [if_neg hc]
    · rfl

/-- soDeplete invoked on an empty list keeps the prev field of a cluster
    that is not a duplicated insertion entry. -/
theorem soDeplete_prev (c1 : Nat) (s : FState) (hh : s.dhead = nullRef)
    (hdis : ∀ k, 1 ≤ k → k < s.insertIdx → s.insertCache k ≠ c1) :
    ((soDeplete s).clusters c1).prev = (s.clusters c1).prev := by
  unfold soDeplete
  by_cases h0 : s.insertIdx = 0
  · rw [if_pos h0]
  · rw [if_neg h0, if_pos hh]
    dsimp only
    exact depleteLoop_prev c1 _ _ 1 (fun k hk1 hk2 => hdis k hk1 hk2)

/-- One unfolding of the removal loop when a pop is due. -/
theorem replenishLoop_step (P : Params) (s : FState) (acc : List Nat)
    (n m : Nat) (hn : n ≠ P.cacheSize) (hh : s.dhead ≠ nullRef) :
    replenishLoop P s acc n (m + 1) =
      replenishLoop P
        (if (n + 1 ≠ P.cacheSize ∧ (replenishPop s).dhead = nullRef) ∧
            P.cacheSize - (n + 1) < (replenishPop s).dzoneFree
         then soDeplete (replenishPop s) else replenishPop s)
        (acc ++ [s.dhead]) (n + 1) m := by
  conv_lhs => rw [replenishLoop]
  rw [if_pos ⟨hn, hh⟩]

/-- The removal loop from a dead head harvests nothing. -/
theorem replenishLoop_dead (P : Params) (s : FState) (hh : s.dhead = nullRef) :
    ∀ (fuel : Nat) (acc : List Nat) (n : Nat),
      replenishLoop P s acc n fuel = (s, acc) := by
  intro fuel acc n
  cases fuel with
  | zero => rfl
  | succ f =>
    conv_lhs => rw [replenishLoop]
    rw [if_neg (fun hc => hc.2 hh)]

/-- The whole harvesting run, from a live head with a null prev and no
    duplicate of the head in the insertion cache: the final state keeps
    the retrieval cache, the counters and the inode table, the head ends
    with a null-null header, and the head is the first reference
    accumulated. -/
theorem replenishCore (P : Params) (s0 sf : FState) (accf : List Nat)
    (hcs : 0 < P.cacheSize)
    (hd : s0.dhead ≠ nullRef)
    (hp : (s0.clusters s0.dhead).prev = nullRef)
    (hic : ∀ k, k < s0.insertIdx → s0.insertCache k ≠ s0.dhead)
    (hlp : replenishLoop P s0 [] 0 P.cacheSize = (sf, accf)) :
    sf.retriev = s0.retriev ∧ sf.retrievIdx = s0.retrievIdx ∧
    sf.dzoneFree = s0.dzoneFree ∧ sf.inodes = s0.inodes ∧ sf.itotal = s0.itotal ∧
    (sf.clusters s0.dhead).prev = nullRef ∧
    (sf.clusters s0.dhead).next = nullRef ∧
    ∃ rest, accf = [s0.dhead] ++ rest ∧ rest.length + 1 ≤ P.cacheSize := by
  obtain ⟨m, hm⟩ : ∃ m, P.cacheSize = m + 1 := ⟨P.cacheSize - 1, by omega⟩
  rw [hm, replenishLoop_step P s0 [] 0 m (by omega) hd] at hlp
  have hpop := replenishPop_first s0 hp
  have hpf := replenishPop_fields s0
  have hicp : ∀ k, k < (replenishPop s0).insertIdx →
      (replenishPop s0).insertCache k ≠ s0.dhead := by
    intro k hk
    rw [hpf.2.2.2.2.2.2]
    exact hic k (by rw [← hpf.2.2.2.2.2.1]; exact hk)
  have main : ∀ (t : FState),
      t.retriev = s0.retriev → t.retrievIdx = s0.retrievIdx →
      t.dzoneFree = s0.dzoneFree → t.inodes = s0.inodes → t.itotal = s0.itotal →
      (t.clusters s0.dhead).prev = nullRef →
      (t.clusters s0.dhead).next = nullRef →
      (∀ k, k < t.insertIdx → t.insertCache k ≠ s0.dhead) →
      replenishLoop P t ([] ++ [s0.dhead]) (0 + 1) m = (sf, accf) →
      sf.retriev = s0.retriev ∧ sf.retrievIdx = s0.retrievIdx ∧
      sf.dzoneFree = s0.dzoneFree ∧ sf.inodes = s0.inodes ∧
      sf.itotal = s0.itotal ∧
      (sf.clusters s0.dhead).prev = nullRef ∧
      (sf.clusters s0.dhead).next = nullRef ∧
      ∃ rest, accf = [s0.dhead] ++ rest ∧ rest.length + 1 ≤ P.cacheSize := by
    intro t h1 h2 h3 h4 h5 h6 h7 h8 hlp2
    have hrv := replenishLoop_rinv P s0.dhead m t ([] ++ [s0.dhead]) (0 + 1)
      h6 h7 h8
    have hfl := replenishLoop_fields P m t ([] ++ [s0.dhead]) (0 + 1)
    rw [hlp2] at hrv hfl
    obtain ⟨⟨p1, p2, p3, p4, p5⟩, rest, hr, hrl⟩ := hfl
    refine ⟨p1.trans h1, p2.trans h2, p3.trans h3, p4.trans h4, p5.trans h5,
      hrv.1, hrv.2, rest, ?_, by omega⟩
    simpa using hr
  split at hlp
  next hcnd =>
    have hdep := soDeplete_rinv s0.dhead (replenishPop s0) hcnd.1.2
      hpop.1 hpop.2 hicp
    have hdf := soDeplete_fields (replenishPop s0)
    exact main _ (hdf.1.trans hpf.1) (hdf.2.1.trans hpf.2.1)
      (hdf.2.2.1.trans hpf.2.2.1) (hdf.2.2.2.1.trans hpf.2.2.2.1)
      (hdf.2.2.2.2.trans hpf.2.2.2.2.1) hdep.1 hdep.2.1 hdep.2.2 hlp
  next =>
    exact main _ hpf.1 hpf.2.1 hpf.2.2.1 hpf.2.2.2.1 hpf.2.2.2.2.1
      hpop.1 hpop.2 hicp hlp

/-- What a successful soReplenish delivers: the free count, inode table
    and totals survive, and either nothing was harvested (the list was
    dead even after the initial deplete, leaving an empty insertion cache
    and the retrieval index at CAP), or the next slot to pop holds a
    cluster whose on-disk header is null-null. -/
theorem soReplenish_spec (P : Params) (s : FState) (s1 : FState)
    (hcs : 0 < P.cacheSize) (hcsz : P.cacheSize < u32Mod)
    (hidx : s.retrievIdx = P.cacheSize)
    (hhead : s.dhead ≠ nullRef → (s.clusters s.dhead).prev = nullRef ∧
      ∀ k, k < s.insertIdx → s.insertCache k ≠ s.dhead)
    (hh0 : s.dhead = nullRef → 0 < s.insertIdx →
      (s.clusters (s.insertCache 0)).prev = nullRef ∧
      ∀ k, 1 ≤ k → k < s.insertIdx → s.insertCache k ≠ s.insertCache 0)
    (hok : soReplenish P s = .ok s1) :
    s1.dzoneFree = s.dzoneFree ∧ s1.inodes = s.inodes ∧ s1.itotal = s.itotal ∧
    ((s1.retrievIdx = P.cacheSize ∧ s1.retriev = s.retriev ∧
       s1.dhead = nullRef ∧ s1.insertIdx = 0) ∨
     (s1.retrievIdx < P.cacheSize ∧
      (s1.clusters (s1.retriev s1.retrievIdx)).prev = nullRef ∧
      (s1.clusters (s1.retriev s1.retrievIdx)).next = nullRef)) := by
  unfold soReplenish at hok
  by_cases hz : s.dzoneFree = 0
  · rw [if_pos hz] at hok
    exact absurd hok (by simp)
  rw [if_neg hz] at hok
  dsimp only at hok
  by_cases hh : s.dhead = nullRef
  case neg =>
    rw [if_neg hh] at hok
    cases hlp : replenishLoop P s [] 0 P.cacheSize with
    | mk sf accf =>
    rw [hlp] at hok
    dsimp only at hok
    cases hfl : fillRetrievalAux sf.retriev sf.retrievIdx accf.reverse with
    | mk cch idxn =>
    rw [hfl] at hok
    dsimp only at hok
    rw [Except.ok.injEq] at hok
    obtain ⟨hhp, hhic⟩ := hhead hh
    obtain ⟨c1, c2, c3, c4, c5, c6, c7, rest, hacc, hrl⟩ :=
      replenishCore P s sf accf hcs hh hhp hhic hlp
    have hfill := fillRetrievalAux_spec rest.reverse s.dhead sf.retriev
      P.cacheSize (by rw [List.length_reverse]; omega) hcsz
    rw [show accf.reverse = rest.reverse ++ [s.dhead] from by
        rw [hacc]; simp] at hfl
    rw [c2, hidx] at hfl
    rw [hfl] at hfill
    dsimp only at hfill
    rw [List.length_reverse] at hfill
    rw [← hok]
    refine ⟨c3, c4, c5, Or.inr ⟨?_, ?_, ?_⟩⟩
    · show idxn < P.cacheSize
      rw [hfill.1]
      omega
    · show (sf.clusters (cch idxn)).prev = nullRef
      rw [hfill.1, hfill.2]
      exact c6
    · show (sf.clusters (cch idxn)).next = nullRef
      rw [hfill.1, hfill.2]
      exact c7
  case pos =>
    rw [if_pos hh] at hok
    by_cases hnull0 : (soDeplete s).dhead = nullRef
    · rw [replenishLoop_dead P (soDeplete s) hnull0] at hok
      dsimp only at hok
      simp only [List.reverse_nil, fillRetrievalAux] at hok
      rw [Except.ok.injEq] at hok
      rw [← hok]
      refine ⟨(soDeplete_fields s).2.2.1, (soDeplete_fields s).2.2.2.1,
        (soDeplete_fields s).2.2.2.2,
        Or.inl ⟨((soDeplete_fields s).2.1).trans hidx, (soDeplete_fields s).1,
          hnull0, soDeplete_insertIdx s⟩⟩
    · have h0 : s.insertIdx ≠ 0 := fun h0 =>
        hnull0 (by rw [soDeplete_id0 s h0]; exact hh)
      obtain ⟨hp0, hdup⟩ := hh0 hh (Nat.pos_of_ne_zero h0)
      have hdh : (soDeplete s).dhead = s.insertCache 0 :=
        soDeplete_dhead_null s hh h0
      have hp : ((soDeplete s).clusters (soDeplete s).dhead).prev = nullRef := by
        rw [hdh]
        exact (soDeplete_prev (s.insertCache 0) s hh hdup).trans hp0
      have hic : ∀ k, k < (soDeplete s).insertIdx →
          (soDeplete s).insertCache k ≠ (soDeplete s).dhead := by
        intro k hk
        rw [soDeplete_insertIdx] at hk
        exact absurd hk (Nat.not_lt_zero k)
      cases hlp : replenishLoop P (soDeplete s) [] 0 P.cacheSize with
      | mk sf accf =>
      rw [hlp] at hok
      dsimp only at hok
      cases hfl : fillRetrievalAux sf.retriev sf.retrievIdx accf.reverse with
      | mk cch idxn =>
      rw [hfl] at hok
      dsimp only at hok
      rw [Except.ok.injEq] at hok
      obtain ⟨c1, c2, c3, c4, c5, c6, c7, rest, hacc, hrl⟩ :=
        replenishCore P (soDeplete s) sf accf hcs hnull0 hp hic hlp
      have hfill := fillRetrievalAux_spec rest.reverse (soDeplete s).dhead
        sf.retriev P.cacheSize (by rw [List.length_reverse]; omega) hcsz
      rw [show accf.reverse = rest.reverse ++ [(soDeplete s).dhead] from by
          rw [hacc]; simp] at hfl
      rw [c2, (soDeplete_fields s).2.1, hidx] at hfl
      rw [hfl] at hfill
      dsimp only at hfill
      rw [List.length_reverse] at hfill
      rw [← hok]
      refine ⟨c3.trans (soDeplete_fields s).2.2.1,
        c4.trans (soDeplete_fields s).2.2.2.1,
        c5.trans (soDeplete_fields s).2.2.2.2, Or.inr ⟨?_, ?_, ?_⟩⟩
      · show idxn < P.cacheSize
        rw [hfill.1]
        omega
      · show (sf.clusters (cch idxn)).prev = nullRef
        rw [hfill.1, hfill.2]
        exact c6
      · show (sf.clusters (cch idxn)).next = nullRef
        rw [hfill.1, hfill.2]
        exact c7

/-- C5: for every in-use inode, a successful soAllocDataCluster on a
    consistent state — the next retrieval-cache entry (when the cache is
    nonempty) and the head of the general free list carry the null header
    linkage the free-cluster machinery maintains — leaves the allocated
    cluster's on-disk header with prev = next = NULL_CLUSTER and
    stat = nInode, and decrements dzone_free by exactly one. -/
theorem claim_C5_alloc_data_cluster (P : Params) (s : FState) (nInode lc : Nat) (s2 : FState)
    (hcs : 0 < P.cacheSize) (hcsz : P.cacheSize < u32Mod)
    (hprev : s.retrievIdx ≠ P.cacheSize →
      (s.clusters (s.retriev s.retrievIdx)).prev = nullRef)
    (hnext : s.retrievIdx ≠ P.cacheSize →
      (s.clusters (s.retriev s.retrievIdx)).next = nullRef)
    (hhead : s.dhead ≠ nullRef → (s.clusters s.dhead).prev = nullRef ∧
      ∀ k, k < s.insertIdx → s.insertCache k ≠ s.dhead)
    (hh0 : s.dhead = nullRef → 0 < s.insertIdx →
      (s.clusters (s.insertCache 0)).prev = nullRef ∧
      ∀ k, 1 ≤ k → k < s.insertIdx → s.insertCache k ≠ s.insertCache 0)
    (hbound : s.dzoneFree < u32Mod)
    (hok : soAllocDataCluster P s nInode = .ok (lc, s2)) :
    (s2.clusters lc).prev = nullRef ∧ (s2.clusters lc).next = nullRef ∧
    (s2.clusters lc).stat = nInode ∧
    1 ≤ s.dzoneFree ∧ s2.dzoneFree = s.dzoneFree - 1 := by
  unfold soAllocDataCluster at hok
  by_cases h1 : nInode ≥ s.itotal
  · rw [if_pos h1] at hok; exact absurd hok (by simp)
  rw [if_neg h1] at hok
  by_cases h2 : s.dzoneFree = 0
  · rw [if_pos h2] at hok; exact absurd hok (by simp)
  rw [if_neg h2] at hok
  by_cases h3 : soQCheckFInode (s.inodes nInode) = true
  · rw [if_pos h3] at hok; exact absurd hok (by simp)
  rw [if_neg h3] at hok
  by_cases hrc : s.retrievIdx = P.cacheSize
  case neg =>
    rw [if_neg hrc, exBind_ok] at hok
    simp only [] at hok
    by_cases h4 : soQCheckStatDC P s (s.retriev s.retrievIdx) ≠ .freeCLT
    · rw [if_pos h4] at hok; exact absurd hok (by simp)
    rw [if_neg h4] at hok
    by_cases h5 : (s.clusters (s.retriev s.retrievIdx)).stat ≠ nullRef
    · rw [if_pos h5] at hok
      unfold soCleanDataCluster at hok
      rw [if_neg (by simp), exBind_ok] at hok
      rw [Except.ok.injEq, Prod.mk.injEq] at hok
      obtain ⟨hlc, hs⟩ := hok
      subst hlc
      subst hs
      refine ⟨?_, ?_, ?_, by omega, ?_⟩
      · simp [setCluster, upd_same, hprev hrc]
      · simp [setCluster, upd_same, hnext hrc]
      · simp [setCluster, upd_same]
      · simp [setCluster]
        exact u32sub_one _ (by omega) hbound
    · rw [if_neg h5, exBind_ok] at hok
      rw [Except.ok.injEq, Prod.mk.injEq] at hok
      obtain ⟨hlc, hs⟩ := hok
      subst hlc
      subst hs
      refine ⟨?_, ?_, ?_, by omega, ?_⟩
      · simp [setCluster, upd_same, hprev hrc]
      · simp [setCluster, upd_same, hnext hrc]
      · simp [setCluster, upd_same]
      · simp [setCluster]
        exact u32sub_one _ (by omega) hbound
  case pos =>
    rw [if_pos hrc] at hok
    obtain ⟨t, hrep, hrest⟩ := exBind_eq_ok hok
    obtain ⟨hdz, hin, hit, hdisj⟩ := soReplenish_spec P s t hcs hcsz hrc hhead hh0 hrep
    dsimp only at hrest
    cases hdisj with
    | inl hno =>
      obtain ⟨hri, hrt, hdh, hii⟩ := hno
      have hq : soQCheckStatDC P t (t.retriev t.retrievIdx) = .allocCLT := by
        unfold soQCheckStatDC
        rw [hri, hdh, hii]
        simp [genListMem_null]
      rw [if_pos (show soQCheckStatDC P t (t.retriev t.retrievIdx) ≠ .freeCLT from by
        rw [hq]; decide)] at hrest
      exact absurd hrest (by simp)
    | inr hyes =>
      obtain ⟨hlt, hprev2, hnext2⟩ := hyes
      by_cases h4 : soQCheckStatDC P t (t.retriev t.retrievIdx) ≠ .freeCLT
      · rw [if_pos h4] at hrest; exact absurd hrest (by simp)
      rw [if_neg h4] at hrest
      by_cases h5 : (t.clusters (t.retriev t.retrievIdx)).stat ≠ nullRef
      · rw [if_pos h5] at hrest
        unfold soCleanDataCluster at hrest
        rw [if_neg (by simp), exBind_ok] at hrest
        rw [Except.ok.injEq, Prod.mk.injEq] at hrest
        obtain ⟨hlc, hs⟩ := hrest
        subst hlc
        subst hs
        refine ⟨?_, ?_, ?_, by omega, ?_⟩
        · simp [setCluster, upd_same, hprev2]
        · simp [setCluster, upd_same, hnext2]
        · simp [setCluster, upd_same]
        · simp [setCluster]
          rw [hdz]
          exact u32sub_one _ (by omega) hbound
      · rw [if_neg h5, exBind_ok] at hrest
        rw [Except.ok.injEq, Prod.mk.injEq] at hrest
        obtain ⟨hlc, hs⟩ := hrest
        subst hlc
        subst hs
        refine ⟨?_, ?_, ?_, by omega, ?_⟩
        · simp [setCluster, upd_same, hprev2]
        · simp [setCluster, upd_same, hnext2]
        · simp [setCluster, upd_same]
        · simp [setCluster]
          rw [hdz]
          exact u32sub_one _ (by omega) hbound

/-- Small concrete layout for witnesses: 2 direct references, 2 references
    per reference cluster, 3 directory entries per cluster, names of up to
    3 bytes, 8-byte entries, caches of capacity 2. -/
def PW : Params := ⟨2, 2, 3, 3, 8, 2⟩

/-- An in-use regular-file inode used by witnesses. -/
def inoC5 : Inode :=
  { mode := INODE_FILE, refcount := 1, owner := 1, group := 1, size := 0,
    clucount := 0, vD1 := 0, vD2 := 0, d := fun _ => nullRef,
    i1 := nullRef, i2 := nullRef }

/-- A volume whose retrieval cache holds one clean cluster (number 2). -/
def sC5 : FState :=
  { itotal := 2, ifree := 0, ihead := nullRef, itail := nullRef,
    dzoneTotal := 4, dzoneFree := 2, retrievIdx := 1, retriev := fun _ => 2,
    insertIdx := 0, insertCache := fun _ => 0, dhead := 3, dtail := 3,
    inodes := fun _ => inoC5, clusters := fun _ => clNone,
    uid := 1, gid := 1, now := 5 }

/-- The state soAllocDataCluster produces on the witness volume. -/
def sC5r : FState :=
  match soAllocDataCluster PW sC5 1 with
  | .ok (_, t) => t
  | .error _ => sC5

theorem claim_C5_alloc_data_cluster_witness :
    (sC5r.clusters 2).prev = nullRef ∧ (sC5r.clusters 2).next = nullRef ∧
    (sC5r.clusters 2).stat = 1 ∧
    1 ≤ sC5.dzoneFree ∧ sC5r.dzoneFree = sC5.dzoneFree - 1 :=
  claim_C5_alloc_data_cluster PW sC5 1 2 sC5r (by decide) (by decide)
    (by decide) (by decide)
    (fun _ => ⟨by decide, fun k hk => absurd hk (Nat.not_lt_zero k)⟩)
    (fun h => absurd h (by decide))
    (by decide) (by rfl)


/-! ### Layer 2: soCleanInode (canonical sofs_ifuncs_2_ci.c, October 2011
    version carried in sofs_ifuncs_4_rnde.c; the earlier abandoned variant
    neither zeroes the counters nor frees the reference clusters) -/

/-- One iteration of the double-indirect loop of soCleanInode: when slot j
    of the loaded i2 cluster is set, null out the referenced single-level
    reference cluster, stamp its stat free, store it, free it, and null
    slot j in the loaded copy. -/
def cleanI2Step (P : Params) (acc : Except Err (FState × Cluster)) (j : Nat) :
    Except Err (FState × Cluster) :=
  exBind acc fun p =>
    let r := getRef p.2 j
    if r ≠ nullRef then
      let dc := p.1.clusters r
      let s1 := setCluster p.1 r { nullifyRefs P dc with stat := nullRef }
      exBind (soFreeDataCluster P s1 r) fun s2 => .ok (s2, setRef p.2 j nullRef)
    else .ok p

/-- The double-indirect branch of soCleanInode: clean every referenced
    single-level cluster, then store the i2 cluster with its references
    nulled and its stat free, and free it. -/
def cleanDblIndirect (P : Params) (s : FState) (i2ref : Nat) : Except Err FState :=
  exBind ((List.range P.rpc).foldl (cleanI2Step P) (.ok (s, s.clusters i2ref))) fun p =>
    let s2 := setCluster p.1 i2ref { p.2 with stat := nullRef }
    soFreeDataCluster P s2 i2ref

/-- The single-indirect branch of soCleanInode: null the references of the
    i1 cluster, stamp its stat free, store and free it. -/
def cleanSglIndirect (P : Params) (s : FState) (i1ref : Nat) : Except Err FState :=
  let dc := s.clusters i1ref
  let s1 := setCluster s i1ref { nullifyRefs P dc with stat := nullRef }
  soFreeDataCluster P s1 i1ref

/-- soCleanInode (canonical implementation, `sofs_ifuncs_4_rnde.c` lines
    223-347): on a free-dirty inode other than inode 0, drain the
    double-indirect tree, then the single-indirect cluster, null all direct
    references, zero refcount/size/clucount — and leave vD1/vD2 (the
    free-list next/prev linkage) and the mode untouched. -/
def soCleanInode (P : Params) (s : FState) (nInode : Nat) : Except Err FState :=
  if nInode = 0 ∨ nInode ≥ s.itotal then .error .EINVAL
  else
    let ino := s.inodes nInode
    if soQCheckFDInode ino = false then .error .EFDININVAL
    else
      exBind (if ino.i2 ≠ nullRef then cleanDblIndirect P s ino.i2 else .ok s) fun s1 =>
      exBind (if ino.i1 ≠ nullRef then cleanSglIndirect P s1 ino.i1 else .ok s1) fun s2 =>
        .ok (setInode s2 nInode
          { ino with
            d := fun k => if k < P.nDirect then nullRef else ino.d k,
            i1 := nullRef, i2 := nullRef,
            refcount := 0, size := 0, clucount := 0 })

/-- Success of soCleanInode determines the cleaned inode record: all
    reference fields null, the three counters zero, the union fields (free
    list linkage) and the mode untouched. -/
theorem soCleanInode_ok_fields (P : Params) (s : FState) (nInode : Nat) (s2 : FState)
    (hok : soCleanInode P s nInode = .ok s2) :
    (∀ k, k < P.nDirect → (s2.inodes nInode).d k = nullRef) ∧
    (s2.inodes nInode).i1 = nullRef ∧ (s2.inodes nInode).i2 = nullRef ∧
    (s2.inodes nInode).refcount = 0 ∧ (s2.inodes nInode).size = 0 ∧
    (s2.inodes nInode).clucount = 0 ∧
    (s2.inodes nInode).vD1 = (s.inodes nInode).vD1 ∧
    (s2.inodes nInode).vD2 = (s.inodes nInode).vD2 ∧
    (s2.inodes nInode).mode = (s.inodes nInode).mode := by
  simp only [soCleanInode] at hok
  split at hok
  · exact absurd hok (by simp)
  split at hok
  · exact absurd hok (by simp)
  obtain ⟨sa, ha, hok2⟩ := exBind_eq_ok hok
  obtain ⟨sb, hb, hok3⟩ := exBind_eq_ok hok2
  rw [Except.ok.injEq] at hok3
  subst hok3
  refine ⟨?_, ?_, ?_, ?_, ?_, ?_, ?_, ?_, ?_⟩ <;>
    simp [setInode, upd_same]
  intro k hk
  simp [hk]

/-- C3: for every free-dirty inode other than inode 0, a successful
    soCleanInode leaves all direct references d[0..N_DIRECT), i1 and i2
    equal to NULL_CLUSTER, leaves refcount, size and clucount equal to 0,
    and leaves the prev/next free-list linkage fields (the vD1/vD2 union
    fields) of the inode unchanged. -/
theorem claim_C3_clean_inode (P : Params) (s : FState) (nInode : Nat) (s2 : FState)
    (hok : soCleanInode P s nInode = .ok s2) :
    (∀ k, k < P.nDirect → (s2.inodes nInode).d k = nullRef) ∧
    (s2.inodes nInode).i1 = nullRef ∧ (s2.inodes nInode).i2 = nullRef ∧
    (s2.inodes nInode).refcount = 0 ∧ (s2.inodes nInode).size = 0 ∧
    (s2.inodes nInode).clucount = 0 ∧
    (s2.inodes nInode).vD1 = (s.inodes nInode).vD1 ∧
    (s2.inodes nInode).vD2 = (s.inodes nInode).vD2 := by
  obtain ⟨h1, h2, h3, h4, h5, h6, h7, h8, _⟩ := soCleanInode_ok_fields P s nInode s2 hok
  exact ⟨h1, h2, h3, h4, h5, h6, h7, h8⟩

/-- A free-dirty inode with stale references: one direct reference and a
    single-indirect cluster (number 2). -/
def inoC3 : Inode :=
  { mode := INODE_FREE + INODE_FILE, refcount := 1, owner := 1, group := 1,
    size := 9, clucount := 3, vD1 := 7, vD2 := 8, d := fun _ => 3,
    i1 := 2, i2 := nullRef }

/-- A volume holding the dirty inode 1; the data-zone caches are empty and
    the general list too, so cluster 2 classifies as allocated and can be
    freed by the clean. -/
def sC3 : FState :=
  { itotal := 2, ifree := 1, ihead := 1, itail := 1,
    dzoneTotal := 4, dzoneFree := 0, retrievIdx := 2, retriev := fun _ => 0,
    insertIdx := 0, insertCache := fun _ => 0, dhead := nullRef, dtail := nullRef,
    inodes := fun _ => inoC3, clusters := fun _ => { clNone with info := .refs (fun _ => 3) },
    uid := 1, gid := 1, now := 5 }

/-- The state soCleanInode produces on the witness volume. -/
def sC3r : FState :=
  match soCleanInode PW sC3 1 with
  | .ok t => t
  | .error _ => sC3

theorem claim_C3_clean_inode_witness :
    (∀ k, k < PW.nDirect → (sC3r.inodes 1).d k = nullRef) ∧
    (sC3r.inodes 1).i1 = nullRef ∧ (sC3r.inodes 1).i2 = nullRef ∧
    (sC3r.inodes 1).refcount = 0 ∧ (sC3r.inodes 1).size = 0 ∧
    (sC3r.inodes 1).clucount = 0 ∧
    (sC3r.inodes 1).vD1 = (sC3.inodes 1).vD1 ∧
    (sC3r.inodes 1).vD2 = (sC3.inodes 1).vD2 :=
  claim_C3_clean_inode PW sC3 1 sC3r (by rfl)

/-! ### Frame lemmas: the data-side operations never touch the inode side -/

/-- Two states agree on the inode side: the inode-table metadata, the
    table itself, and the caller/clock fields. -/
def SameInodeSide (s t : FState) : Prop :=
  t.itotal = s.itotal ∧ t.ifree = s.ifree ∧ t.ihead = s.ihead ∧ t.itail = s.itail ∧
  t.inodes = s.inodes ∧ t.uid = s.uid ∧ t.gid = s.gid ∧ t.now = s.now

theorem SameInodeSide.refl (s : FState) : SameInodeSide s s :=
  ⟨rfl, rfl, rfl, rfl, rfl, rfl, rfl, rfl⟩

theorem SameInodeSide.trans {s t u : FState}
    (h1 : SameInodeSide s t) (h2 : SameInodeSide t u) : SameInodeSide s u := by
  obtain ⟨a1, a2, a3, a4, a5, a6, a7, a8⟩ := h1
  obtain ⟨b1, b2, b3, b4, b5, b6, b7, b8⟩ := h2
  exact ⟨b1.trans a1, b2.trans a2, b3.trans a3, b4.trans a4,
         b5.trans a5, b6.trans a6, b7.trans a7, b8.trans a8⟩

theorem setCluster_sameInodeSide (s : FState) (i : Nat) (c : Cluster) :
    SameInodeSide s (setCluster s i c) :=
  ⟨rfl, rfl, rfl, rfl, rfl, rfl, rfl, rfl⟩

theorem depleteLoop_sameInodeSide (index : Nat) (fuel : Nat) :
    ∀ s : FState, SameInodeSide s (depleteLoop s index fuel) := by
  induction fuel generalizing index with
  | zero => intro s; exact SameInodeSide.refl s
  | succ fuel ih =>
    intro s
    unfold depleteLoop
    by_cases h : index < s.insertIdx
    · rw [if_pos h]
      exact ih (index + 1) _
    · rw [if_neg h]
      exact SameInodeSide.refl s

theorem soDeplete_sameInodeSide (s : FState) : SameInodeSide s (soDeplete s) := by
  unfold soDeplete
  by_cases h : s.insertIdx = 0
  · rw [if_pos h]; exact SameInodeSide.refl s
  · rw [if_neg h]
    by_cases h2 : s.dhead = nullRef <;>
      simp only [h2, reduceIte] <;>
      exact depleteLoop_sameInodeSide _ _ _

theorem soFreeDataCluster_sameInodeSide (P : Params) (s : FState) (nClust : Nat)
    {s2 : FState} (hok : soFreeDataCluster P s nClust = .ok s2) :
    SameInodeSide s s2 := by
  unfold soFreeDataCluster at hok
  split at hok
  · exact absurd hok (by simp)
  split at hok
  · exact absurd hok (by simp)
  rw [Except.ok.injEq] at hok
  subst hok
  by_cases h : s.insertIdx = P.cacheSize <;>
    simp only [h, reduceIte]
  · exact soDeplete_sameInodeSide s
  · exact SameInodeSide.refl s

theorem replenishPop_sameInodeSide (s : FState) : SameInodeSide s (replenishPop s) := by
  unfold replenishPop
  dsimp only
  split <;> split <;> exact ⟨rfl, rfl, rfl, rfl, rfl, rfl, rfl, rfl⟩

theorem replenishLoop_sameInodeSide (P : Params) (fuel : Nat) :
    ∀ (s : FState) (acc : List Nat) (n : Nat),
      SameInodeSide s (replenishLoop P s acc n fuel).1 := by
  induction fuel with
  | zero => intro s acc n; exact SameInodeSide.refl s
  | succ fuel ih =>
    intro s acc n
    unfold replenishLoop
    by_cases h : n ≠ P.cacheSize ∧ s.dhead ≠ nullRef
    · rw [if_pos h]
      dsimp only
      split
      · exact SameInodeSide.trans
          (SameInodeSide.trans (replenishPop_sameInodeSide s)
            (soDeplete_sameInodeSide (replenishPop s)))
          (ih _ _ _)
      · exact SameInodeSide.trans (replenishPop_sameInodeSide s) (ih _ _ _)
    · rw [if_neg h]
      exact SameInodeSide.refl s

theorem soReplenish_sameInodeSide (P : Params) (s : FState)
    {s2 : FState} (hok : soReplenish P s = .ok s2) : SameInodeSide s s2 := by
  unfold soReplenish at hok
  split at hok
  · exact absurd hok (by simp)
  rw [Except.ok.injEq] at hok
  subst hok
  by_cases h : s.dhead = nullRef <;>
    simp only [h, reduceIte]
  · exact SameInodeSide.trans (soDeplete_sameInodeSide s)
      (replenishLoop_sameInodeSide P _ _ _ _)
  · exact replenishLoop_sameInodeSide P _ _ _ _

theorem soCleanDataCluster_sameInodeSide (P : Params) (s : FState) (a b : Nat)
    {s2 : FState} (hok : soCleanDataCluster P s a b = .ok s2) : SameInodeSide s s2 := by
  unfold soCleanDataCluster at hok
  dsimp only at hok
  split at hok
  · exact absurd hok (by simp)
  rw [Except.ok.injEq] at hok
  subst hok
  exact setCluster_sameInodeSide _ _ _

theorem soAllocDataCluster_sameInodeSide (P : Params) (s : FState) (nInode : Nat)
    {lc : Nat} {s2 : FState} (hok : soAllocDataCluster P s nInode = .ok (lc, s2)) :
    SameInodeSide s s2 := by
  unfold soAllocDataCluster at hok
  split at hok
  · exact absurd hok (by simp)
  split at hok
  · exact absurd hok (by simp)
  split at hok
  · exact absurd hok (by simp)
  obtain ⟨s1, h1, hok2⟩ := exBind_eq_ok hok
  have hf1 : SameInodeSide s s1 := by
    by_cases h : s.retrievIdx = P.cacheSize
    · rw [if_pos h] at h1; exact soReplenish_sameInodeSide P s h1
    · rw [if_neg h] at h1
      rw [Except.ok.injEq] at h1
      subst h1
      exact SameInodeSide.refl s
  simp only [] at hok2
  split at hok2
  · exact absurd hok2 (by simp)
  obtain ⟨s3, h3, hok4⟩ := exBind_eq_ok hok2
  have hf3 : SameInodeSide s1 s3 := by
    split at h3
    · obtain ⟨a1, a2, a3, a4, a5, a6, a7, a8⟩ :=
        soCleanDataCluster_sameInodeSide P _ _ _ h3
      exact ⟨a1, a2, a3, a4, a5, a6, a7, a8⟩
    · rw [Except.ok.injEq] at h3
      rw [← h3]
      exact ⟨rfl, rfl, rfl, rfl, rfl, rfl, rfl, rfl⟩
  rw [Except.ok.injEq, Prod.mk.injEq] at hok4
  obtain ⟨-, hs⟩ := hok4
  subst hs
  exact SameInodeSide.trans hf1 (SameInodeSide.trans hf3 (setCluster_sameInodeSide _ _ _))

theorem cleanI2Step_sameInodeSide (P : Params) (acc : Except Err (FState × Cluster))
    (j : Nat) {q : FState × Cluster} (hok : cleanI2Step P acc j = .ok q) :
    ∃ p, acc = .ok p ∧ SameInodeSide p.1 q.1 := by
  unfold cleanI2Step at hok
  obtain ⟨p, hp, hok2⟩ := exBind_eq_ok hok
  refine ⟨p, hp, ?_⟩
  dsimp only at hok2
  split at hok2
  · obtain ⟨s2, h2, hok3⟩ := exBind_eq_ok hok2
    rw [Except.ok.injEq] at hok3
    subst hok3
    have hS := soFreeDataCluster_sameInodeSide P _ _ h2
    exact hS
  · rw [Except.ok.injEq] at hok2
    subst hok2
    exact SameInodeSide.refl _

theorem cleanI2_fold_sameInodeSide (P : Params) (l : List Nat) :
    ∀ (acc : Except Err (FState × Cluster)) (q : FState × Cluster),
      List.foldl (cleanI2Step P) acc l = .ok q →
      ∃ p, acc = .ok p ∧ SameInodeSide p.1 q.1 := by
  induction l with
  | nil =>
    intro acc q h
    exact ⟨q, h, SameInodeSide.refl _⟩
  | cons j l ih =>
    intro acc q h
    obtain ⟨q1, hq1, hS1⟩ := ih (cleanI2Step P acc j) q h
    obtain ⟨p, hp, hS0⟩ := cleanI2Step_sameInodeSide P acc j hq1
    exact ⟨p, hp, SameInodeSide.trans hS0 hS1⟩

theorem cleanDblIndirect_sameInodeSide (P : Params) (s : FState) (r : Nat)
    {s2 : FState} (hok : cleanDblIndirect P s r = .ok s2) : SameInodeSide s s2 := by
  unfold cleanDblIndirect at hok
  obtain ⟨p, hp, hok2⟩ := exBind_eq_ok hok
  obtain ⟨p0, hp0, hS⟩ := cleanI2_fold_sameInodeSide P _ _ _ hp
  rw [Except.ok.injEq] at hp0
  have hS2 := soFreeDataCluster_sameInodeSide P _ _ hok2
  have : SameInodeSide p.1 s2 :=
    SameInodeSide.trans (setCluster_sameInodeSide _ _ _) hS2
  subst hp0
  exact SameInodeSide.trans hS this

theorem cleanSglIndirect_sameInodeSide (P : Params) (s : FState) (r : Nat)
    {s2 : FState} (hok : cleanSglIndirect P s r = .ok s2) : SameInodeSide s s2 := by
  unfold cleanSglIndirect at hok
  exact SameInodeSide.trans (setCluster_sameInodeSide _ _ _)
    (soFreeDataCluster_sameInodeSide P _ _ hok)

/-- soCleanInode leaves the whole inode side unchanged except for the
    cleaned inode itself. -/
theorem soCleanInode_frame (P : Params) (s : FState) (nInode : Nat)
    {s2 : FState} (hok : soCleanInode P s nInode = .ok s2) :
    s2.itotal = s.itotal ∧ s2.ifree = s.ifree ∧ s2.ihead = s.ihead ∧ s2.itail = s.itail ∧
    (∀ j, j ≠ nInode → s2.inodes j = s.inodes j) ∧
    s2.uid = s.uid ∧ s2.gid = s.gid ∧ s2.now = s.now := by
  simp only [soCleanInode] at hok
  split at hok
  · exact absurd hok (by simp)
  split at hok
  · exact absurd hok (by simp)
  obtain ⟨sa, ha, hok2⟩ := exBind_eq_ok hok
  obtain ⟨sb, hb, hok3⟩ := exBind_eq_ok hok2
  rw [Except.ok.injEq] at hok3
  subst hok3
  have hSa : SameInodeSide s sa := by
    split at ha
    · exact cleanDblIndirect_sameInodeSide P _ _ ha
    · rw [Except.ok.injEq] at ha; subst ha; exact SameInodeSide.refl _
  have hSb : SameInodeSide sa sb := by
    split at hb
    · exact cleanSglIndirect_sameInodeSide P _ _ hb
    · rw [Except.ok.injEq] at hb; subst hb; exact SameInodeSide.refl _
  obtain ⟨a1, a2, a3, a4, a5, a6, a7, a8⟩ := SameInodeSide.trans hSa hSb
  refine ⟨a1, a2, a3, a4, ?_, a6, a7, a8⟩
  intro j hj
  simp [setInode, upd_other _ _ _ hj, a5]

/-! ### Layer 1, inode side: soAllocInode and soFreeInode -/

/-- soAllocInode (sofs_ifuncs_2_ri.c lines 412-531).  Pops the head of the
    free-inode list: validates the type, fails with ENOSPC on an empty
    list, checks the head is free, unlinks it (emptying the list when
    ifree was 1, else advancing ihead and clearing the new head's prev),
    decrements ifree, cleans the popped inode when it is not free-clean,
    and initialises it: mode := type, refcount/size/clucount := 0, owner
    and group := the caller's ids, both times := now.  The superblock
    quick check soQCheckInT validates table-size arithmetic the embedded
    state represents by construction, so it imposes nothing here.  The
    soConvertRefInT block/offset validation appears as the range checks. -/
def soAllocInode (P : Params) (s : FState) (itype : Nat) : Except Err (Nat × FState) :=
  if ¬(itype = INODE_DIR ∨ itype = INODE_FILE ∨ itype = INODE_SYMLINK) then .error .EINVAL
  else if s.ifree = 0 then .error .ENOSPC
  else if s.ihead ≥ s.itotal then .error .EINVAL
  else if soQCheckFInode (s.inodes s.ihead) = false then .error .EFININVAL
  else
    let nInode := s.ihead
    let hd := s.inodes s.ihead
    let s1 := if s.ifree = 1 then { s with ihead := nullRef, itail := nullRef }
              else { s with ihead := hd.vD1 }
    exBind (if s1.ihead ≠ nullRef then
              (if s1.ihead ≥ s1.itotal then .error .EINVAL
               else .ok (setInode s1 s1.ihead { s1.inodes s1.ihead with vD2 := nullRef }))
            else .ok s1) fun s2 =>
      let s3 := { s2 with ifree := u32sub s2.ifree 1 }
      exBind (if soQCheckFCInode P (s3.inodes nInode) = false
              then soCleanInode P s3 nInode else .ok s3) fun s4 =>
        let newIno := { s4.inodes nInode with
          mode := itype, refcount := 0, owner := s4.uid, group := s4.gid,
          size := 0, clucount := 0, vD1 := s4.now, vD2 := s4.now }
        if soQCheckInodeIU newIno = false then .error .EIUININVAL
        else .ok (nInode, setInode s4 nInode newIno)

/-- soFreeInode (sofs_ifuncs_1_fi.c).  Refuses inode 0 and out-of-range
    numbers, requires the inode to be in use with a legal type and a zero
    refcount, sets the free flag, and appends the inode to the tail of the
    free list: next := NULL, prev := old tail (or NULL, making it the head
    of an empty list), old tail's next := nInode, itail := nInode,
    ifree incremented. -/
def soFreeInode (s : FState) (nInode : Nat) : Except Err FState :=
  if nInode = 0 ∨ nInode ≥ s.itotal then .error .EINVAL
  else if soQCheckInodeIU (s.inodes nInode) = false then .error .EIUININVAL
  else if ¬((s.inodes nInode).mode &&& INODE_DIR = INODE_DIR ∨
            (s.inodes nInode).mode &&& INODE_FILE = INODE_FILE ∨
            (s.inodes nInode).mode &&& INODE_SYMLINK = INODE_SYMLINK) then .error .ELIBBAD
  else if (s.inodes nInode).refcount ≠ 0 then .error .ELIBBAD
  else
    let ino := s.inodes nInode
    let ino1 := { ino with
      mode := ino.mode ||| INODE_FREE, vD1 := nullRef,
      vD2 := if s.itail = nullRef then nullRef else s.itail }
    let s1 := if s.itail = nullRef then { s with ihead := nInode } else s
    let s2 := setInode s1 nInode ino1
    exBind (if s2.itail ≠ nullRef then
              (if s2.itail ≥ s2.itotal then .error .EINVAL
               else .ok (setInode s2 s2.itail { s2.inodes s2.itail with vD1 := nInode }))
            else .ok s2) fun s3 =>
      .ok { s3 with itail := nInode, ifree := u32add s3.ifree 1 }

/-! ### The free-inode list as a chain of table indices -/

/-- The head of a list, or NULL_INODE for the empty list (the value the
    next field of the last node carries). -/
def headOrNull : List Nat → Nat
  | [] => nullRef
  | m :: _ => m

/-- The links of a free-list segment starting under a given predecessor:
    each node is a valid non-root free inode whose prev field names the
    predecessor and whose next field names the successor. -/
def chainLinksB (s : FState) : Nat → List Nat → Bool
  | _, [] => true
  | prevN, n :: rest =>
    (n != nullRef) && (n != 0) && decide (n < s.itotal) &&
    soQCheckFInode (s.inodes n) &&
    ((s.inodes n).vD2 == prevN) &&
    ((s.inodes n).vD1 == headOrNull rest) &&
    chainLinksB s n rest

/-- The last node of a free list, or NULL_INODE for the empty list (the
    value itail carries on an empty list). -/
def tailOrNull : List Nat → Nat
  | [] => nullRef
  | ns => ns.getLastD 0

/-- The double-linked list of free inodes of a state is exactly `ns`:
    ihead and itail frame it, the nodes are distinct, and prev/next are
    mutually inverse along it. -/
def isFreeList (s : FState) (ns : List Nat) : Prop :=
  ns.Nodup ∧ s.ihead = headOrNull ns ∧
  s.itail = tailOrNull ns ∧
  chainLinksB s nullRef ns = true

theorem tailOrNull_of_ne_nil {ns : List Nat} (h : ns ≠ []) :
    tailOrNull ns = ns.getLastD 0 := by
  cases ns with
  | nil => exact absurd rfl h
  | cons a t => rfl

theorem chainLinksB_congr (s t : FState) (hit : t.itotal = s.itotal) :
    ∀ (ns : List Nat) (prevN : Nat),
      (∀ m ∈ ns, t.inodes m = s.inodes m) →
      chainLinksB t prevN ns = chainLinksB s prevN ns := by
  intro ns
  induction ns with
  | nil => intro prevN h; rfl
  | cons n rest ih =>
    intro prevN h
    have hn : t.inodes n = s.inodes n := h n (by simp)
    unfold chainLinksB
    rw [hn, hit, ih n (fun m hm => h m (by simp [hm]))]

theorem chainLinksB_mem (s : FState) :
    ∀ (ns : List Nat) (prevN : Nat), chainLinksB s prevN ns = true →
      ∀ m ∈ ns, m ≠ nullRef ∧ m ≠ 0 ∧ m < s.itotal ∧
        soQCheckFInode (s.inodes m) = true := by
  intro ns
  induction ns with
  | nil => intro prevN h m hm; simp at hm
  | cons n rest ih =>
    intro prevN h m hm
    unfold chainLinksB at h
    simp only [Bool.and_eq_true, bne_iff_ne, ne_eq, decide_eq_true_eq, beq_iff_eq] at h
    rcases List.mem_cons.mp hm with hEq | hm2
    · subst hEq
      exact ⟨h.1.1.1.1.1.1, h.1.1.1.1.1.2, h.1.1.1.1.2, h.1.1.1.2⟩
    · exact ih n h.2 m hm2

theorem headOrNull_append {ns : List Nat} (h : ns ≠ []) (n : Nat) :
    headOrNull (ns ++ [n]) = headOrNull ns := by
  cases ns with
  | nil => exact absurd rfl h
  | cons a t => rfl

theorem getLastD_snoc (ns : List Nat) (n d : Nat) : (ns ++ [n]).getLastD d = n := by
  induction ns generalizing d with
  | nil => rfl
  | cons a t ih =>
    rw [List.cons_append, List.getLastD_cons, ih]

theorem getLastD_mem {ns : List Nat} (h : ns ≠ []) : ns.getLastD 0 ∈ ns := by
  induction ns with
  | nil => exact absurd rfl h
  | cons a t ih =>
    cases t with
    | nil => simp [List.getLastD]
    | cons b t2 =>
      rw [List.getLastD_cons]
      have : (b :: t2).getLastD a = (b :: t2).getLastD 0 := by
        rw [List.getLastD_cons, List.getLastD_cons]
      rw [this]
      exact List.mem_cons_of_mem a (ih (by simp))

/-- An in-use inode is never on the free chain: the free flag is clear. -/
theorem inUse_not_free {ino : Inode} (h : soQCheckInodeIU ino = true) :
    soQCheckFInode ino = false := by
  unfold soQCheckInodeIU at h
  unfold soQCheckFInode
  simp only [Bool.and_eq_true, beq_iff_eq] at h
  simp only [beq_eq_false_iff_ne, ne_eq]
  rw [h.1]
  unfold INODE_FREE
  omega

/-- Setting the free flag in a mode word makes the free quick-check hold. -/
theorem land_or_free (m : Nat) : (m ||| INODE_FREE) &&& INODE_FREE = INODE_FREE := by
  apply Nat.eq_of_testBit_eq
  intro i
  simp [Nat.testBit_and, Nat.testBit_or]
  intro h
  simp [h]

/-- Appending a fresh node to a valid chain whose last node's next field
    has been redirected to it. -/
theorem chainLinksB_snoc (sOld sNew : FState) (n : Nat) :
    ∀ (ns : List Nat) (prevN : Nat),
      chainLinksB sOld prevN ns = true →
      ns ≠ [] →
      sNew.itotal = sOld.itotal →
      (∀ m ∈ ns.dropLast, sNew.inodes m = sOld.inodes m) →
      sNew.inodes (ns.getLastD 0) =
        { sOld.inodes (ns.getLastD 0) with vD1 := n } →
      (sNew.inodes n).vD2 = ns.getLastD 0 →
      (sNew.inodes n).vD1 = nullRef →
      soQCheckFInode (sNew.inodes n) = true →
      n ≠ nullRef → n ≠ 0 → n < sOld.itotal →
      chainLinksB sNew prevN (ns ++ [n]) = true := by
  intro ns
  induction ns with
  | nil => intro prevN _ hne; exact absurd rfl hne
  | cons m rest ih =>
    intro prevN hOld hne hit hdrop hlast hvD2 hvD1 hFree hnn hn0 hnlt
    unfold chainLinksB at hOld
    simp only [Bool.and_eq_true, bne_iff_ne, ne_eq, decide_eq_true_eq, beq_iff_eq] at hOld
    obtain ⟨⟨⟨⟨⟨⟨hm1, hm2⟩, hm3⟩, hm4⟩, hm5⟩, hm6⟩, hrest⟩ := hOld
    cases rest with
    | nil =>
      have hlastEq : (m :: ([] : List Nat)).getLastD 0 = m := rfl
      rw [hlastEq] at hlast hvD2
      unfold chainLinksB
      simp only [List.cons_append, List.nil_append]
      unfold chainLinksB
      simp only [Bool.and_eq_true, bne_iff_ne, ne_eq, decide_eq_true_eq, beq_iff_eq]
      refine ⟨⟨⟨⟨⟨⟨hm1, hm2⟩, by rw [hit]; exact hm3⟩, ?_⟩, ?_⟩, ?_⟩, ?_⟩
      · rw [hlast]
        simpa [soQCheckFInode] using hm4
      · rw [hlast]
        exact hm5
      · rw [hlast]; rfl
      · unfold chainLinksB
        simp only [Bool.and_eq_true, bne_iff_ne, ne_eq, decide_eq_true_eq, beq_iff_eq]
        refine ⟨⟨⟨⟨⟨⟨hnn, hn0⟩, ?_⟩, hFree⟩, hvD2⟩, hvD1⟩, ?_⟩
        · rw [hit]; exact hnlt
        · trivial
    | cons m2 t =>
      have hmEq : sNew.inodes m = sOld.inodes m := by
        apply hdrop
        simp [List.dropLast]
      have hlast2 : (m :: m2 :: t).getLastD 0 = (m2 :: t).getLastD 0 := by
        simp [List.getLastD_cons]
      unfold chainLinksB
      simp only [List.cons_append]
      simp only [Bool.and_eq_true, bne_iff_ne, ne_eq, decide_eq_true_eq, beq_iff_eq]
      refine ⟨⟨⟨⟨⟨⟨hm1, hm2⟩, by rw [hit]; exact hm3⟩, by rw [hmEq]; exact hm4⟩,
        by rw [hmEq]; exact hm5⟩, ?_⟩, ?_⟩
      · rw [hmEq, hm6]
        rfl
      · have := ih m hrest (by simp) hit
          (fun x hx => hdrop x (by
            simp only [List.dropLast] at hx ⊢
            exact List.mem_cons_of_mem m hx))
          (by rw [← hlast2]; exact hlast)
          (by rw [← hlast2]; exact hvD2) hvD1 hFree hnn hn0 hnlt
        simpa using this

theorem setInode_inodes_ne (s : FState) (i : Nat) (v : Inode) {j : Nat} (h : j ≠ i) :
    (setInode s i v).inodes j = s.inodes j :=
  upd_other _ _ _ h

/-- Storing an inode outside a chain segment does not disturb its links. -/
theorem chainLinksB_setInode_not_mem (s : FState) (i : Nat) (v : Inode)
    (ns : List Nat) (prevN : Nat) (h : i ∉ ns) :
    chainLinksB (setInode s i v) prevN ns = chainLinksB s prevN ns :=
  chainLinksB_congr s (setInode s i v) rfl ns prevN
    (fun m hm => setInode_inodes_ne s i v (fun hc => h (hc ▸ hm)))

/-- soAllocInode pops exactly the head of the free list: on success the
    list is the old tail and ifree tracks its length. -/
theorem soAllocInode_preserves_freeList (P : Params) (s : FState) (itype n : Nat)
    (s2go : FState) (ns : List Nat)
    (hfl : isFreeList s ns) (hlen : s.ifree = ns.length) (hbound : s.ifree < u32Mod)
    (hok : soAllocInode P s itype = .ok (n, s2go)) :
    isFreeList s2go ns.tail ∧ s2go.ifree = ns.tail.length := by
  obtain ⟨hnd, hhead, htail, hchain⟩ := hfl
  unfold soAllocInode at hok
  dsimp only at hok
  split at hok
  · exact absurd hok (by simp)
  split at hok
  · exact absurd hok (by simp)
  next hfree =>
  split at hok
  · exact absurd hok (by simp)
  split at hok
  · exact absurd hok (by simp)
  cases ns with
  | nil => exact absurd (hlen.symm ▸ hfree) (by simp)
  | cons a rest =>
  have ha : s.ihead = a := hhead
  rw [ha] at hok
  unfold chainLinksB at hchain
  simp only [Bool.and_eq_true, bne_iff_ne, ne_eq, decide_eq_true_eq, beq_iff_eq] at hchain
  obtain ⟨⟨⟨⟨⟨⟨ha1, ha2⟩, ha3⟩, ha4⟩, ha5⟩, ha6⟩, hrestchain⟩ := hchain
  by_cases hone : s.ifree = 1
  · -- the list had a single node: it becomes empty
    have hrest : rest = [] := by
      rw [hone] at hlen
      simpa using hlen.symm
    subst hrest
    rw [if_pos hone] at hok
    rw [if_neg (by simp)] at hok
    rw [exBind_ok] at hok
    dsimp only at hok
    obtain ⟨s4, h4s, hok2⟩ := exBind_eq_ok hok
    have hfr : s4.ifree = u32sub s.ifree 1 ∧ s4.ihead = nullRef ∧ s4.itail = nullRef := by
      split at h4s
      · obtain ⟨f1, f2, f3, f4, f5, f6, f7, f8⟩ := soCleanInode_frame P _ _ h4s
        exact ⟨f2, f3, f4⟩
      · rw [Except.ok.injEq] at h4s
        rw [← h4s]
        exact ⟨rfl, rfl, rfl⟩
    split at hok2
    · exact absurd hok2 (by simp)
    rw [Except.ok.injEq, Prod.mk.injEq] at hok2
    obtain ⟨-, hs2⟩ := hok2
    rw [← hs2]
    refine ⟨⟨List.nodup_nil, ?_, ?_, rfl⟩, ?_⟩
    · exact hfr.2.1
    · exact hfr.2.2
    · show s4.ifree = 0
      rw [hfr.1, hone, u32sub_one 1 (by omega) (by rw [← hone]; exact hbound)]
  · -- at least two nodes: the second becomes the head
    cases rest with
    | nil => exact absurd (by simpa using hlen) hone
    | cons b rest2 =>
    unfold chainLinksB at hrestchain
    simp only [Bool.and_eq_true, bne_iff_ne, ne_eq, decide_eq_true_eq, beq_iff_eq] at hrestchain
    obtain ⟨⟨⟨⟨⟨⟨hb1, hb2⟩, hb3⟩, hb4⟩, hb5⟩, hb6⟩, hchain2⟩ := hrestchain
    have hvD1 : (s.inodes a).vD1 = b := ha6
    rw [if_neg hone] at hok
    rw [hvD1] at hok
    rw [if_pos (by simpa using hb1)] at hok
    rw [if_neg (by simpa using Nat.not_le_of_lt hb3)] at hok
    rw [exBind_ok] at hok
    dsimp only at hok
    obtain ⟨s4, h4s, hok2⟩ := exBind_eq_ok hok
    have hano : a ∉ b :: rest2 := (List.nodup_cons.mp hnd).1
    have hnd2 : (b :: rest2).Nodup := (List.nodup_cons.mp hnd).2
    have hbno : b ∉ rest2 := (List.nodup_cons.mp hnd2).1
    have hfr : s4.ifree = u32sub s.ifree 1 ∧ s4.ihead = b ∧ s4.itail = s.itail ∧
        s4.itotal = s.itotal ∧
        (∀ j, j ≠ a → s4.inodes j =
          (setInode { s with ihead := b } b
            { ({ s with ihead := b } : FState).inodes b with vD2 := nullRef }).inodes j) := by
      split at h4s
      · obtain ⟨f1, f2, f3, f4, f5, f6, f7, f8⟩ := soCleanInode_frame P _ _ h4s
        exact ⟨f2, f3, f4, f1, fun j hj => f5 j hj⟩
      · rw [Except.ok.injEq] at h4s
        rw [← h4s]
        exact ⟨rfl, rfl, rfl, rfl, fun j hj => rfl⟩
    split at hok2
    · exact absurd hok2 (by simp)
    rw [Except.ok.injEq, Prod.mk.injEq] at hok2
    obtain ⟨-, hs2⟩ := hok2
    rw [← hs2]
    have hInoB : ∀ j, j ≠ a → j ≠ b → s4.inodes j = s.inodes j := by
      intro j hja hjb
      rw [hfr.2.2.2.2 j hja]
      rw [show (setInode _ b _).inodes j = _ from upd_other _ _ _ hjb]
    have hba : b ≠ a := fun hc => hano (hc ▸ List.mem_cons_self b rest2)
    have hInoBB : s4.inodes b = { s.inodes b with vD2 := nullRef } := by
      rw [hfr.2.2.2.2 b hba]
      rw [show (setInode _ b _).inodes b = _ from upd_same _ _ _]
    constructor
    · refine ⟨hnd2, ?_, ?_, ?_⟩
      · show s4.ihead = headOrNull (b :: rest2)
        exact hfr.2.1
      · show s4.itail = (b :: rest2).getLastD 0
        rw [hfr.2.2.1, htail]
        simp [tailOrNull, List.getLastD_cons]
      · show chainLinksB _ nullRef (b :: rest2) = true
        unfold chainLinksB
        simp only [Bool.and_eq_true, bne_iff_ne, ne_eq, decide_eq_true_eq, beq_iff_eq]
        refine ⟨⟨⟨⟨⟨⟨hb1, hb2⟩, ?_⟩, ?_⟩, ?_⟩, ?_⟩, ?_⟩
        · show b < s4.itotal
          rw [hfr.2.2.2.1]
          exact hb3
        · rw [setInode_inodes_ne s4 a _ hba, hInoBB]
          simpa [soQCheckFInode] using hb4
        · rw [setInode_inodes_ne s4 a _ hba, hInoBB]
        · rw [setInode_inodes_ne s4 a _ hba, hInoBB]
          exact hb6
        · rw [chainLinksB_setInode_not_mem s4 a _ rest2 b
              (fun hm => hano (List.mem_cons_of_mem b hm))]
          rw [chainLinksB_congr _ _ (show s4.itotal = s.itotal from hfr.2.2.2.1) rest2 b
              (fun m hm => hInoB m
                (fun hc => hano (hc ▸ List.mem_cons_of_mem b hm))
                (fun hc => hbno (hc ▸ hm)))]
          exact hchain2
    · show s4.ifree = (b :: rest2).length
      rw [hfr.1, u32sub_one s.ifree (by omega) hbound, hlen]
      rfl

theorem nodup_dropLast_ne_last :
    ∀ {ns : List Nat}, ns.Nodup → ∀ m ∈ ns.dropLast, m ≠ ns.getLastD 0 := by
  intro ns
  induction ns with
  | nil => intro _ m hm; simp at hm
  | cons x t ih =>
    intro hnd m hm
    cases t with
    | nil => simp at hm
    | cons y t2 =>
      rw [List.getLastD_cons]
      have hdl : (x :: y :: t2).dropLast = x :: (y :: t2).dropLast := rfl
      rw [hdl] at hm
      rcases List.mem_cons.mp hm with hEq | hm2
      · subst hEq
        intro hc
        have hmem : (y :: t2).getLastD m ∈ y :: t2 := by
          have : (y :: t2).getLastD m = (y :: t2).getLastD 0 := by
            rw [List.getLastD_cons, List.getLastD_cons]
          rw [this]
          exact getLastD_mem (by simp)
        rw [← hc] at hmem
        exact (List.nodup_cons.mp hnd).1 hmem
      · have := ih (List.nodup_cons.mp hnd).2 m hm2
        rw [List.getLastD_cons] at this ⊢
        exact this

/-- soFreeInode appends exactly the freed inode to the tail of the free
    list: on success the list is the old one with the inode at its end and
    ifree tracks its length. -/
theorem soFreeInode_appends_freeList (s : FState) (nInode : Nat) (s2go : FState)
    (ns : List Nat)
    (hfl : isFreeList s ns) (hlen : s.ifree = ns.length)
    (hbound : s.ifree + 1 < u32Mod) (htot : s.itotal ≤ nullRef)
    (hok : soFreeInode s nInode = .ok s2go) :
    isFreeList s2go (ns ++ [nInode]) ∧ s2go.ifree = (ns ++ [nInode]).length := by
  obtain ⟨hnd, hhead, htail, hchain⟩ := hfl
  unfold soFreeInode at hok
  dsimp only at hok
  split at hok
  · exact absurd hok (by simp)
  next hval =>
  split at hok
  · exact absurd hok (by simp)
  next hiu =>
  split at hok
  · exact absurd hok (by simp)
  split at hok
  · exact absurd hok (by simp)
  push_neg at hval
  obtain ⟨hn0, hnlt⟩ := hval
  rw [Bool.not_eq_false] at hiu
  have hmem := chainLinksB_mem s ns nullRef hchain
  have hnotin : nInode ∉ ns := by
    intro hin
    have := (hmem nInode hin).2.2.2
    rw [inUse_not_free hiu] at this
    exact absurd this (by simp)
  have hnn : nInode ≠ nullRef := by
    have := Nat.lt_of_lt_of_le hnlt htot
    omega
  by_cases hitail : s.itail = nullRef
  · -- the list was empty: the freed inode becomes its only node
    have hnil : ns = [] := by
      cases ns with
      | nil => rfl
      | cons a rest =>
        have hlast : s.itail = (a :: rest).getLastD 0 := htail
        have : s.itail ∈ a :: rest := by
          rw [hlast]; exact getLastD_mem (by simp)
        exact absurd hitail (by simpa using (hmem _ this).1)
    subst hnil
    rw [if_pos hitail] at hok
    rw [if_pos hitail] at hok
    rw [if_neg (by
      show ¬¬(_ = nullRef)
      simp [setInode, hitail])] at hok
    rw [exBind_ok] at hok
    rw [Except.ok.injEq] at hok
    rw [← hok]
    refine ⟨⟨by simp, ?_, ?_, ?_⟩, ?_⟩
    · show nInode = headOrNull [nInode]
      rfl
    · rfl
    · show chainLinksB _ nullRef [nInode] = true
      unfold chainLinksB
      simp only [Bool.and_eq_true, bne_iff_ne, ne_eq, decide_eq_true_eq, beq_iff_eq]
      refine ⟨⟨⟨⟨⟨⟨hnn, hn0⟩, hnlt⟩, ?_⟩, ?_⟩, ?_⟩, rfl⟩
      · show soQCheckFInode (upd _ nInode _ nInode) = true
        rw [upd_same]
        unfold soQCheckFInode
        simp only [beq_iff_eq]
        exact land_or_free _
      · show (upd _ nInode _ nInode : Inode).vD2 = nullRef
        rw [upd_same]
      · show (upd _ nInode _ nInode : Inode).vD1 = nullRef
        rw [upd_same]
    · show u32add s.ifree 1 = _
      rw [u32add_one _ hbound, hlen]
      rfl
  · -- nonempty list: append at the tail
    have hnsne : ns ≠ [] := by
      intro hc
      subst hc
      exact hitail htail
    have htail2 : s.itail = ns.getLastD 0 := by
      rw [htail, tailOrNull_of_ne_nil hnsne]
    have htailmem : s.itail ∈ ns := by
      rw [htail2]
      exact getLastD_mem hnsne
    have htllt : s.itail < s.itotal := (hmem _ htailmem).2.2.1
    have htln : nInode ≠ s.itail := fun hc => hnotin (hc ▸ htailmem)
    rw [if_neg hitail] at hok
    rw [if_neg hitail] at hok
    rw [if_pos (by
      show ¬(_ = nullRef)
      simpa [setInode] using hitail)] at hok
    rw [if_neg (by
      show ¬(_ ≥ _)
      simp only [setInode]
      exact Nat.not_le_of_lt htllt)] at hok
    rw [exBind_ok] at hok
    rw [Except.ok.injEq] at hok
    rw [← hok]
    refine ⟨⟨?_, ?_, ?_, ?_⟩, ?_⟩
    · exact hnd.append (by simp)
        (fun x hx hxn => hnotin ((List.mem_singleton.mp hxn) ▸ hx))
    · show s.ihead = headOrNull (ns ++ [nInode])
      rw [headOrNull_append hnsne]
      exact hhead
    · show nInode = tailOrNull (ns ++ [nInode])
      rw [tailOrNull_of_ne_nil (by simp), getLastD_snoc]
    · show chainLinksB _ nullRef (ns ++ [nInode]) = true
      refine chainLinksB_snoc s _ nInode ns nullRef hchain hnsne ?_ ?_ ?_ ?_ ?_ ?_ hnn hn0 hnlt
      · rfl
      · intro m hm
        have hmlast := nodup_dropLast_ne_last hnd m hm
        have hmns : m ∈ ns := List.dropLast_subset ns hm
        have hmn : m ≠ nInode := fun hc => hnotin (hc ▸ hmns)
        rw [← htail2] at hmlast
        show (upd _ s.itail _ m) = _
        rw [upd_other _ _ _ hmlast]
        exact setInode_inodes_ne _ _ _ hmn
      · rw [← htail2]
        dsimp only [setInode]
        rw [upd_same]
        rw [upd_other _ _ _ (fun hc => htln hc.symm)]
      · rw [← htail2]
        dsimp only [setInode]
        rw [upd_other _ _ _ htln, upd_same]
      · dsimp only [setInode]
        rw [upd_other _ _ _ htln, upd_same]
      · dsimp only [setInode]
        rw [upd_other _ _ _ htln, upd_same]
        unfold soQCheckFInode
        simp only [beq_iff_eq]
        exact land_or_free _
    · show u32add s.ifree 1 = _
      rw [u32add_one _ hbound, hlen]
      simp

/-- C1: on a volume whose inode free list, read from ihead through the next
    links to itail, is exactly the chain `ns` and whose superblock ifree
    equals its length, the invariant is preserved by both mutators: every
    successful soAllocInode leaves the free list equal to ns.tail (the head
    was popped) with ifree its length, and every successful soFreeInode of
    inode nInode leaves the free list equal to ns ++ [nInode] (the freed
    inode was appended at the tail) with ifree its length. -/
theorem claim_C1_ifree_free_list (P : Params) (s : FState) (ns : List Nat)
    (hfl : isFreeList s ns) (hlen : s.ifree = ns.length) :
    (∀ itype n s2, s.ifree < u32Mod →
        soAllocInode P s itype = .ok (n, s2) →
        isFreeList s2 ns.tail ∧ s2.ifree = ns.tail.length) ∧
    (∀ nInode s2, s.ifree + 1 < u32Mod → s.itotal ≤ nullRef →
        soFreeInode s nInode = .ok s2 →
        isFreeList s2 (ns ++ [nInode]) ∧ s2.ifree = (ns ++ [nInode]).length) := by
  constructor
  · intro itype n s2 hb hok
    exact soAllocInode_preserves_freeList P s itype n s2 ns hfl hlen hb hok
  · intro nInode s2 hb htot hok
    exact soFreeInode_appends_freeList s nInode s2 ns hfl hlen hb htot hok

/-- A clean free inode on the witness free list, with the given next (vD1)
    and prev (vD2) linkage. -/
def inoFreeC1 (next prev : Nat) : Inode :=
  { mode := INODE_FREE, refcount := 0, owner := 0, group := 0, size := 0,
    clucount := 0, vD1 := next, vD2 := prev, d := fun _ => nullRef,
    i1 := nullRef, i2 := nullRef }

/-- A four-inode volume whose free list is 1 → 2; inode 3 is an in-use
    file with no references left, ready to be freed. -/
def sC1 : FState :=
  { itotal := 4, ifree := 2, ihead := 1, itail := 2,
    dzoneTotal := 4, dzoneFree := 2, retrievIdx := 1, retriev := fun _ => 2,
    insertIdx := 0, insertCache := fun _ => 0, dhead := 3, dtail := 3,
    inodes := fun i =>
      if i = 1 then inoFreeC1 2 nullRef
      else if i = 2 then inoFreeC1 nullRef 1
      else if i = 3 then { inoC5 with refcount := 0 }
      else inoC5,
    clusters := fun _ => clNone, uid := 1, gid := 1, now := 5 }

theorem claim_C1_ifree_free_list_witness :
    isFreeList sC1 [1, 2] ∧ sC1.ifree = [1, 2].length ∧
    ((∀ itype n s2, sC1.ifree < u32Mod →
        soAllocInode PW sC1 itype = .ok (n, s2) →
        isFreeList s2 [1, 2].tail ∧ s2.ifree = [1, 2].tail.length) ∧
     (∀ nInode s2, sC1.ifree + 1 < u32Mod → sC1.itotal ≤ nullRef →
        soFreeInode sC1 nInode = .ok s2 →
        isFreeList s2 ([1, 2] ++ [nInode]) ∧
        s2.ifree = ([1, 2] ++ [nInode]).length)) :=
  ⟨by unfold isFreeList; decide, by decide,
   claim_C1_ifree_free_list PW sC1 [1, 2] (by unfold isFreeList; decide) (by decide)⟩

/-! ### C4: the initialisation performed by soAllocInode -/

/-- C4: a successful soAllocInode hands out the popped head inode with
    mode equal to the requested type exactly (permission bits and the free
    bit cleared), owner and group the caller's uid and gid, refcount, size
    and clucount zero, both timestamps the current time, and every direct
    reference as well as i1 and i2 equal to NULL_CLUSTER — also when the
    popped head was free in the dirty state, in which case the code runs
    soCleanInode on it before initialising. -/
theorem claim_C4_alloc_inode_init (P : Params) (s : FState) (itype n : Nat)
    (s2 : FState) (hok : soAllocInode P s itype = .ok (n, s2)) :
    (s2.inodes n).mode = itype ∧
    (s2.inodes n).owner = s.uid ∧ (s2.inodes n).group = s.gid ∧
    (s2.inodes n).refcount = 0 ∧ (s2.inodes n).size = 0 ∧
    (s2.inodes n).clucount = 0 ∧
    (s2.inodes n).vD1 = s.now ∧ (s2.inodes n).vD2 = s.now ∧
    (∀ k, k < P.nDirect → (s2.inodes n).d k = nullRef) ∧
    (s2.inodes n).i1 = nullRef ∧ (s2.inodes n).i2 = nullRef := by
  unfold soAllocInode at hok
  split at hok
  · exact absurd hok (by simp)
  split at hok
  · exact absurd hok (by simp)
  split at hok
  · exact absurd hok (by simp)
  split at hok
  · exact absurd hok (by simp)
  obtain ⟨sA, hA, hok2⟩ := exBind_eq_ok hok
  dsimp only at hok2
  obtain ⟨s4, h4, hok3⟩ := exBind_eq_ok hok2
  split at hok3
  · exact absurd hok3 (by simp)
  rw [Except.ok.injEq, Prod.mk.injEq] at hok3
  obtain ⟨hn, hs2⟩ := hok3
  subst hn
  have hsA : sA.uid = s.uid ∧ sA.gid = s.gid ∧ sA.now = s.now := by
    repeat' split at hA
    all_goals first
      | (rw [Except.ok.injEq] at hA
         subst hA
         exact ⟨rfl, rfl, rfl⟩)
      | exact absurd hA (by simp)
  have hs4 : s4.uid = s.uid ∧ s4.gid = s.gid ∧ s4.now = s.now ∧
      (∀ k, k < P.nDirect → (s4.inodes s.ihead).d k = nullRef) ∧
      (s4.inodes s.ihead).i1 = nullRef ∧ (s4.inodes s.ihead).i2 = nullRef := by
    split at h4
    · obtain ⟨hd, hi1, hi2, -, -, -, -, -⟩ := soCleanInode_ok_fields P _ _ _ h4
      obtain ⟨-, -, -, -, -, f6, f7, f8⟩ := soCleanInode_frame P _ _ h4
      exact ⟨f6.trans hsA.1, f7.trans hsA.2.1, f8.trans hsA.2.2, hd, hi1, hi2⟩
    · next hfc =>
      rw [Except.ok.injEq] at h4
      rw [Bool.not_eq_false] at hfc
      rw [← h4]
      unfold soQCheckFCInode at hfc
      simp only [Bool.and_eq_true, beq_iff_eq, List.all_eq_true,
        List.mem_range] at hfc
      obtain ⟨⟨⟨⟨⟨⟨-, -⟩, -⟩, -⟩, hi1⟩, hi2⟩, hdk⟩ := hfc
      exact ⟨hsA.1, hsA.2.1, hsA.2.2, fun k hk => by simpa using hdk k hk, hi1, hi2⟩
  rw [← hs2]
  dsimp only [setInode]
  rw [upd_same]
  exact ⟨rfl, hs4.1, hs4.2.1, rfl, rfl, rfl, hs4.2.2.1, hs4.2.2.1,
    fun k hk => hs4.2.2.2.1 k hk, hs4.2.2.2.2.1, hs4.2.2.2.2.2⟩

/-- The state soAllocInode produces on the witness volume sC1 (it pops
    inode 1, the head of the free list). -/
def sC4r : FState :=
  match soAllocInode PW sC1 INODE_FILE with
  | .ok (_, t) => t
  | .error _ => sC1

/-! ### C9: the fsck inode free-list phase (fsck11_inode.c) -/

/-- Modelled from the spec: soConvertRefInT (binary-only library call)
    validates an inode number against the inode total before computing its
    block and offset inside the inode table; an out-of-range number — in
    particular NULL_INODE — is refused. -/
def soConvertRefInT (s : FState) (nInode : Nat) : Except Err Unit :=
  if nInode ≥ s.itotal then .error .EINVAL else .ok ()

/-- One iteration of the do-while of fsckCheckInodeList, with fuel: locate
    the inode in the table, require the free flag, count it and bound the
    count by ifree (loop detection), require prev to name the previously
    visited node, then advance through next; when next is NULL_INODE the
    loop exits and ifree must equal the count. -/
def fsckListStep (s : FState) : Nat → Nat → Nat → Nat → Except Err Unit
  | 0, _, _, _ => .error .EILLLOOP
  | fuel + 1, prevI, nextI, count =>
    exBind (soConvertRefInT s nextI) fun _ =>
      if (s.inodes nextI).mode &&& INODE_FREE = 0 then .error .EILLNOTFREE
      else if count + 1 > s.ifree then .error .EILLLOOP
      else if (s.inodes nextI).vD2 ≠ prevI then .error .EILLBROKEN
      else if (s.inodes nextI).vD1 ≠ nullRef then
        fsckListStep s fuel nextI ((s.inodes nextI).vD1) (count + 1)
      else if s.ifree ≠ count + 1 then .error .EBADFREECOUNT
      else .ok ()

/-- fsckCheckInodeList (fsck11_inode.c): a do-while starting at prev =
    NULL_INODE, next = ihead.  The fuel ifree + 2 is never the limiting
    factor: the in-loop count check trips EILLLOOP after at most ifree + 1
    iterations. -/
def fsckCheckInodeList (s : FState) : Except Err Unit :=
  fsckListStep s (s.ifree + 2) nullRef s.ihead 0

theorem fsckListStep_chain_ok (s : FState) :
    ∀ (ns : List Nat) (fuel prevI count : Nat),
      chainLinksB s prevI ns = true →
      ns ≠ [] →
      ns.length + count = s.ifree →
      ns.length ≤ fuel →
      fsckListStep s fuel prevI (headOrNull ns) count = .ok () := by
  intro ns
  induction ns with
  | nil => intro fuel prevI count _ hne; exact absurd rfl hne
  | cons a rest ih =>
    intro fuel prevI count hchain hne hcnt hfuel
    unfold chainLinksB at hchain
    simp only [Bool.and_eq_true, bne_iff_ne, ne_eq, decide_eq_true_eq,
      beq_iff_eq] at hchain
    obtain ⟨⟨⟨⟨⟨⟨ha1, ha2⟩, ha3⟩, ha4⟩, ha5⟩, ha6⟩, hrest⟩ := hchain
    have hfree : (s.inodes a).mode &&& INODE_FREE = INODE_FREE := by
      unfold soQCheckFInode at ha4
      simpa using ha4
    have hcnt' : rest.length + 1 + count = s.ifree := by simpa using hcnt
    cases fuel with
    | zero => simp at hfuel
    | succ f =>
    show fsckListStep s (f + 1) prevI a count = .ok ()
    unfold fsckListStep
    rw [show soConvertRefInT s a = .ok () from if_neg (Nat.not_le_of_lt ha3),
      exBind_ok]
    rw [if_neg (show ¬((s.inodes a).mode &&& INODE_FREE = 0) by
      rw [hfree]; decide)]
    rw [if_neg (show ¬(count + 1 > s.ifree) by omega)]
    rw [if_neg (show ¬((s.inodes a).vD2 ≠ prevI) by simp [ha5])]
    cases rest with
    | nil =>
      have hnull : (s.inodes a).vD1 = nullRef := ha6
      rw [if_neg (show ¬((s.inodes a).vD1 ≠ nullRef) by simp [hnull])]
      have h1 : 1 + count = s.ifree := by simpa using hcnt'
      rw [if_neg (show ¬(s.ifree ≠ count + 1) by omega)]
    | cons b rest2 =>
      have hb : b ≠ nullRef :=
        (chainLinksB_mem s (b :: rest2) a hrest b (List.mem_cons_self b rest2)).1
      have hvd1 : (s.inodes a).vD1 = b := ha6
      rw [if_pos (show (s.inodes a).vD1 ≠ nullRef by rw [hvd1]; exact hb)]
      rw [hvd1]
      have hfuel' : (b :: rest2).length ≤ f := by
        simp only [List.length_cons] at hfuel ⊢
        omega
      exact ih f a (count + 1) hrest (by simp) (by
        simp only [List.length_cons] at hcnt' ⊢
        omega) hfuel'

/-- A two-inode volume whose inode free list is empty: ihead and itail are
    NULL_INODE and ifree is 0; inode 0 is the in-use root. -/
def sC9e : FState :=
  { itotal := 2, ifree := 0, ihead := nullRef, itail := nullRef,
    dzoneTotal := 4, dzoneFree := 2, retrievIdx := 1, retriev := fun _ => 2,
    insertIdx := 0, insertCache := fun _ => 0, dhead := 3, dtail := 3,
    inodes := fun _ => inoC5, clusters := fun _ => clNone,
    uid := 1, gid := 1, now := 5 }

/-- C9 counterexample: the claim accepts the empty free list when ifree is
    0, but the do-while of fsckCheckInodeList processes ihead before
    testing the loop condition, so on an entirely consistent empty list
    (ihead = NULL_INODE) the very first soConvertRefInT refuses NULL_INODE
    and the phase reports an error instead of accepting. -/
theorem claim_C9_counterexample :
    isFreeList sC9e [] ∧ sC9e.ifree = 0 ∧
    fsckCheckInodeList sC9e = .error .EINVAL := by
  refine ⟨?_, rfl, rfl⟩
  unfold isFreeList
  decide

/-- C9 (amended): the fsck inode free-list phase walks the free list from
    ihead with prev initialised to NULL_INODE, bounds the traversal by
    ifree counting each visited node (EILLLOOP past the bound), verifies at
    each node the free flag and that prev names the previously visited
    node, and accepts every volume whose free list is a NONEMPTY chain of
    exactly ifree free inodes with mutually inverse prev/next links; the
    empty list is rejected by the do-while shape (see the counterexample
    above). -/
theorem claim_C9_fsck_inode_list (s : FState) (ns : List Nat)
    (hfl : isFreeList s ns) (hne : ns ≠ []) (hlen : s.ifree = ns.length) :
    fsckCheckInodeList s = .ok () := by
  obtain ⟨hnd, hhead, htail, hchain⟩ := hfl
  unfold fsckCheckInodeList
  rw [hhead]
  exact fsckListStep_chain_ok s ns (s.ifree + 2) nullRef 0 hchain hne
    (by omega) (by omega)

theorem claim_C9_fsck_inode_list_witness :
    isFreeList sC1 [1, 2] ∧ [1, 2] ≠ ([] : List Nat) ∧
    sC1.ifree = [1, 2].length ∧ fsckCheckInodeList sC1 = .ok () :=
  ⟨by unfold isFreeList; decide, by decide, by decide,
   claim_C9_fsck_inode_list sC1 [1, 2] (by unfold isFreeList; decide)
     (by decide) (by decide)⟩

theorem claim_C4_alloc_inode_init_witness :
    (sC4r.inodes 1).mode = INODE_FILE ∧
    (sC4r.inodes 1).owner = sC1.uid ∧ (sC4r.inodes 1).group = sC1.gid ∧
    (sC4r.inodes 1).refcount = 0 ∧ (sC4r.inodes 1).size = 0 ∧
    (sC4r.inodes 1).clucount = 0 ∧
    (sC4r.inodes 1).vD1 = sC1.now ∧ (sC4r.inodes 1).vD2 = sC1.now ∧
    (∀ k, k < PW.nDirect → (sC4r.inodes 1).d k = nullRef) ∧
    (sC4r.inodes 1).i1 = nullRef ∧ (sC4r.inodes 1).i2 = nullRef :=
  claim_C4_alloc_inode_init PW sC1 INODE_FILE 1 sC4r (by rfl)

/-! ### Layer 3: soHandleFileCluster (canonical sofs_ifuncs_3_hfc.c; the
    hfc_gil.c variant delegates FREE differently but the design note picks
    the most recent full version) -/

/-- The five operations of soHandleFileCluster: GET, ALLOC, FREE,
    FREE_CLEAN, CLEAN (sofs_ifuncs_3.h). -/
inductive HOp where
  | get | alloc | free | freeClean | clean
  deriving DecidableEq

/-- soCleanLogicalCluster (static, sofs_ifuncs_3_hfc.c): read the data
    cluster, require its stat field to name the owning inode, zero the
    whole payload, set stat to NULL_INODE and write it back. -/
def soCleanLogicalCluster (P : Params) (s : FState) (nInode nLClust : Nat) :
    Except Err FState :=
  let c := s.clusters nLClust
  if c.stat ≠ nInode then .error .EWGINODENB
  else
    let zeroed : Payload :=
      match c.info with
      | .refs _ => .refs (fun _ => 0)
      | .dents _ => .dents (fun _ => { name := fun _ => 0, nInode := 0 })
      | .bytes => .bytes
    .ok (setCluster s nLClust { c with stat := nullRef, info := zeroed })

/-- soHandleDirect (static, sofs_ifuncs_3_hfc.c): operate on the direct
    reference slot clustInd of the local inode copy; GET returns the slot,
    ALLOC requires it null and fills it, the free/clean family requires it
    non-null, frees the cluster unless the op is CLEAN, and for the
    cleaning ops nulls the slot after soCleanLogicalCluster. -/
def soHandleDirect (P : Params) (s : FState) (nInode : Nat) (ino : Inode)
    (clustInd : Nat) (op : HOp) : Except Err (Inode × Option Nat × FState) :=
  match op with
  | .get => .ok (ino, some (ino.d clustInd), s)
  | .alloc =>
    if ino.d clustInd ≠ nullRef then .error .EDCARDYIL
    else
      exBind (soAllocDataCluster P s nInode) fun r =>
        .ok ({ ino with
               d := upd ino.d clustInd r.1,
               clucount := u32add ino.clucount 1 }, some r.1, r.2)
  | _ =>
    if ino.d clustInd = nullRef then .error .EDCNOTIL
    else
      exBind (if op ≠ .clean then soFreeDataCluster P s (ino.d clustInd)
              else .ok s) fun s1 =>
        if op = .free then .ok (ino, none, s1)
        else
          exBind (soCleanLogicalCluster P s1 nInode (ino.d clustInd)) fun s2 =>
            .ok ({ ino with
                   d := upd ino.d clustInd nullRef,
                   clucount := u32sub ino.clucount 1 }, none, s2)

/-- soHandleSIndirect (static, sofs_ifuncs_3_hfc.c).  The memset of the
    reference area with the byte 0xFF makes every slot NULL_CLUSTER, so a
    fresh references cluster is modelled as the all-NULL reference array
    with the requested slot filled. -/
def soHandleSIndirect (P : Params) (s : FState) (nInode : Nat) (ino : Inode)
    (clustInd : Nat) (op : HOp) : Except Err (Inode × Option Nat × FState) :=
  let clustIdx := clustInd - P.nDirect
  if ino.i1 = nullRef then
    match op with
    | .get => .ok (ino, some nullRef, s)
    | .alloc =>
      exBind (soAllocDataCluster P s nInode) fun r1 =>
        let ino1 := { ino with i1 := r1.1, clucount := u32add ino.clucount 1 }
        exBind (soAllocDataCluster P r1.2 nInode) fun r2 =>
          let ino2 := { ino1 with clucount := u32add ino1.clucount 1 }
          let c := (r2.2).clusters ino1.i1
          let c1 := { c with info := .refs (upd (fun _ => nullRef) clustIdx r2.1) }
          .ok (ino2, some r2.1, setCluster r2.2 ino1.i1 c1)
    | _ => .error .EDCNOTIL
  else
    let c := s.clusters ino.i1
    match op with
    | .get => .ok (ino, some (getRef c clustIdx), s)
    | .alloc =>
      if getRef c clustIdx ≠ nullRef then .error .EDCARDYIL
      else
        exBind (soAllocDataCluster P s nInode) fun r =>
          let ino1 := { ino with clucount := u32add ino.clucount 1 }
          let c1 := (r.2).clusters ino.i1
          .ok (ino1, some r.1, setCluster r.2 ino.i1 (setRef c1 clustIdx r.1))
    | _ =>
      if getRef c clustIdx = nullRef then .error .EDCNOTIL
      else
        exBind (if op ≠ .clean then soFreeDataCluster P s (getRef c clustIdx)
               else .ok s) fun s1 =>
          if op = .free then .ok (ino, none, s1)
          else
            exBind (soCleanLogicalCluster P s1 nInode (getRef c clustIdx)) fun s2 =>
              let ino1 := { ino with clucount := u32sub ino.clucount 1 }
              let c2 := s2.clusters ino.i1
              let s3 := setCluster s2 ino.i1 (setRef c2 clustIdx nullRef)
              let c3 := s3.clusters ino.i1
              if (List.range P.rpc).all (fun j => getRef c3 j == nullRef) then
                let s4 := setCluster s3 ino.i1 { c3 with stat := nullRef }
                exBind (soFreeDataCluster P s4 ino.i1) fun s5 =>
                  .ok ({ ino1 with
                         i1 := nullRef,
                         clucount := u32sub ino1.clucount 1 }, none, s5)
              else .ok (ino1, none, s3)

/-- soHandleDIndirect (static, sofs_ifuncs_3_hfc.c). -/
def soHandleDIndirect (P : Params) (s : FState) (nInode : Nat) (ino : Inode)
    (clustInd : Nat) (op : HOp) : Except Err (Inode × Option Nat × FState) :=
  let iIdx := (clustInd - P.nDirect - P.rpc) / P.rpc
  let dIdx := (clustInd - P.nDirect - P.rpc) % P.rpc
  if ino.i2 = nullRef then
    match op with
    | .get => .ok (ino, some nullRef, s)
    | .alloc =>
      exBind (soAllocDataCluster P s nInode) fun r1 =>
        let ino1 := { ino with i2 := r1.1, clucount := u32add ino.clucount 1 }
        exBind (soAllocDataCluster P r1.2 nInode) fun r2 =>
          let ino2 := { ino1 with clucount := u32add ino1.clucount 1 }
          let cI := (r2.2).clusters ino1.i2
          let s1 := setCluster r2.2 ino1.i2
            { cI with info := .refs (upd (fun _ => nullRef) iIdx r2.1) }
          exBind (soAllocDataCluster P s1 nInode) fun r3 =>
            let ino3 := { ino2 with clucount := u32add ino2.clucount 1 }
            let cD := (r3.2).clusters r2.1
            let s2 := setCluster r3.2 r2.1
              { cD with info := .refs (upd (fun _ => nullRef) dIdx r3.1) }
            .ok (ino3, some r3.1, s2)
    | _ => .error .EDCNOTIL
  else
    let cI := s.clusters ino.i2
    match op with
    | .get =>
      if getRef cI iIdx = nullRef then .ok (ino, some nullRef, s)
      else .ok (ino, some (getRef (s.clusters (getRef cI iIdx)) dIdx), s)
    | .alloc =>
      exBind (if getRef cI iIdx = nullRef then
          exBind (soAllocDataCluster P s nInode) fun r =>
            let cI1 := (r.2).clusters ino.i2
            let sA := setCluster r.2 ino.i2 (setRef cI1 iIdx r.1)
            let cD := sA.clusters r.1
            .ok (({ ino with clucount := u32add ino.clucount 1 } : Inode),
                 setCluster sA r.1 { cD with info := .refs (fun _ => nullRef) })
        else .ok (ino, s)) fun ri =>
        let cI2 := (ri.2).clusters ino.i2
        let dRef := getRef cI2 iIdx
        let cD2 := (ri.2).clusters dRef
        if getRef cD2 dIdx ≠ nullRef then .error .EDCARDYIL
        else
          exBind (soAllocDataCluster P ri.2 nInode) fun r2 =>
            let inoB := { ri.1 with clucount := u32add (ri.1).clucount 1 }
            let cD3 := (r2.2).clusters dRef
            .ok (inoB, some r2.1, setCluster r2.2 dRef (setRef cD3 dIdx r2.1))
    | _ =>
      if getRef cI iIdx = nullRef then .error .EDCNOTIL
      else
        let dRef := getRef cI iIdx
        let cD := s.clusters dRef
        if getRef cD dIdx = nullRef then .error .EDCNOTIL
        else
          exBind (if op ≠ .clean then soFreeDataCluster P s (getRef cD dIdx)
                 else .ok s) fun s1 =>
            if op = .free then .ok (ino, none, s1)
            else
              exBind (soCleanLogicalCluster P s1 nInode (getRef cD dIdx)) fun s2 =>
                let cD1 := s2.clusters dRef
                let s3 := setCluster s2 dRef (setRef cD1 dIdx nullRef)
                let ino1 := { ino with clucount := u32sub ino.clucount 1 }
                let cD2 := s3.clusters dRef
                if (List.range P.rpc).all (fun j => getRef cD2 j == nullRef) then
                  let s4 := setCluster s3 dRef { cD2 with stat := nullRef }
                  exBind (soFreeDataCluster P s4 dRef) fun s5 =>
                    let cI1 := s5.clusters ino.i2
                    let s6 := setCluster s5 ino.i2 (setRef cI1 iIdx nullRef)
                    let ino2 := { ino1 with clucount := u32sub ino1.clucount 1 }
                    let cI3 := s6.clusters ino.i2
                    if (List.range P.rpc).all (fun j => getRef cI3 j == nullRef) then
                      let s7 := setCluster s6 ino.i2 { cI3 with stat := nullRef }
                      exBind (soFreeDataCluster P s7 ino.i2) fun s8 =>
                        .ok ({ ino2 with
                               i2 := nullRef,
                               clucount := u32sub ino2.clucount 1 }, none, s8)
                    else .ok (ino2, none, s6)
                else .ok (ino1, none, s3)

/-- soHandleFileCluster (sofs_ifuncs_3_hfc.c): validate the inode number
    and the cluster index, read the inode copy (FDIN for CLEAN, IUIN
    otherwise), dispatch on the zone the index falls in, and write the
    updated copy back under the same status. -/
def soHandleFileCluster (P : Params) (s : FState) (nInode clustInd : Nat)
    (op : HOp) : Except Err (Option Nat × FState) :=
  if nInode ≥ s.itotal ∨ clustInd ≥ P.maxFC then .error .EINVAL
  else
    exBind (soReadInode s nInode (if op = .clean then .fdin else .iuin)) fun ri =>
      exBind (if clustInd < P.nDirect then
                soHandleDirect P ri.2 nInode ri.1 clustInd op
              else if clustInd < P.nDirect + P.rpc then
                soHandleSIndirect P ri.2 nInode ri.1 clustInd op
              else soHandleDIndirect P ri.2 nInode ri.1 clustInd op) fun r =>
        exBind (soWriteInode r.2.2 r.1 nInode (if op = .clean then .fdin else .iuin))
          fun s2 => .ok (r.2.1, s2)

/-! ### C6: soHandleFileClusters (sofs_ifuncs_3_hfcs.c) -/

/-- The common shape of the three while loops of soHandleFileClusters:
    ascending from clustIdx while clustIdx is below the zone bound,
    invoking soHandleFileCluster on the slots the guard selects and
    collecting their indices in order. -/
def hfcsLoop (P : Params) (nInode : Nat) (op : HOp) (bound : Nat)
    (guard : FState → Nat → Bool) :
    Nat → FState → Nat → Except Err (FState × List Nat)
  | _, s, 0 => .ok (s, [])
  | clustIdx, s, fuel + 1 =>
    if clustIdx < bound then
      if guard s clustIdx then
        exBind (soHandleFileCluster P s nInode clustIdx op) fun r =>
          exBind (hfcsLoop P nInode op bound guard (clustIdx + 1) r.2 fuel) fun r2 =>
            .ok (r2.1, clustIdx :: r2.2)
      else hfcsLoop P nInode op bound guard (clustIdx + 1) s fuel
    else .ok (s, [])

/-- The double-indirect loop guard: the indirect slot and the direct slot
    under it — read from the CURRENT state through the stale i2 value —
    are both non-null. -/
def diGuard (P : Params) (i2 : Nat) (s : FState) (clustIdx : Nat) : Bool :=
  (getRef (s.clusters i2) ((clustIdx - P.nDirect - P.rpc) / P.rpc) != nullRef) &&
  (getRef (s.clusters (getRef (s.clusters i2) ((clustIdx - P.nDirect - P.rpc) / P.rpc)))
     ((clustIdx - P.nDirect - P.rpc) % P.rpc) != nullRef)

/-- The single-indirect loop guard: the slot of the references cluster
    named by the stale i1 value is non-null. -/
def siGuard (P : Params) (i1 : Nat) (s : FState) (clustIdx : Nat) : Bool :=
  getRef (s.clusters i1) (clustIdx - P.nDirect) != nullRef

/-- The direct-zone guard tests the STALE inode copy read at entry. -/
def dGuard (d : Nat → Nat) (_ : FState) (clustIdx : Nat) : Bool :=
  d clustIdx != nullRef

/-- soHandleFileClusters (sofs_ifuncs_3_hfcs.c), instrumented to also
    return the ordered list of logical cluster indices it passed on to
    soHandleFileCluster: the double-indirect zone ASCENDING from
    max(start, N_DIRECT + RPC) up to MAX_FILE_CLUSTERS − 1, then the
    single-indirect zone ascending from max(start, N_DIRECT), then the
    direct zone ascending from start; the zone-entry tests and the
    direct-zone slot tests use the inode copy read once at entry. -/
def soHandleFileClustersT (P : Params) (s : FState) (nInode clustIndIn : Nat)
    (op : HOp) : Except Err (FState × List Nat) :=
  if nInode ≥ s.itotal ∨ clustIndIn ≥ P.maxFC then .error .EINVAL
  else if op = .get ∨ op = .alloc then .error .EINVAL
  else
    exBind (soReadInode s nInode (if op = .clean then .fdin else .iuin)) fun ri =>
      let diStart := if clustIndIn ≤ P.nDirect + P.rpc then P.nDirect + P.rpc
                     else clustIndIn
      exBind (if ri.1.i2 ≠ nullRef then
                hfcsLoop P nInode op P.maxFC (diGuard P ri.1.i2) diStart ri.2
                  (P.maxFC - diStart)
              else .ok (ri.2, [])) fun rdi =>
        let siStart := if clustIndIn ≤ P.nDirect then P.nDirect else clustIndIn
        exBind (if ri.1.i1 ≠ nullRef then
                  hfcsLoop P nInode op (P.nDirect + P.rpc) (siGuard P ri.1.i1)
                    siStart rdi.1 (P.nDirect + P.rpc - siStart)
                else .ok (rdi.1, [])) fun rsi =>
          exBind (hfcsLoop P nInode op P.nDirect (dGuard ri.1.d) clustIndIn rsi.1
                    (P.nDirect - clustIndIn)) fun rd =>
            .ok (rd.1, rdi.2 ++ rsi.2 ++ rd.2)

/-- soHandleFileClusters without the instrumentation. -/
def soHandleFileClusters (P : Params) (s : FState) (nInode clustIndIn : Nat)
    (op : HOp) : Except Err FState :=
  exBind (soHandleFileClustersT P s nInode clustIndIn op) fun r => .ok r.1

/-- Every successful run of a soHandleFileClusters loop visits a strictly
    ascending sequence of indices between its entry index and the zone
    bound. -/
theorem hfcsLoop_trace (P : Params) (nInode : Nat) (op : HOp) (bound : Nat)
    (guard : FState → Nat → Bool) :
    ∀ (fuel clustIdx : Nat) (s s2 : FState) (t : List Nat),
      hfcsLoop P nInode op bound guard clustIdx s fuel = .ok (s2, t) →
      List.Chain' (· < ·) t ∧ ∀ x ∈ t, clustIdx ≤ x ∧ x < bound := by
  intro fuel
  induction fuel with
  | zero =>
    intro clustIdx s s2 t h
    rw [hfcsLoop] at h
    rw [Except.ok.injEq, Prod.mk.injEq] at h
    rw [← h.2]
    exact ⟨List.chain'_nil, by simp⟩
  | succ f ih =>
    intro clustIdx s s2 t h
    rw [hfcsLoop] at h
    by_cases hlt : clustIdx < bound
    · rw [if_pos hlt] at h
      by_cases hg : guard s clustIdx = true
      · rw [if_pos hg] at h
        obtain ⟨r, hr, h2⟩ := exBind_eq_ok h
        obtain ⟨r2, hr2, h3⟩ := exBind_eq_ok h2
        rw [Except.ok.injEq, Prod.mk.injEq] at h3
        obtain ⟨-, ht⟩ := h3
        obtain ⟨hch, hbnd⟩ := ih (clustIdx + 1) r.2 r2.1 r2.2 hr2
        rw [← ht]
        constructor
        · exact List.chain'_cons'.mpr
            ⟨fun y hy =>
              Nat.lt_of_succ_le (hbnd y (List.mem_of_mem_head? hy)).1, hch⟩
        · intro x hx
          rcases List.mem_cons.mp hx with hEq | hmem
          · subst hEq
            exact ⟨Nat.le.refl, hlt⟩
          · obtain ⟨h1, h2⟩ := hbnd x hmem
            exact ⟨by omega, h2⟩
      · rw [if_neg hg] at h
        obtain ⟨hch, hbnd⟩ := ih (clustIdx + 1) s s2 t h
        exact ⟨hch, fun x hx =>
          ⟨by have := (hbnd x hx).1; omega, (hbnd x hx).2⟩⟩
    · rw [if_neg hlt] at h
      rw [Except.ok.injEq, Prod.mk.injEq] at h
      rw [← h.2]
      exact ⟨List.chain'_nil, by simp⟩

/-- C6 (amended): a successful soHandleFileClusters visits the
    double-indirect zone FIRST but in ASCENDING index order (from
    max(start, N_DIRECT + RPC), not descending from MAX_FILE_CLUSTERS − 1),
    then the single-indirect zone ascending, then the direct zone
    ascending from the start index; every visited index lies in its zone
    and at or after the start index. -/
theorem claim_C6_handle_file_clusters (P : Params) (s : FState)
    (nInode start : Nat) (op : HOp) (s2 : FState) (t : List Nat)
    (hok : soHandleFileClustersT P s nInode start op = .ok (s2, t)) :
    ∃ t2 t1 t0, t = t2 ++ t1 ++ t0 ∧
      List.Chain' (· < ·) t2 ∧
      (∀ x ∈ t2, P.nDirect + P.rpc ≤ x ∧ start ≤ x ∧ x < P.maxFC) ∧
      List.Chain' (· < ·) t1 ∧
      (∀ x ∈ t1, P.nDirect ≤ x ∧ start ≤ x ∧ x < P.nDirect + P.rpc) ∧
      List.Chain' (· < ·) t0 ∧
      (∀ x ∈ t0, start ≤ x ∧ x < P.nDirect) := by
  unfold soHandleFileClustersT at hok
  split at hok
  · exact absurd hok (by simp)
  split at hok
  · exact absurd hok (by simp)
  obtain ⟨ri, hri, h1⟩ := exBind_eq_ok hok
  dsimp only at h1
  obtain ⟨rdi, hrdi, h2⟩ := exBind_eq_ok h1
  obtain ⟨rsi, hrsi, h3⟩ := exBind_eq_ok h2
  obtain ⟨rd, hrd, h4⟩ := exBind_eq_ok h3
  rw [Except.ok.injEq, Prod.mk.injEq] at h4
  obtain ⟨-, ht⟩ := h4
  have hdi : List.Chain' (· < ·) rdi.2 ∧
      ∀ x ∈ rdi.2, P.nDirect + P.rpc ≤ x ∧ start ≤ x ∧ x < P.maxFC := by
    split at hrdi
    · obtain ⟨hch, hbnd⟩ := hfcsLoop_trace P nInode op P.maxFC _ _ _ _ rdi.1 rdi.2 hrdi
      refine ⟨hch, fun x hx => ?_⟩
      obtain ⟨h1', h2'⟩ := hbnd x hx
      by_cases hc : start ≤ P.nDirect + P.rpc
      · rw [if_pos hc] at h1'
        exact ⟨h1', by omega, h2'⟩
      · rw [if_neg hc] at h1'
        exact ⟨by omega, h1', h2'⟩
    · rw [Except.ok.injEq] at hrdi
      rw [← hrdi]
      exact ⟨List.chain'_nil, by simp⟩
  have hsi : List.Chain' (· < ·) rsi.2 ∧
      ∀ x ∈ rsi.2, P.nDirect ≤ x ∧ start ≤ x ∧ x < P.nDirect + P.rpc := by
    split at hrsi
    · obtain ⟨hch, hbnd⟩ :=
        hfcsLoop_trace P nInode op (P.nDirect + P.rpc) _ _ _ _ rsi.1 rsi.2 hrsi
      refine ⟨hch, fun x hx => ?_⟩
      obtain ⟨h1', h2'⟩ := hbnd x hx
      by_cases hc : start ≤ P.nDirect
      · rw [if_pos hc] at h1'
        exact ⟨h1', by omega, h2'⟩
      · rw [if_neg hc] at h1'
        exact ⟨by omega, h1', h2'⟩
    · rw [Except.ok.injEq] at hrsi
      rw [← hrsi]
      exact ⟨List.chain'_nil, by simp⟩
  obtain ⟨hch0, hbnd0⟩ :=
    hfcsLoop_trace P nInode op P.nDirect _ _ _ _ rd.1 rd.2 hrd
  exact ⟨rdi.2, rsi.2, rd.2, ht.symm, hdi.1, hdi.2, hsi.1, hsi.2, hch0, hbnd0⟩

/-- The reference a double-indirect-zone logical index resolves to. -/
def diSlotRef (P : Params) (s : FState) (i2 idx : Nat) : Nat :=
  let iIdx := (idx - P.nDirect - P.rpc) / P.rpc
  if getRef (s.clusters i2) iIdx = nullRef then nullRef
  else getRef (s.clusters (getRef (s.clusters i2) iIdx))
    ((idx - P.nDirect - P.rpc) % P.rpc)

/-- Modelled from the spec: the double-indirect visit order the claim
    prescribes — from MAX_FILE_CLUSTERS − 1 DOWN to the start index,
    skipping slots that are NULL_CLUSTER. -/
def specDiVisits (P : Params) (s : FState) (i2 start : Nat) : List Nat :=
  (List.range P.maxFC).reverse.filter (fun idx =>
    decide (P.nDirect + P.rpc ≤ idx) && decide (start ≤ idx) &&
    (diSlotRef P s i2 idx != nullRef))

/-- A file inode (number 1) holding two double-indirect data clusters:
    i2 = cluster 2, whose slot 0 names the references cluster 3, whose
    slots reference the data clusters 5 and 6. -/
def sC6 : FState :=
  { itotal := 2, ifree := 0, ihead := nullRef, itail := nullRef,
    dzoneTotal := 8, dzoneFree := 0, retrievIdx := 2, retriev := fun _ => 0,
    insertIdx := 0, insertCache := fun _ => 0, dhead := nullRef, dtail := nullRef,
    inodes := fun i =>
      if i = 1 then { inoC5 with i2 := 2, clucount := 4 } else inoC5,
    clusters := fun c =>
      if c = 2 then { clNone with
        stat := 1,
        info := .refs (fun j => if j = 0 then 3 else nullRef) }
      else if c = 3 then { clNone with
        stat := 1,
        info := .refs (fun j => if j = 0 then 5 else if j = 1 then 6 else nullRef) }
      else if c = 5 ∨ c = 6 then { clNone with stat := 1 }
      else clNone,
    uid := 1, gid := 1, now := 5 }

/-- The state the instrumented bulk FREE run produces on sC6. -/
def sC6r : FState :=
  match soHandleFileClustersT PW sC6 1 0 .free with
  | .ok (t, _) => t
  | .error _ => sC6

/-- C6 counterexample: on a volume whose double-indirect zone holds the
    two clusters of logical indices 4 and 5, the bulk FREE from start
    index 0 hands them to soHandleFileCluster in ASCENDING order [4, 5],
    while the claim's descending iteration from MAX_FILE_CLUSTERS − 1 down
    to the start index prescribes [5, 4]. -/
theorem claim_C6_counterexample :
    soHandleFileClustersT PW sC6 1 0 .free = .ok (sC6r, [4, 5]) ∧
    specDiVisits PW sC6 2 0 = [5, 4] ∧
    ([4, 5] : List Nat) ≠ [5, 4] := by
  refine ⟨by rfl, by decide, by decide⟩

theorem claim_C6_handle_file_clusters_witness :
    ∃ t2 t1 t0, ([4, 5] : List Nat) = t2 ++ t1 ++ t0 ∧
      List.Chain' (· < ·) t2 ∧
      (∀ x ∈ t2, PW.nDirect + PW.rpc ≤ x ∧ 0 ≤ x ∧ x < PW.maxFC) ∧
      List.Chain' (· < ·) t1 ∧
      (∀ x ∈ t1, PW.nDirect ≤ x ∧ 0 ≤ x ∧ x < PW.nDirect + PW.rpc) ∧
      List.Chain' (· < ·) t0 ∧
      (∀ x ∈ t0, 0 ≤ x ∧ x < PW.nDirect) :=
  claim_C6_handle_file_clusters PW sC6 1 0 .free sC6r [4, 5] (by rfl)

/-! ### Directory entries as byte arrays, file-cluster payload access -/

def cstrLenAux (a : Nat → Nat) : Nat → Nat → Nat
  | k, 0 => k
  | k, fuel + 1 => if a k = 0 then k else cstrLenAux a (k + 1) fuel

/-- strlen on a MAX_NAME+1-byte array: the index of the first NUL byte
    (capped at MAX_NAME + 1 for an unterminated array). -/
def cstrLen (P : Params) (a : Nat → Nat) : Nat := cstrLenAux a 0 (P.maxName + 1)

def strEqAux (a b : Nat → Nat) : Nat → Nat → Bool
  | k, 0 => a k == b k
  | k, fuel + 1 =>
    if a k ≠ b k then false
    else if a k = 0 then true
    else strEqAux a b (k + 1) fuel

/-- strcmp(a, b) == 0 on MAX_NAME+1-byte arrays: walk until a differing
    byte (unequal) or a common NUL byte (equal). -/
def strEq (P : Params) (a b : Nat → Nat) : Bool := strEqAux a b 0 (P.maxName + 1)

def zeroDent : DirEntry := { name := fun _ => 0, nInode := 0 }

/-- A cluster payload viewed as the directory-entry table the C union
    makes of it; a payload last written under another view reads as zero
    bytes here. -/
def dentsOf : Payload → Nat → DirEntry
  | .dents de => de
  | _ => fun _ => zeroDent

/-- The all-zero buffer soReadFileCluster yields for an unallocated
    cluster (memset 0), viewed as directory entries. -/
def zeroDents : Payload := .dents (fun _ => zeroDent)

/-- soReadFileCluster (sofs_ifuncs_3_rfc.c): validate, read the inode
    requiring a legal file type, locate the logical cluster through a GET
    soHandleFileCluster, and return its payload — the all-zero buffer when
    the slot is unallocated. -/
def soReadFileCluster (P : Params) (s : FState) (nInode clustInd : Nat) :
    Except Err (Payload × FState) :=
  if nInode ≥ s.itotal ∨ clustInd ≥ P.maxFC then .error .EINVAL
  else
    exBind (soReadInode s nInode .iuin) fun ri =>
      if legalType ri.1.mode = false then .error .EIUININVAL
      else
        exBind (soHandleFileCluster P ri.2 nInode clustInd .get) fun r =>
          match r.1 with
          | some lc =>
            if lc = nullRef then .ok (zeroDents, r.2)
            else .ok (((r.2).clusters lc).info, r.2)
          | none => .error .ELIBBAD

/-- Modelled from the spec: soWriteFileCluster (sofs_ifuncs_3_wfc.c is not
    in the source tree; §4.6: both cluster I/O operations take the logical
    index and allocate on write): validate, read the inode requiring a
    legal file type, locate the logical cluster through GET, allocate it
    through ALLOC when it is not yet referenced, and store the given
    payload into it. -/
def soWriteFileCluster (P : Params) (s : FState) (nInode clustInd : Nat)
    (pl : Payload) : Except Err FState :=
  if nInode ≥ s.itotal ∨ clustInd ≥ P.maxFC then .error .EINVAL
  else
    exBind (soReadInode s nInode .iuin) fun ri =>
      if legalType ri.1.mode = false then .error .EIUININVAL
      else
        exBind (soHandleFileCluster P ri.2 nInode clustInd .get) fun r =>
          exBind (match r.1 with
                  | some lc =>
                    if lc = nullRef then
                      exBind (soHandleFileCluster P r.2 nInode clustInd .alloc)
                        fun ra =>
                          match ra.1 with
                          | some lc2 => .ok (lc2, ra.2)
                          | none => .error .ELIBBAD
                    else .ok (lc, r.2)
                  | none => .error .ELIBBAD) fun rlc =>
            let c := (rlc.2).clusters rlc.1
            .ok (setCluster rlc.2 rlc.1 { c with info := pl })

/-! ### C7: soGetDirEntryByName (sofs_ifuncs_4_gdebn.c) -/

/-- The outcome of the lookup: the located entry's inode number and
    absolute index, or not-found carrying the index the function exposes
    through p_idx alongside -ENOENT. -/
inductive GdebnRes where
  | found (nInodeEnt idx : Nat)
  | notFound (idx : Nat)

/-- The inner DPC-slot loop of soGetDirEntryByName over one cluster's
    entry table: a slot whose nInode is NULL_INODE is free and updates the
    first-free sentinel only when the sentinel is still 0 — so a free slot
    at absolute index 0 is never recorded; any other slot is a candidate,
    matched by strcmp. -/
def gdebnSlotLoop (P : Params) (de : Nat → DirEntry) (name : Nat → Nat) :
    Nat → Nat → Nat → Nat → Sum (Nat × Nat) Nat
  | 0, _, _, frst => .inr frst
  | fuel + 1, j, absIdx, frst =>
    if (de j).nInode = nullRef then
      gdebnSlotLoop P de name fuel (j + 1) (absIdx + 1)
        (if frst = 0 then absIdx else frst)
    else if strEq P (de j).name name then .inl ((de j).nInode, absIdx)
    else gdebnSlotLoop P de name fuel (j + 1) (absIdx + 1) frst

/-- The outer cluster loop of soGetDirEntryByName: read each cluster of
    the directory in turn and scan its DPC slots. -/
def gdebnClusterLoop (P : Params) (dir : Nat) (name : Nat → Nat) :
    Nat → Nat → Nat → Nat → FState →
    Except Err (Sum (Nat × Nat) (Nat × Nat) × FState)
  | 0, _, absIdx, frst, s => .ok (.inr (frst, absIdx), s)
  | fuel + 1, clt, absIdx, frst, s =>
    exBind (soReadFileCluster P s dir clt) fun rp =>
      match gdebnSlotLoop P (dentsOf rp.1) name P.dpc 0 absIdx frst with
      | .inl found => .ok (.inl found, rp.2)
      | .inr frst2 =>
          gdebnClusterLoop P dir name fuel (clt + 1) (absIdx + P.dpc) frst2 rp.2

/-- soGetDirEntryByName (sofs_ifuncs_4_gdebn.c): validate the name,
    require execution permission and a directory inode, then scan
    size / (DPC * sizeof(SODirEntry)) clusters from index 0 upward; on no
    match expose the sentinel if it was ever set, the one-past-last index
    otherwise. -/
def soGetDirEntryByName (P : Params) (s : FState) (nInodeDir : Nat)
    (name : Nat → Nat) : Except Err (GdebnRes × FState) :=
  if cstrLen P name > P.maxName then .error .ENAMETOOLONG
  else if (List.range (cstrLen P name)).any (fun k => name k == 47) then
    .error .EINVAL
  else
    exBind (soAccessGranted s nInodeDir permX) fun s1 =>
      exBind (soReadInode s1 nInodeDir .iuin) fun ri =>
        if ri.1.mode &&& INODE_DIR ≠ INODE_DIR then .error .ENOTDIR
        else
          exBind (gdebnClusterLoop P nInodeDir name
                    (ri.1.size / (P.dpc * P.deSize)) 0 0 0 ri.2) fun r =>
            match r.1 with
            | .inl fnd => .ok (.found fnd.1 fnd.2, r.2)
            | .inr fr =>
                .ok (.notFound (if fr.1 ≠ 0 then fr.1 else fr.2), r.2)

/-- The reference the logical cluster index of a file resolves to, read
    directly off the state (the pure meaning of a GET soHandleFileCluster). -/
def fileClusterRef (P : Params) (s : FState) (nInode clt : Nat) : Nat :=
  let ino := s.inodes nInode
  if clt < P.nDirect then ino.d clt
  else if clt < P.nDirect + P.rpc then
    (if ino.i1 = nullRef then nullRef
     else getRef (s.clusters ino.i1) (clt - P.nDirect))
  else (if ino.i2 = nullRef then nullRef else diSlotRef P s ino.i2 clt)

/-- The directory contents as one flat array of entries: slot i lives at
    offset i % DPC of the cluster of logical index i / DPC; an unallocated
    cluster reads as all-zero bytes, exactly as soReadFileCluster delivers
    it. -/
def dirTable (P : Params) (s : FState) (dir i : Nat) : DirEntry :=
  let lc := fileClusterRef P s dir (i / P.dpc)
  if lc = nullRef then zeroDent
  else dentsOf ((s.clusters lc).info) (i % P.dpc)

/-- A candidate slot of the scan: the inode number is not NULL_INODE and
    the stored name strcmp-equals the searched one. -/
def candMatchB (P : Params) (name : Nat → Nat) (de : DirEntry) : Bool :=
  (de.nInode != nullRef) && strEq P de.name name

/-- The only notion of a free slot the scan has: nInode = NULL_INODE. -/
def freeSlotB (de : DirEntry) : Bool := de.nInode == nullRef

/-- The value of the frstFCDE sentinel after examining slots [0, n): the
    first free slot's index was recorded only while the sentinel was still
    0, so a free slot at index 0 is never recorded. -/
def sentinelUpTo (T : Nat → DirEntry) : Nat → Nat
  | 0 => 0
  | n + 1 =>
    let sn := sentinelUpTo T n
    if sn = 0 ∧ freeSlotB (T n) = true then n else sn

/-- The first candidate match among slots [0, n), if any. -/
def scanMatch (P : Params) (name : Nat → Nat) (T : Nat → DirEntry) :
    Nat → Option Nat
  | 0 => none
  | n + 1 =>
    match scanMatch P name T n with
    | some i => some i
    | none => if candMatchB P name (T n) = true then some n else none

theorem scanMatch_mono (P : Params) (name : Nat → Nat) (T : Nat → DirEntry)
    (n : Nat) (i : Nat) (h : scanMatch P name T n = some i) :
    ∀ m, scanMatch P name T (n + m) = some i := by
  intro m
  induction m with
  | zero => exact h
  | succ k ih =>
    rw [show n + (k + 1) = (n + k) + 1 from rfl, scanMatch, ih]

/-- The directory table only depends on the clusters and on the reference
    fields of the directory inode. -/
theorem dirTable_frame (P : Params) (s s' : FState) (dir : Nat)
    (hcl : s'.clusters = s.clusters)
    (hd : (s'.inodes dir).d = (s.inodes dir).d)
    (h1 : (s'.inodes dir).i1 = (s.inodes dir).i1)
    (h2 : (s'.inodes dir).i2 = (s.inodes dir).i2) :
    ∀ i, dirTable P s' dir i = dirTable P s dir i := by
  intro i
  simp only [dirTable, fileClusterRef, diSlotRef, hcl, hd, h1, h2]

/-- A GET soHandleFileCluster returns the pure resolution of the index and
    only stamps the inode's times. -/
theorem soHandleFileCluster_get (P : Params) (s : FState) (nInode clt : Nat)
    (out : Option Nat) (s2 : FState)
    (hok : soHandleFileCluster P s nInode clt .get = .ok (out, s2)) :
    out = some (fileClusterRef P s nInode clt) ∧
    s2.clusters = s.clusters ∧
    (∀ j, j ≠ nInode → s2.inodes j = s.inodes j) ∧
    s2.inodes nInode = { s.inodes nInode with vD1 := s.now, vD2 := s.now } ∧
    s2.now = s.now ∧ s2.itotal = s.itotal ∧ s2.uid = s.uid ∧ s2.gid = s.gid := by
  unfold soHandleFileCluster at hok
  split at hok
  · exact absurd hok (by simp)
  rw [if_neg (show ¬(HOp.get = HOp.clean) by decide)] at hok
  obtain ⟨ri, hri, h1⟩ := exBind_eq_ok hok
  unfold soReadInode at hri
  split at hri
  · exact absurd hri (by simp)
  dsimp only at hri
  split at hri
  · exact absurd hri (by simp)
  rw [Except.ok.injEq] at hri
  obtain ⟨r2, hr2, h2⟩ := exBind_eq_ok h1
  obtain ⟨s3, hs3, h3⟩ := exBind_eq_ok h2
  rw [Except.ok.injEq, Prod.mk.injEq] at h3
  obtain ⟨hout, hs2⟩ := h3
  unfold soWriteInode at hs3
  split at hs3
  · exact absurd hs3 (by simp)
  dsimp only at hs3
  split at hs3
  · exact absurd hs3 (by simp)
  split at hs3
  · exact absurd hs3 (by simp)
  rw [Except.ok.injEq] at hs3
  have hr2v : r2 = (ri.1, some (fileClusterRef P s nInode clt), ri.2) := by
    rw [← hri] at hr2
    dsimp only at hr2
    unfold fileClusterRef
    split at hr2
    · -- direct zone
      unfold soHandleDirect at hr2
      dsimp only at hr2
      rw [Except.ok.injEq] at hr2
      rw [← hr2, ← hri]
      next hlt =>
      rw [if_pos hlt]
    · next hnlt =>
      split at hr2
      · -- single indirect zone
        unfold soHandleSIndirect at hr2
        dsimp only at hr2
        next hlt2 =>
        rw [if_neg (by omega), if_pos hlt2]
        split at hr2
        · next hi1 =>
          rw [Except.ok.injEq] at hr2
          rw [← hr2, ← hri]
          rw [if_pos hi1]
        · next hi1 =>
          rw [Except.ok.injEq] at hr2
          rw [← hr2, ← hri]
          rw [if_neg hi1]
      · -- double indirect zone
        next hnlt2 =>
        unfold soHandleDIndirect at hr2
        dsimp only at hr2
        rw [if_neg (by omega), if_neg (by omega)]
        split at hr2
        · next hi2 =>
          rw [Except.ok.injEq] at hr2
          rw [← hr2, ← hri]
          rw [if_pos hi2]
        · next hi2 =>
          rw [if_neg hi2]
          unfold diSlotRef
          dsimp only
          split at hr2
          · next hnull =>
            rw [Except.ok.injEq] at hr2
            rw [← hr2, ← hri]
            rw [if_pos hnull]
          · next hnull =>
            rw [Except.ok.injEq] at hr2
            rw [← hr2, ← hri]
            rw [if_neg hnull]
  subst hr2v
  dsimp only at hout hs3
  rw [← hs2, ← hs3, ← hri]
  dsimp only
  refine ⟨hout.symm, rfl, ?_, ?_, rfl, rfl, rfl, rfl⟩
  · intro j hj
    show upd (upd s.inodes nInode _) nInode _ j = s.inodes j
    rw [upd_other _ _ _ hj, upd_other _ _ _ hj]
  · show upd (upd s.inodes nInode _) nInode _ nInode = _
    rw [upd_same]

/-- soReadFileCluster delivers exactly the payload of the resolved cluster
    (all-zero when unallocated) and only stamps the inode's times. -/
theorem soReadFileCluster_get (P : Params) (s : FState) (dir clt : Nat)
    (pl : Payload) (s' : FState)
    (hok : soReadFileCluster P s dir clt = .ok (pl, s')) :
    s'.clusters = s.clusters ∧
    (∀ j, j ≠ dir → s'.inodes j = s.inodes j) ∧
    s'.inodes dir = { s.inodes dir with vD1 := s.now, vD2 := s.now } ∧
    s'.now = s.now ∧ s'.itotal = s.itotal ∧ s'.uid = s.uid ∧ s'.gid = s.gid ∧
    (∀ off, dentsOf pl off =
      (if fileClusterRef P s dir clt = nullRef then zeroDent
       else dentsOf ((s.clusters (fileClusterRef P s dir clt)).info) off)) := by
  unfold soReadFileCluster at hok
  split at hok
  · exact absurd hok (by simp)
  obtain ⟨ri, hri, h1⟩ := exBind_eq_ok hok
  split at h1
  · exact absurd h1 (by simp)
  obtain ⟨r, hr, h2⟩ := exBind_eq_ok h1
  obtain ⟨hout, hcl, hinoJ, hinoD, hnow, hitot, huid, hgid⟩ :=
    soHandleFileCluster_get P ri.2 dir clt r.1 r.2 hr
  have hriFacts : ri.2.clusters = s.clusters ∧
      (∀ j, j ≠ dir → ri.2.inodes j = s.inodes j) ∧
      ri.2.inodes dir = { s.inodes dir with vD1 := s.now } ∧
      ri.2.now = s.now ∧ ri.2.itotal = s.itotal ∧
      ri.2.uid = s.uid ∧ ri.2.gid = s.gid := by
    unfold soReadInode at hri
    split at hri
    · exact absurd hri (by simp)
    dsimp only at hri
    split at hri
    · exact absurd hri (by simp)
    rw [Except.ok.injEq] at hri
    rw [← hri]
    refine ⟨rfl, ?_, ?_, rfl, rfl, rfl, rfl⟩
    · intro j hj
      show upd s.inodes dir _ j = s.inodes j
      rw [upd_other _ _ _ hj]
    · show upd s.inodes dir _ dir = _
      rw [upd_same]
  have hres : fileClusterRef P ri.2 dir clt = fileClusterRef P s dir clt := by
    simp only [fileClusterRef, diSlotRef, hriFacts.1, hriFacts.2.2.1]
  have e1 : ∀ j, j ≠ dir → r.2.inodes j = s.inodes j := fun j hj =>
    (hinoJ j hj).trans (hriFacts.2.1 j hj)
  have e2 : r.2.inodes dir = { s.inodes dir with vD1 := s.now, vD2 := s.now } := by
    rw [hinoD, hriFacts.2.2.1, hriFacts.2.2.2.1]
  have e3 : r.2.clusters = s.clusters := hcl.trans hriFacts.1
  have e4 : r.2.now = s.now := hnow.trans hriFacts.2.2.2.1
  have e5 : r.2.itotal = s.itotal := hitot.trans hriFacts.2.2.2.2.1
  have e6 : r.2.uid = s.uid := huid.trans hriFacts.2.2.2.2.2.1
  have e7 : r.2.gid = s.gid := hgid.trans hriFacts.2.2.2.2.2.2
  rw [hout, hres] at h2
  dsimp only at h2
  split at h2
  · next hnull =>
    rw [Except.ok.injEq, Prod.mk.injEq] at h2
    rw [← h2.2, ← h2.1]
    refine ⟨e3, e1, e2, e4, e5, e6, e7, ?_⟩
    intro off
    rw [if_pos hnull]
    rfl
  · next hnull =>
    rw [Except.ok.injEq, Prod.mk.injEq] at h2
    rw [← h2.2, ← h2.1]
    refine ⟨e3, e1, e2, e4, e5, e6, e7, ?_⟩
    intro off
    rw [if_neg hnull, e3]

/-- The slot loop computes the first candidate match of its window, or
    threads the frstFCDE sentinel through every free slot of the window. -/
theorem gdebnSlotLoop_spec (P : Params) (name : Nat → Nat) (T : Nat → DirEntry) :
    ∀ (fuel j absIdx frst : Nat) (de : Nat → DirEntry),
      (∀ k, k < fuel → de (j + k) = T (absIdx + k)) →
      frst = sentinelUpTo T absIdx →
      scanMatch P name T absIdx = none →
      gdebnSlotLoop P de name fuel j absIdx frst =
        (match scanMatch P name T (absIdx + fuel) with
         | some i => Sum.inl ((T i).nInode, i)
         | none => Sum.inr (sentinelUpTo T (absIdx + fuel))) := by
  intro fuel
  induction fuel with
  | zero =>
    intro j absIdx frst de hag hfr hsm
    rw [gdebnSlotLoop, Nat.add_zero, hsm, hfr]
  | succ f ih =>
    intro j absIdx frst de hag hfr hsm
    rw [gdebnSlotLoop]
    have hde0 : de j = T absIdx := by
      have := hag 0 (by omega)
      simpa using this
    have hag1 : ∀ k, k < f → de (j + 1 + k) = T (absIdx + 1 + k) := by
      intro k hk
      rw [show j + 1 + k = j + (k + 1) from by omega,
          show absIdx + 1 + k = absIdx + (k + 1) from by omega]
      exact hag (k + 1) (by omega)
    have harith : absIdx + 1 + f = absIdx + (f + 1) := by omega
    by_cases hfree : (de j).nInode = nullRef
    · rw [if_pos hfree]
      have hcand : candMatchB P name (T absIdx) = false := by
        simp [candMatchB, ← hde0, hfree]
      have hscan1 : scanMatch P name T (absIdx + 1) = none := by
        rw [scanMatch, hsm, hcand]
        simp
      have hfr1 : (if frst = 0 then absIdx else frst) = sentinelUpTo T (absIdx + 1) := by
        rw [sentinelUpTo]
        rw [← hfr]
        have hfree' : freeSlotB (T absIdx) = true := by
          simp [freeSlotB, ← hde0, hfree]
        by_cases h0 : frst = 0
        · rw [if_pos h0, if_pos ⟨h0, hfree'⟩]
        · rw [if_neg h0, if_neg (by simp [h0])]
      rw [ih (j + 1) (absIdx + 1) (if frst = 0 then absIdx else frst) de hag1 hfr1 hscan1, harith]
    · rw [if_neg hfree]
      by_cases hmm : strEq P (de j).name name = true
      · rw [if_pos hmm]
        have hcand : candMatchB P name (T absIdx) = true := by
          simp [candMatchB, ← hde0, hfree, hmm]
        have h1 : scanMatch P name T (absIdx + 1) = some absIdx := by
          rw [scanMatch, hsm, hcand]
          simp
        have h2 : scanMatch P name T (absIdx + (f + 1)) = some absIdx := by
          rw [show absIdx + (f + 1) = (absIdx + 1) + f from by omega]
          exact scanMatch_mono P name T (absIdx + 1) absIdx h1 f
        rw [h2, hde0]
      · rw [if_neg hmm]
        have hmmF : strEq P (de j).name name = false := by
          rwa [Bool.not_eq_true] at hmm
        have hcand : candMatchB P name (T absIdx) = false := by
          unfold candMatchB
          rw [← hde0, hmmF, Bool.and_false]
        have hscan1 : scanMatch P name T (absIdx + 1) = none := by
          rw [scanMatch, hsm, hcand]
          simp
        have hfr1 : frst = sentinelUpTo T (absIdx + 1) := by
          rw [sentinelUpTo]
          rw [← hfr]
          have hfree' : freeSlotB (T absIdx) = false := by
            simp [freeSlotB, ← hde0, hfree]
          rw [if_neg (by simp [hfree'])]
        rw [ih (j + 1) (absIdx + 1) frst de hag1 hfr1 hscan1, harith]

/-- The cluster loop of the scan behaves as the flat slot scan over the
    directory table: it either finds the first candidate match or carries
    the sentinel and the one-past-last index to the end. -/
theorem gdebnClusterLoop_spec (P : Params) (dir : Nat) (name : Nat → Nat)
    (T : Nat → DirEntry) (hdpc : 0 < P.dpc) :
    ∀ (fuel clt frst : Nat) (sk s' : FState)
      (res : Sum (Nat × Nat) (Nat × Nat)),
      gdebnClusterLoop P dir name fuel clt (clt * P.dpc) frst sk = .ok (res, s') →
      (∀ i, dirTable P sk dir i = T i) →
      frst = sentinelUpTo T (clt * P.dpc) →
      scanMatch P name T (clt * P.dpc) = none →
      res = (match scanMatch P name T ((clt + fuel) * P.dpc) with
        | some i => Sum.inl ((T i).nInode, i)
        | none => Sum.inr (sentinelUpTo T ((clt + fuel) * P.dpc),
                           (clt + fuel) * P.dpc)) := by
  intro fuel
  induction fuel with
  | zero =>
    intro clt frst sk s' res h hT hfr hsm
    rw [gdebnClusterLoop] at h
    rw [Except.ok.injEq, Prod.mk.injEq] at h
    rw [Nat.add_zero, hsm, ← h.1, hfr]
  | succ f ih =>
    intro clt frst sk s' res h hT hfr hsm
    rw [gdebnClusterLoop] at h
    obtain ⟨rp, hrp, h2⟩ := exBind_eq_ok h
    obtain ⟨hcl, hj, hD, hnow, hitot, huid, hgid, hpl⟩ :=
      soReadFileCluster_get P sk dir clt rp.1 rp.2 hrp
    have hT2 : ∀ i, dirTable P rp.2 dir i = T i := by
      intro i
      rw [dirTable_frame P sk rp.2 dir hcl (by rw [hD]) (by rw [hD]) (by rw [hD]) i]
      exact hT i
    have hag : ∀ k, k < P.dpc → dentsOf rp.1 (0 + k) = T (clt * P.dpc + k) := by
      intro k hk
      rw [Nat.zero_add, hpl k, ← hT (clt * P.dpc + k)]
      unfold dirTable
      rw [show (clt * P.dpc + k) / P.dpc = clt from by
            rw [Nat.mul_comm clt P.dpc, Nat.mul_add_div hdpc, Nat.div_eq_of_lt hk,
              Nat.add_zero]]
      rw [show (clt * P.dpc + k) % P.dpc = k from by
            rw [Nat.mul_comm clt P.dpc, Nat.mul_add_mod, Nat.mod_eq_of_lt hk]]
    have hslot := gdebnSlotLoop_spec P name T P.dpc 0 (clt * P.dpc) frst
      (dentsOf rp.1) hag hfr hsm
    rw [hslot] at h2
    have harith : clt * P.dpc + P.dpc = (clt + 1) * P.dpc := by ring
    cases hsm1 : scanMatch P name T (clt * P.dpc + P.dpc) with
    | some i =>
      rw [hsm1] at h2
      dsimp only at h2
      rw [Except.ok.injEq, Prod.mk.injEq] at h2
      rw [← h2.1]
      have hle : clt * P.dpc + P.dpc ≤ (clt + (f + 1)) * P.dpc := by
        rw [harith]
        exact Nat.mul_le_mul_right P.dpc (by omega)
      have hmono := scanMatch_mono P name T (clt * P.dpc + P.dpc) i hsm1
        ((clt + (f + 1)) * P.dpc - (clt * P.dpc + P.dpc))
      rw [show clt * P.dpc + P.dpc + ((clt + (f + 1)) * P.dpc -
            (clt * P.dpc + P.dpc)) = (clt + (f + 1)) * P.dpc from by omega] at hmono
      rw [hmono]
    | none =>
      rw [hsm1] at h2
      dsimp only at h2
      rw [harith] at h2
      have := ih (clt + 1) _ rp.2 s' res h2 hT2 rfl (by rw [← harith]; exact hsm1)
      rw [this, show clt + 1 + f = clt + (f + 1) from by omega]

/-- soAccessGranted only stamps the access time of the checked inode. -/
theorem soAccessGranted_frame (s : FState) (nInode op : Nat) (s1 : FState)
    (hok : soAccessGranted s nInode op = .ok s1) :
    s1.clusters = s.clusters ∧ (∀ j, j ≠ nInode → s1.inodes j = s.inodes j) ∧
    s1.inodes nInode = { s.inodes nInode with vD1 := s.now } ∧
    s1.now = s.now ∧ s1.itotal = s.itotal ∧ s1.uid = s.uid ∧ s1.gid = s.gid := by
  unfold soAccessGranted at hok
  split at hok
  · exact absurd hok (by simp)
  split at hok
  · exact absurd hok (by simp)
  split at hok
  · exact absurd hok (by simp)
  next ino s1' hread =>
  have hfacts : s1'.clusters = s.clusters ∧
      (∀ j, j ≠ nInode → s1'.inodes j = s.inodes j) ∧
      s1'.inodes nInode = { s.inodes nInode with vD1 := s.now } ∧
      s1'.now = s.now ∧ s1'.itotal = s.itotal ∧
      s1'.uid = s.uid ∧ s1'.gid = s.gid := by
    unfold soReadInode at hread
    split at hread
    · exact absurd hread (by simp)
    dsimp only at hread
    split at hread
    · exact absurd hread (by simp)
    rw [Except.ok.injEq, Prod.mk.injEq] at hread
    rw [← hread.2]
    refine ⟨rfl, ?_, ?_, rfl, rfl, rfl, rfl⟩
    · intro j hj
      show upd s.inodes nInode _ j = s.inodes j
      rw [upd_other _ _ _ hj]
    · show upd s.inodes nInode _ nInode = _
      rw [upd_same]
  split at hok
  all_goals try dsimp only at hok
  all_goals repeat' split at hok
  all_goals first
    | (rw [Except.ok.injEq] at hok; subst hok; exact hfacts)
    | exact absurd hok (by simp)

/-- C7 (amended): the scan of soGetDirEntryByName, read off the flat
    directory table: a successful lookup returns the FIRST slot whose
    nInode is not NULL_INODE and whose name strcmp-equals the searched one
    (a slot whose name[0] is 0 but whose nInode is set — the state
    soRemoveDirEntry leaves — is still examined as a candidate, not
    treated as free, though it can never equal a valid nonempty name); on
    no match it returns not-found exposing the frstFCDE sentinel: the
    smallest index of a free slot (nInode = NULL_INODE is the ONLY free
    criterion) except that index 0 is never recorded, falling back to the
    one-past-last index. -/
theorem claim_C7_get_dir_entry_by_name (P : Params) (s : FState) (dir : Nat)
    (name : Nat → Nat) (res : GdebnRes) (s' : FState) (hdpc : 0 < P.dpc)
    (hok : soGetDirEntryByName P s dir name = .ok (res, s')) :
    (∀ nE i, res = .found nE i →
       scanMatch P name (dirTable P s dir)
           ((s.inodes dir).size / (P.dpc * P.deSize) * P.dpc) = some i ∧
       nE = (dirTable P s dir i).nInode) ∧
    (∀ i, res = .notFound i →
       scanMatch P name (dirTable P s dir)
           ((s.inodes dir).size / (P.dpc * P.deSize) * P.dpc) = none ∧
       i = (if sentinelUpTo (dirTable P s dir)
                ((s.inodes dir).size / (P.dpc * P.deSize) * P.dpc) ≠ 0
            then sentinelUpTo (dirTable P s dir)
                ((s.inodes dir).size / (P.dpc * P.deSize) * P.dpc)
            else (s.inodes dir).size / (P.dpc * P.deSize) * P.dpc)) := by
  unfold soGetDirEntryByName at hok
  split at hok
  · exact absurd hok (by simp)
  split at hok
  · exact absurd hok (by simp)
  obtain ⟨s1, hacc, h1⟩ := exBind_eq_ok hok
  obtain ⟨ri, hread, h2⟩ := exBind_eq_ok h1
  split at h2
  · exact absurd h2 (by simp)
  obtain ⟨r, hloop, h3⟩ := exBind_eq_ok h2
  obtain ⟨a1, a2, a3, a4, a5, a6, a7⟩ := soAccessGranted_frame s dir permX s1 hacc
  have hrfacts : ri.1.size = (s.inodes dir).size ∧
      (∀ i, dirTable P ri.2 dir i = dirTable P s dir i) := by
    unfold soReadInode at hread
    split at hread
    · exact absurd hread (by simp)
    dsimp only at hread
    split at hread
    · exact absurd hread (by simp)
    rw [Except.ok.injEq, Prod.mk.injEq] at hread
    have hTa : ∀ i, dirTable P s1 dir i = dirTable P s dir i :=
      dirTable_frame P s s1 dir a1 (by rw [a3]) (by rw [a3]) (by rw [a3])
    constructor
    · rw [← hread.1, a3]
    · intro i
      have hTb : ∀ i, dirTable P ri.2 dir i = dirTable P s1 dir i := by
        apply dirTable_frame P s1 ri.2 dir
        · rw [← hread.2]
        · rw [← hread.2]
          show (upd s1.inodes dir _ dir).d = _
          rw [upd_same]
        · rw [← hread.2]
          show (upd s1.inodes dir _ dir).i1 = _
          rw [upd_same]
        · rw [← hread.2]
          show (upd s1.inodes dir _ dir).i2 = _
          rw [upd_same]
      exact (hTb i).trans (hTa i)
  have hspec := gdebnClusterLoop_spec P dir name (dirTable P s dir) hdpc
      (ri.1.size / (P.dpc * P.deSize)) 0 0 ri.2 r.2 r.1
      (by rw [Nat.zero_mul]; exact hloop) hrfacts.2
      (by rw [Nat.zero_mul]; rfl) (by rw [Nat.zero_mul]; rfl)
  rw [Nat.zero_add, hrfacts.1] at hspec
  cases hm : scanMatch P name (dirTable P s dir)
      ((s.inodes dir).size / (P.dpc * P.deSize) * P.dpc) with
  | some i =>
    rw [hm] at hspec
    rw [hspec] at h3
    dsimp only at h3
    rw [Except.ok.injEq, Prod.mk.injEq] at h3
    constructor
    · intro nE i' heq
      rw [← h3.1] at heq
      injection heq with hnE hi
      rw [← hnE, ← hi]
      exact ⟨rfl, rfl⟩
    · intro i' heq
      rw [← h3.1] at heq
      exact absurd heq (by simp)
  | none =>
    rw [hm] at hspec
    rw [hspec] at h3
    dsimp only at h3
    rw [Except.ok.injEq, Prod.mk.injEq] at h3
    constructor
    · intro nE i' heq
      rw [← h3.1] at heq
      exact absurd heq (by simp)
    · intro i' heq
      rw [← h3.1] at heq
      injection heq with hi
      exact ⟨rfl, hi.symm⟩

/-- Modelled from the spec: the free-slot index the claim says a failed
    lookup exposes — the smallest index whose slot has name[0] = 0 or
    nInode = NULL_INODE, or one-past-last when there is none. -/
def specFirstFreeSlot (T : Nat → DirEntry) (total : Nat) : Nat :=
  match (List.range total).find?
      (fun i => ((T i).name 0 == 0) || ((T i).nInode == nullRef)) with
  | some i => i
  | none => total

/-- The searched base name "a". -/
def nameA : Nat → Nat := fun k => if k = 0 then 97 else 0

/-- A directory inode (number 1) of one cluster (logical 0 → cluster 4). -/
def inoDirC7 : Inode :=
  { mode := INODE_DIR + 7, refcount := 2, owner := 1, group := 1, size := 24,
    clucount := 1, vD1 := 0, vD2 := 0,
    d := fun k => if k = 0 then 4 else nullRef, i1 := nullRef, i2 := nullRef }

/-- A volume whose directory (inode 1) has its only free slot at index 0:
    slot 0 is free (nInode = NULL_INODE), slots 1 and 2 hold the entries
    "b" and "c". -/
def sC7 : FState :=
  { itotal := 4, ifree := 0, ihead := nullRef, itail := nullRef,
    dzoneTotal := 8, dzoneFree := 0, retrievIdx := 2, retriev := fun _ => 0,
    insertIdx := 0, insertCache := fun _ => 0, dhead := nullRef, dtail := nullRef,
    inodes := fun i => if i = 1 then inoDirC7 else inoC5,
    clusters := fun c =>
      if c = 4 then { clNone with
        stat := 1,
        info := .dents (fun j =>
          if j = 1 then { name := fun k => if k = 0 then 98 else 0, nInode := 2 }
          else if j = 2 then { name := fun k => if k = 0 then 99 else 0, nInode := 3 }
          else { name := fun _ => 0, nInode := nullRef }) }
      else clNone,
    uid := 1, gid := 1, now := 5 }

/-- The state the failing lookup leaves. -/
def sC7r : FState :=
  match soGetDirEntryByName PW sC7 1 nameA with
  | .ok (_, t) => t
  | .error _ => sC7

/-- C7 counterexample: on a directory whose only free slot is at index 0,
    a lookup of an absent name reports not-found with the one-past-last
    index 3, not the smallest free slot index 0 the claim promises — the
    frstFCDE sentinel starts at 0 and "0 was recorded" is
    indistinguishable from "nothing was recorded". -/
theorem claim_C7_counterexample :
    soGetDirEntryByName PW sC7 1 nameA = .ok (.notFound 3, sC7r) ∧
    specFirstFreeSlot (dirTable PW sC7 1) 3 = 0 ∧ (3 : Nat) ≠ 0 :=
  ⟨by rfl, by rfl, by decide⟩

theorem claim_C7_get_dir_entry_by_name_witness :
    (∀ nE i, GdebnRes.notFound 3 = .found nE i →
       scanMatch PW nameA (dirTable PW sC7 1)
           ((sC7.inodes 1).size / (PW.dpc * PW.deSize) * PW.dpc) = some i ∧
       nE = (dirTable PW sC7 1 i).nInode) ∧
    (∀ i, GdebnRes.notFound 3 = .notFound i →
       scanMatch PW nameA (dirTable PW sC7 1)
           ((sC7.inodes 1).size / (PW.dpc * PW.deSize) * PW.dpc) = none ∧
       i = (if sentinelUpTo (dirTable PW sC7 1)
                ((sC7.inodes 1).size / (PW.dpc * PW.deSize) * PW.dpc) ≠ 0
            then sentinelUpTo (dirTable PW sC7 1)
                ((sC7.inodes 1).size / (PW.dpc * PW.deSize) * PW.dpc)
            else (sC7.inodes 1).size / (PW.dpc * PW.deSize) * PW.dpc)) :=
  claim_C7_get_dir_entry_by_name PW sC7 1 nameA (.notFound 3) sC7r
    (by decide) (by rfl)

/-! ### The directory mutators: soAddDirEntry and soRemoveDirEntry -/

/-- The name ".". -/
def dotStr : Nat → Nat := fun k => if k = 0 then 46 else 0

/-- The name "..". -/
def dotdotStr : Nat → Nat := fun k => if k < 2 then 46 else 0

/-- strncmp(a, b, n) == 0: the first n bytes agree, stopping early at a
    common NUL. -/
def strncmpEqB (a b : Nat → Nat) : Nat → Nat → Bool
  | _, 0 => true
  | k, n + 1 =>
    if a k ≠ b k then false
    else if a k = 0 then true
    else strncmpEqB a b (k + 1) n

/-! ### Pipeline component lemmas for the directory mutators -/

/-- A successful IUIN read returns the stored inode with the access time
    stamped and changes nothing else. -/
theorem soReadInode_iuin_facts (s : FState) (n : Nat) (ri : Inode × FState)
    (hok : soReadInode s n .iuin = .ok ri) :
    ri.1 = { s.inodes n with vD1 := s.now } ∧
    ri.2.clusters = s.clusters ∧
    (∀ j, j ≠ n → ri.2.inodes j = s.inodes j) ∧
    ri.2.inodes n = { s.inodes n with vD1 := s.now } ∧
    ri.2.now = s.now ∧ ri.2.itotal = s.itotal ∧ ri.2.uid = s.uid ∧
    ri.2.gid = s.gid := by
  unfold soReadInode at hok
  split at hok
  · exact absurd hok (by simp)
  dsimp only at hok
  split at hok
  · exact absurd hok (by simp)
  rw [Except.ok.injEq] at hok
  rw [← hok]
  refine ⟨rfl, rfl, ?_, ?_, rfl, rfl, rfl, rfl⟩
  · intro j hj
    show upd s.inodes n _ j = s.inodes j
    rw [upd_other _ _ _ hj]
  · show upd s.inodes n _ n = _
    rw [upd_same]

/-- A successful IUIN write stores the given record with both times
    stamped and changes nothing else. -/
theorem soWriteInode_iuin_facts (s : FState) (ino : Inode) (n : Nat) (s2 : FState)
    (hok : soWriteInode s ino n .iuin = .ok s2) :
    s2.clusters = s.clusters ∧
    (∀ j, j ≠ n → s2.inodes j = s.inodes j) ∧
    s2.inodes n = { ino with vD1 := s.now, vD2 := s.now } ∧
    s2.now = s.now ∧ s2.itotal = s.itotal ∧ s2.uid = s.uid ∧ s2.gid = s.gid := by
  unfold soWriteInode at hok
  split at hok
  · exact absurd hok (by simp)
  dsimp only at hok
  split at hok
  · exact absurd hok (by simp)
  split at hok
  · exact absurd hok (by simp)
  rw [Except.ok.injEq] at hok
  rw [← hok]
  refine ⟨rfl, ?_, ?_, rfl, rfl, rfl, rfl⟩
  · intro j hj
    show upd s.inodes n _ j = s.inodes j
    rw [upd_other _ _ _ hj]
  · show upd s.inodes n _ n = _
    rw [upd_same]

/-- A zero name never strcmp-equals a name whose first byte is set. -/
theorem strEq_zero (P : Params) (name : Nat → Nat) (h : name 0 ≠ 0) :
    strEq P (fun _ => 0) name = false := by
  unfold strEq
  rw [strEqAux]
  rw [if_pos (fun hc => h hc.symm)]

/-- A successful scan result is a candidate inside the range. -/
theorem scanMatch_found (P : Params) (name : Nat → Nat) (T : Nat → DirEntry) :
    ∀ n i, scanMatch P name T n = some i →
      i < n ∧ candMatchB P name (T i) = true := by
  intro n
  induction n with
  | zero => intro i h; rw [scanMatch] at h; exact absurd h (by simp)
  | succ m ih =>
    intro i h
    rw [scanMatch] at h
    cases hm : scanMatch P name T m with
    | some j =>
      rw [hm] at h
      dsimp only at h
      rw [Option.some.injEq] at h
      obtain ⟨h1, h2⟩ := ih j hm
      rw [← h]
      exact ⟨by omega, h2⟩
    | none =>
      rw [hm] at h
      dsimp only at h
      split at h
      · rw [Option.some.injEq] at h
        rw [← h]
        next hc => exact ⟨by omega, hc⟩
      · exact absurd h (by simp)

/-- Modelled from the spec: soQCheckDirCont (binary-only
    sofs_basicconsist.c; §3 consistency predicates: directory-content
    consistency means the size is a multiple of an entry cluster and
    entries 0/1 are "." and ".." with the expected inode numbers). -/
def soQCheckDirCont (P : Params) (s : FState) (nInodeDir : Nat)
    (ino : Inode) : Except Err Unit :=
  if ino.size % (P.dpc * P.deSize) ≠ 0 then .error .EDIRINVAL
  else if ¬(strEq P (dirTable P s nInodeDir 0).name dotStr = true ∧
            (dirTable P s nInodeDir 0).nInode = nInodeDir) then .error .EDIRINVAL
  else if ¬(strEq P (dirTable P s nInodeDir 1).name dotdotStr = true ∧
            (dirTable P s nInodeDir 1).nInode ≠ nullRef) then .error .EDIRINVAL
  else .ok ()

/-- The inner while of soCheckDirectoryEmptiness: every slot from `start`
    to DPC - 1 must have a zero first name byte. -/
def cdeSlotsB (P : Params) (de : Nat → DirEntry) (start : Nat) : Bool :=
  (List.range (P.dpc - start)).all (fun k => (de (start + k)).name 0 == 0)

/-- The cluster loop of soCheckDirectoryEmptiness
    (sofs_ifuncs_3_cdc.c): read each cluster; on cluster 0 require the
    first two names to strncmp-equal "." and ".." over the stored length
    and start the slot check at 2, elsewhere at 0. -/
def cdeLoop (P : Params) (nInodeDir : Nat) :
    Nat → Nat → FState → Except Err FState
  | _, 0, s => .ok s
  | currCluster, fuel + 1, s =>
    exBind (soReadFileCluster P s nInodeDir currCluster) fun rp =>
      let de := dentsOf rp.1
      if currCluster = 0 then
        if strncmpEqB dotStr (de 0).name 0 (cstrLen P (de 0).name) = false then
          .error .EDIRINVAL
        else if strncmpEqB dotdotStr (de 1).name 0 (cstrLen P (de 1).name) = false then
          .error .EDIRINVAL
        else if cdeSlotsB P de 2 = false then .error .ENOTEMPTY
        else cdeLoop P nInodeDir (currCluster + 1) fuel rp.2
      else if cdeSlotsB P de 0 = false then .error .ENOTEMPTY
      else cdeLoop P nInodeDir (currCluster + 1) fuel rp.2

/-- soCheckDirectoryEmptiness (sofs_ifuncs_3_cdc.c): validate, read the
    inode in use, require the directory bit, quick-check the directory
    content, then walk size / sizeof(dirCluster) clusters requiring every
    slot beyond "." and ".." to have a zero first name byte. -/
def soCheckDirectoryEmptiness (P : Params) (s : FState) (nInodeDir : Nat) :
    Except Err FState :=
  if nInodeDir ≥ s.itotal then .error .EINVAL
  else
    exBind (soReadInode s nInodeDir .iuin) fun ri =>
      if ri.1.mode &&& INODE_DIR ≠ INODE_DIR then .error .ENOTDIR
      else
        exBind (soQCheckDirCont P ri.2 nInodeDir ri.1) fun _ =>
          cdeLoop P nInodeDir 0 (ri.1.size / (P.dpc * P.deSize)) ri.2

/-- soRemoveDirEntry (sofs_ifuncs_3_rfc.c): validate the directory number,
    the name length and the absence of a slash; read the directory inode
    (the stale copy written back at the very end); require the directory
    bit, X and W (EACCES on W becomes EPERM) and directory-content
    consistency; locate the entry; read the entry inode and, for a
    directory, require emptiness; mark the located slot dirty — copy the
    first name byte into name[MAX_NAME], zero name[0], keep nInode — and
    store the cluster; re-read the entry inode and decrement its refcount
    by 2 for a directory, 1 otherwise; when it reaches 0 bulk-free the
    entry file clusters, free the inode and, for a directory, decrement
    the refcount of the STALE directory copy; finally write the stale
    directory copy back. -/
def soRemoveDirEntry (P : Params) (s : FState) (nInodeDir : Nat)
    (eName : Nat → Nat) : Except Err FState :=
  if nInodeDir ≥ s.itotal then .error .EINVAL
  else if cstrLen P eName > P.maxName then .error .ENAMETOOLONG
  else if (List.range (cstrLen P eName)).any (fun k => eName k == 47) then
    .error .ENOENT
  else
    exBind (soReadInode s nInodeDir .iuin) fun r1 =>
      if r1.1.mode &&& INODE_DIR ≠ INODE_DIR then .error .ENOTDIR
      else
        exBind (soAccessGranted r1.2 nInodeDir permX) fun sX =>
          match soAccessGranted sX nInodeDir permW with
          | .error .EACCES => .error .EPERM
          | .error e => .error e
          | .ok sW =>
            exBind (soQCheckDirCont P sW nInodeDir r1.1) fun _ =>
              exBind (soGetDirEntryByName P sW nInodeDir eName) fun rg =>
                match rg.1 with
                | .notFound _ => .error .ENOENT
                | .found nInodeEnt idx =>
                  exBind (soReadInode rg.2 nInodeEnt .iuin) fun r2 =>
                    exBind (if r2.1.mode &&& INODE_DIR = INODE_DIR then
                              soCheckDirectoryEmptiness P r2.2 nInodeEnt
                            else .ok r2.2) fun s3 =>
                      exBind (soReadFileCluster P s3 nInodeDir (idx / P.dpc)) fun rc =>
                        let de := dentsOf rc.1
                        let old := de (idx % P.dpc)
                        let newSlot : DirEntry :=
                          { old with name := fun k =>
                              if k = 0 then 0
                              else if k = P.maxName then old.name 0
                              else old.name k }
                        let deNew : Nat → DirEntry := fun j =>
                          if j = idx % P.dpc then newSlot else de j
                        exBind (soWriteFileCluster P rc.2 nInodeDir (idx / P.dpc)
                            (.dents deNew)) fun sw =>
                          exBind (soReadInode sw nInodeEnt .iuin) fun r3 =>
                            let inoE := { r3.1 with refcount :=
                              (if r3.1.mode &&& INODE_DIR = INODE_DIR then
                                u32sub r3.1.refcount 2
                              else u32sub r3.1.refcount 1) }
                            exBind (soWriteInode r3.2 inoE nInodeEnt .iuin) fun s4 =>
                              exBind (if inoE.refcount = 0 then
                                  exBind (soHandleFileClusters P s4 nInodeEnt 0 .free)
                                    fun s5 =>
                                      exBind (soFreeInode s5 nInodeEnt) fun s6 =>
                                        .ok (s6,
                                          if inoE.mode &&& INODE_DIR = INODE_DIR then
                                            u32sub r1.1.refcount 1
                                          else r1.1.refcount)
                                else .ok (s4, r1.1.refcount)) fun r7 =>
                                soWriteInode r7.1 { r1.1 with refcount := r7.2 }
                                  nInodeDir .iuin


/-! ### Frames for the directory mutators -/

/-- Two inode records agreeing on everything but the vD1/vD2 time union. -/
def SameCore (a b : Inode) : Prop :=
  a.mode = b.mode ∧ a.refcount = b.refcount ∧ a.owner = b.owner ∧
  a.group = b.group ∧ a.size = b.size ∧ a.clucount = b.clucount ∧
  a.d = b.d ∧ a.i1 = b.i1 ∧ a.i2 = b.i2

theorem sameCore_refl (a : Inode) : SameCore a a :=
  ⟨rfl, rfl, rfl, rfl, rfl, rfl, rfl, rfl, rfl⟩

theorem sameCore_trans {a b c : Inode} (h1 : SameCore a b) (h2 : SameCore b c) :
    SameCore a c :=
  ⟨h1.1.trans h2.1, h1.2.1.trans h2.2.1, h1.2.2.1.trans h2.2.2.1,
   h1.2.2.2.1.trans h2.2.2.2.1, h1.2.2.2.2.1.trans h2.2.2.2.2.1,
   h1.2.2.2.2.2.1.trans h2.2.2.2.2.2.1,
   h1.2.2.2.2.2.2.1.trans h2.2.2.2.2.2.2.1,
   h1.2.2.2.2.2.2.2.1.trans h2.2.2.2.2.2.2.2.1,
   h1.2.2.2.2.2.2.2.2.trans h2.2.2.2.2.2.2.2.2⟩

theorem sameCore_stamp2 (a : Inode) (x y : Nat) :
    SameCore { a with vD1 := x, vD2 := y } a :=
  ⟨rfl, rfl, rfl, rfl, rfl, rfl, rfl, rfl, rfl⟩

theorem sameCore_stamp1 (a : Inode) (x : Nat) :
    SameCore { a with vD1 := x } a :=
  ⟨rfl, rfl, rfl, rfl, rfl, rfl, rfl, rfl, rfl⟩

/-- The read-only frame of the scanning phases: the clusters are
    untouched and every inode changes at most its time stamps. -/
def MutFrame (s t : FState) : Prop :=
  t.clusters = s.clusters ∧ (∀ j, SameCore (t.inodes j) (s.inodes j)) ∧
  t.now = s.now ∧ t.itotal = s.itotal ∧ t.uid = s.uid ∧ t.gid = s.gid

theorem mutFrame_refl (s : FState) : MutFrame s s :=
  ⟨rfl, fun j => sameCore_refl _, rfl, rfl, rfl, rfl⟩

theorem mutFrame_trans {s t u : FState} (h1 : MutFrame s t) (h2 : MutFrame t u) :
    MutFrame s u :=
  ⟨h2.1.trans h1.1, fun j => sameCore_trans (h2.2.1 j) (h1.2.1 j),
   h2.2.2.1.trans h1.2.2.1, h2.2.2.2.1.trans h1.2.2.2.1,
   h2.2.2.2.2.1.trans h1.2.2.2.2.1, h2.2.2.2.2.2.trans h1.2.2.2.2.2⟩

theorem dirTable_mutFrame (P : Params) {s t : FState} (h : MutFrame s t)
    (dir : Nat) : ∀ i, dirTable P t dir i = dirTable P s dir i := by
  obtain ⟨hcl, hco, -, -, -, -⟩ := h
  obtain ⟨-, -, -, -, -, -, hd, hi1, hi2⟩ := hco dir
  exact dirTable_frame P s t dir hcl hd hi1 hi2

theorem fileClusterRef_mutFrame (P : Params) {s t : FState} (h : MutFrame s t)
    (n : Nat) : ∀ clt, fileClusterRef P t n clt = fileClusterRef P s n clt := by
  obtain ⟨hcl, hco, -, -, -, -⟩ := h
  obtain ⟨-, -, -, -, -, -, hd, hi1, hi2⟩ := hco n
  intro clt
  simp only [fileClusterRef, diSlotRef, hcl, hd, hi1, hi2]

theorem mutFrame_of_readInode {s : FState} {n : Nat} {ri : Inode × FState}
    (hok : soReadInode s n .iuin = .ok ri) : MutFrame s ri.2 := by
  obtain ⟨-, hcl, hj, hn, hnow, hit, huid, hgid⟩ := soReadInode_iuin_facts s n ri hok
  refine ⟨hcl, fun j => ?_, hnow, hit, huid, hgid⟩
  by_cases hjn : j = n
  · subst hjn
    rw [hn]
    exact sameCore_stamp1 _ _
  · rw [hj j hjn]
    exact sameCore_refl _

theorem mutFrame_of_accessGranted {s : FState} {n op : Nat} {s1 : FState}
    (hok : soAccessGranted s n op = .ok s1) : MutFrame s s1 := by
  obtain ⟨hcl, hj, hn, hnow, hit, huid, hgid⟩ := soAccessGranted_frame s n op s1 hok
  refine ⟨hcl, fun j => ?_, hnow, hit, huid, hgid⟩
  by_cases hjn : j = n
  · subst hjn
    rw [hn]
    exact sameCore_stamp1 _ _
  · rw [hj j hjn]
    exact sameCore_refl _

theorem mutFrame_of_readFileCluster (P : Params) {s : FState} {dir clt : Nat}
    {pl : Payload} {t : FState}
    (hok : soReadFileCluster P s dir clt = .ok (pl, t)) : MutFrame s t := by
  obtain ⟨hcl, hj, hn, hnow, hit, huid, hgid, -⟩ :=
    soReadFileCluster_get P s dir clt pl t hok
  refine ⟨hcl, fun j => ?_, hnow, hit, huid, hgid⟩
  by_cases hjn : j = dir
  · subst hjn
    rw [hn]
    exact sameCore_stamp2 _ _ _
  · rw [hj j hjn]
    exact sameCore_refl _

theorem gdebnClusterLoop_mutFrame (P : Params) (dir : Nat) (name : Nat → Nat) :
    ∀ (fuel clt absIdx frst : Nat) (s : FState)
      (r : Sum (Nat × Nat) (Nat × Nat) × FState),
      gdebnClusterLoop P dir name fuel clt absIdx frst s = .ok r →
      MutFrame s r.2 := by
  intro fuel
  induction fuel with
  | zero =>
    intro clt absIdx frst s r h
    rw [gdebnClusterLoop] at h
    rw [Except.ok.injEq] at h
    rw [← h]
    exact mutFrame_refl s
  | succ f ih =>
    intro clt absIdx frst s r h
    rw [gdebnClusterLoop] at h
    obtain ⟨rp, hrp, h2⟩ := exBind_eq_ok h
    have hm1 : MutFrame s rp.2 := mutFrame_of_readFileCluster P hrp
    split at h2
    · rw [Except.ok.injEq] at h2
      rw [← h2]
      exact hm1
    · exact mutFrame_trans hm1 (ih _ _ _ _ _ h2)

/-- The full specification of a successful soGetDirEntryByName: a
    read-only frame, the name-length bound, and the characterization of
    the result in terms of the flat directory-table scan. -/
theorem soGetDirEntryByName_spec (P : Params) (s : FState) (dir : Nat)
    (name : Nat → Nat) (res : GdebnRes) (s' : FState) (hdpc : 0 < P.dpc)
    (hok : soGetDirEntryByName P s dir name = .ok (res, s')) :
    MutFrame s s' ∧
    cstrLen P name ≤ P.maxName ∧
    (∀ nE i, res = .found nE i →
       scanMatch P name (dirTable P s dir)
           ((s.inodes dir).size / (P.dpc * P.deSize) * P.dpc) = some i ∧
       nE = (dirTable P s dir i).nInode) ∧
    (∀ i, res = .notFound i →
       scanMatch P name (dirTable P s dir)
           ((s.inodes dir).size / (P.dpc * P.deSize) * P.dpc) = none ∧
       i = (if sentinelUpTo (dirTable P s dir)
                ((s.inodes dir).size / (P.dpc * P.deSize) * P.dpc) ≠ 0
            then sentinelUpTo (dirTable P s dir)
                ((s.inodes dir).size / (P.dpc * P.deSize) * P.dpc)
            else (s.inodes dir).size / (P.dpc * P.deSize) * P.dpc)) := by
  unfold soGetDirEntryByName at hok
  split at hok
  · exact absurd hok (by simp)
  next hlen =>
  split at hok
  · exact absurd hok (by simp)
  obtain ⟨s1, hacc, h1⟩ := exBind_eq_ok hok
  obtain ⟨ri, hread, h2⟩ := exBind_eq_ok h1
  split at h2
  · exact absurd h2 (by simp)
  obtain ⟨r, hloop, h3⟩ := exBind_eq_ok h2
  have mf1 : MutFrame s s1 := mutFrame_of_accessGranted hacc
  have mf2 : MutFrame s ri.2 := mutFrame_trans mf1 (mutFrame_of_readInode hread)
  have mf3 : MutFrame s r.2 :=
    mutFrame_trans mf2 (gdebnClusterLoop_mutFrame P dir name _ _ _ _ _ r hloop)
  have hlen2 : cstrLen P name ≤ P.maxName := by omega
  have hsize : ri.1.size = (s.inodes dir).size := by
    obtain ⟨hcopy, -, -, -, -, -, -, -⟩ := soReadInode_iuin_facts s1 dir ri hread
    rw [hcopy]
    show (s1.inodes dir).size = _
    exact (mf1.2.1 dir).2.2.2.2.1
  have hT : ∀ i, dirTable P ri.2 dir i = dirTable P s dir i :=
    dirTable_mutFrame P mf2 dir
  have hspec := gdebnClusterLoop_spec P dir name (dirTable P s dir) hdpc
      (ri.1.size / (P.dpc * P.deSize)) 0 0 ri.2 r.2 r.1
      (by rw [Nat.zero_mul]; exact hloop) hT
      (by rw [Nat.zero_mul]; rfl) (by rw [Nat.zero_mul]; rfl)
  rw [Nat.zero_add, hsize] at hspec
  cases hm : scanMatch P name (dirTable P s dir)
      ((s.inodes dir).size / (P.dpc * P.deSize) * P.dpc) with
  | some i =>
    rw [hm] at hspec
    rw [hspec] at h3
    dsimp only at h3
    rw [Except.ok.injEq, Prod.mk.injEq] at h3
    refine ⟨h3.2 ▸ mf3, hlen2, ?_, ?_⟩
    · intro nE i' heq
      rw [← h3.1] at heq
      injection heq with hnE hi
      rw [← hnE, ← hi]
      exact ⟨rfl, rfl⟩
    · intro i' heq
      rw [← h3.1] at heq
      exact absurd heq (by simp)
  | none =>
    rw [hm] at hspec
    rw [hspec] at h3
    dsimp only at h3
    rw [Except.ok.injEq, Prod.mk.injEq] at h3
    refine ⟨h3.2 ▸ mf3, hlen2, ?_, ?_⟩
    · intro nE i' heq
      rw [← h3.1] at heq
      exact absurd heq (by simp)
    · intro i' heq
      rw [← h3.1] at heq
      injection heq with hi
      exact ⟨rfl, hi.symm⟩


/-- A soWriteFileCluster whose logical index already resolves to an
    allocated cluster stores the payload into exactly that cluster and
    only stamps the inode's times. -/
theorem soWriteFileCluster_get (P : Params) (s : FState) (n clustInd : Nat)
    (pl : Payload) (s' : FState)
    (href : fileClusterRef P s n clustInd ≠ nullRef)
    (hok : soWriteFileCluster P s n clustInd pl = .ok s') :
    s'.clusters = upd s.clusters (fileClusterRef P s n clustInd)
      { s.clusters (fileClusterRef P s n clustInd) with info := pl } ∧
    (∀ j, j ≠ n → s'.inodes j = s.inodes j) ∧
    s'.inodes n = { s.inodes n with vD1 := s.now, vD2 := s.now } ∧
    s'.now = s.now ∧ s'.itotal = s.itotal ∧ s'.uid = s.uid ∧ s'.gid = s.gid := by
  unfold soWriteFileCluster at hok
  split at hok
  · exact absurd hok (by simp)
  obtain ⟨ri, hread, h1⟩ := exBind_eq_ok hok
  split at h1
  · exact absurd h1 (by simp)
  obtain ⟨r, hget, h2⟩ := exBind_eq_ok h1
  obtain ⟨hout, hcl, hj, hn, hnow, hit, huid, hgid⟩ :=
    soHandleFileCluster_get P ri.2 n clustInd r.1 r.2 hget
  obtain ⟨hcopy, rcl, rj, rn, rnow, rit, ruid, rgid⟩ :=
    soReadInode_iuin_facts s n ri hread
  have hres : fileClusterRef P ri.2 n clustInd = fileClusterRef P s n clustInd := by
    simp only [fileClusterRef, diSlotRef, rcl, rn]
  rw [hout, hres] at h2
  dsimp only at h2
  rw [if_neg href, exBind_ok] at h2
  dsimp only at h2
  rw [Except.ok.injEq] at h2
  rw [← h2]
  refine ⟨?_, ?_, ?_, hnow.trans rnow, hit.trans rit, huid.trans ruid,
    hgid.trans rgid⟩
  · show upd r.2.clusters _ _ = _
    rw [hcl, rcl]
  · intro j hjn
    show r.2.inodes j = s.inodes j
    rw [hj j hjn, rj j hjn]
  · show r.2.inodes n = _
    rw [hn, rn, rnow]


/-! ### The FREE-path frame: refcounts and payloads survive bulk freeing -/

/-- What the cluster-freeing machinery never touches: every inode's
    refcount and every cluster's payload (the free/deplete writes only
    alter cluster headers and inode time stamps). -/
def FreeFrame (s t : FState) : Prop :=
  (∀ j, (t.inodes j).refcount = (s.inodes j).refcount) ∧
  (∀ c, (t.clusters c).info = (s.clusters c).info) ∧
  t.now = s.now ∧ t.itotal = s.itotal ∧ t.uid = s.uid ∧ t.gid = s.gid

theorem freeFrame_refl (s : FState) : FreeFrame s s :=
  ⟨fun _ => rfl, fun _ => rfl, rfl, rfl, rfl, rfl⟩

theorem freeFrame_trans {s t u : FState} (h1 : FreeFrame s t)
    (h2 : FreeFrame t u) : FreeFrame s u :=
  ⟨fun j => (h2.1 j).trans (h1.1 j), fun c => (h2.2.1 c).trans (h1.2.1 c),
   h2.2.2.1.trans h1.2.2.1, h2.2.2.2.1.trans h1.2.2.2.1,
   h2.2.2.2.2.1.trans h1.2.2.2.2.1, h2.2.2.2.2.2.trans h1.2.2.2.2.2⟩

theorem depleteLoop_freeFrame : ∀ (fuel : Nat) (s : FState) (index : Nat),
    FreeFrame s (depleteLoop s index fuel) := by
  intro fuel
  induction fuel with
  | zero => intro s index; rw [depleteLoop]; exact freeFrame_refl s
  | succ f ih =>
    intro s index
    rw [depleteLoop]
    split
    · refine freeFrame_trans ?_ (ih _ _)
      refine ⟨fun j => rfl, fun c => ?_, rfl, rfl, rfl, rfl⟩
      show (upd (upd s.clusters _ _) _ _ c).info = _
      by_cases hc : c = s.insertCache index
      · rw [hc, upd_same]
      · rw [upd_other _ _ _ hc]
        by_cases hc2 : c = s.dtail
        · rw [hc2, upd_same]
        · rw [upd_other _ _ _ hc2]
    · exact freeFrame_refl s

theorem soDeplete_freeFrame (s : FState) : FreeFrame s (soDeplete s) := by
  unfold soDeplete
  split
  · exact freeFrame_refl s
  by_cases hd : s.dhead = nullRef
  · rw [if_pos hd]
    dsimp only
    exact freeFrame_trans
      (freeFrame_trans
        (show FreeFrame s { s with dhead := s.insertCache 0, dtail := s.insertCache 0 } from
          ⟨fun j => rfl, fun c => rfl, rfl, rfl, rfl, rfl⟩)
        (depleteLoop_freeFrame _ _ _))
      ⟨fun j => rfl, fun c => rfl, rfl, rfl, rfl, rfl⟩
  · rw [if_neg hd]
    dsimp only
    exact freeFrame_trans (depleteLoop_freeFrame _ _ _)
      ⟨fun j => rfl, fun c => rfl, rfl, rfl, rfl, rfl⟩

theorem soFreeDataCluster_freeFrame (P : Params) (s : FState) (nClust : Nat)
    (t : FState) (hok : soFreeDataCluster P s nClust = .ok t) :
    FreeFrame s t := by
  unfold soFreeDataCluster at hok
  split at hok
  · exact absurd hok (by simp)
  split at hok
  · exact absurd hok (by simp)
  rw [Except.ok.injEq] at hok
  have h1 : FreeFrame s (if s.insertIdx = P.cacheSize then soDeplete s else s) := by
    split
    · exact soDeplete_freeFrame s
    · exact freeFrame_refl s
  refine freeFrame_trans h1 ?_
  rw [← hok]
  refine ⟨fun j => rfl, fun c => ?_, rfl, rfl, rfl, rfl⟩
  dsimp only [setCluster]
  by_cases hc : c = nClust
  · rw [hc]
    rw [upd_same]
  · rw [upd_other _ _ _ hc]

theorem soHandleDirect_free (P : Params) (s : FState) (n : Nat) (ino : Inode)
    (ci : Nat) (r : Inode × Option Nat × FState)
    (hok : soHandleDirect P s n ino ci .free = .ok r) :
    r.1 = ino ∧ FreeFrame s r.2.2 := by
  unfold soHandleDirect at hok
  dsimp only at hok
  split at hok
  · exact absurd hok (by simp)
  obtain ⟨s1, hf, h2⟩ := exBind_eq_ok hok
  rw [if_pos rfl] at h2
  rw [Except.ok.injEq] at h2
  rw [← h2]
  rw [if_pos (show HOp.free ≠ HOp.clean by decide)] at hf
  exact ⟨rfl, soFreeDataCluster_freeFrame P s _ s1 hf⟩

theorem soHandleSIndirect_free (P : Params) (s : FState) (n : Nat) (ino : Inode)
    (ci : Nat) (r : Inode × Option Nat × FState)
    (hok : soHandleSIndirect P s n ino ci .free = .ok r) :
    r.1 = ino ∧ FreeFrame s r.2.2 := by
  unfold soHandleSIndirect at hok
  dsimp only at hok
  split at hok
  · exact absurd hok (by simp)
  split at hok
  · exact absurd hok (by simp)
  obtain ⟨s1, hf, h2⟩ := exBind_eq_ok hok
  rw [if_pos rfl] at h2
  rw [Except.ok.injEq] at h2
  rw [← h2]
  rw [if_pos (show HOp.free ≠ HOp.clean by decide)] at hf
  exact ⟨rfl, soFreeDataCluster_freeFrame P s _ s1 hf⟩

theorem soHandleDIndirect_free (P : Params) (s : FState) (n : Nat) (ino : Inode)
    (ci : Nat) (r : Inode × Option Nat × FState)
    (hok : soHandleDIndirect P s n ino ci .free = .ok r) :
    r.1 = ino ∧ FreeFrame s r.2.2 := by
  unfold soHandleDIndirect at hok
  dsimp only at hok
  split at hok
  · exact absurd hok (by simp)
  split at hok
  · exact absurd hok (by simp)
  split at hok
  · exact absurd hok (by simp)
  obtain ⟨s1, hf, h2⟩ := exBind_eq_ok hok
  rw [if_pos rfl] at h2
  rw [Except.ok.injEq] at h2
  rw [← h2]
  rw [if_pos (show HOp.free ≠ HOp.clean by decide)] at hf
  exact ⟨rfl, soFreeDataCluster_freeFrame P s _ s1 hf⟩

theorem soHandleFileCluster_free (P : Params) (s : FState) (n ci : Nat)
    (out : Option Nat) (t : FState)
    (hok : soHandleFileCluster P s n ci .free = .ok (out, t)) :
    FreeFrame s t := by
  unfold soHandleFileCluster at hok
  split at hok
  · exact absurd hok (by simp)
  obtain ⟨ri, hri, h1⟩ := exBind_eq_ok hok
  obtain ⟨hcopy, rcl, rj, rn, rnow, rit, ruid, rgid⟩ :=
    soReadInode_iuin_facts s n ri hri
  obtain ⟨r, hr, h2⟩ := exBind_eq_ok h1
  obtain ⟨s2, hw, h3⟩ := exBind_eq_ok h2
  have hfr1 : FreeFrame s ri.2 := by
    refine ⟨fun j => ?_, fun c => by rw [rcl], rnow, rit, ruid, rgid⟩
    by_cases hj : j = n
    · rw [hj, rn]
    · rw [rj j hj]
  have hdisp : r.1 = ri.1 ∧ FreeFrame ri.2 r.2.2 := by
    split at hr
    · exact soHandleDirect_free P ri.2 n ri.1 ci _ hr
    split at hr
    · exact soHandleSIndirect_free P ri.2 n ri.1 ci _ hr
    · exact soHandleDIndirect_free P ri.2 n ri.1 ci _ hr
  have hfr2 : FreeFrame s r.2.2 := freeFrame_trans hfr1 hdisp.2
  obtain ⟨wcl, wj, wn, wnow, wit, wuid, wgid⟩ :=
    soWriteInode_iuin_facts r.2.2 r.1 n s2 hw
  rw [Except.ok.injEq, Prod.mk.injEq] at h3
  rw [← h3.2]
  have hfr3 : FreeFrame r.2.2 s2 := by
    refine ⟨fun j => ?_, fun c => by rw [wcl], wnow, wit, wuid, wgid⟩
    by_cases hj : j = n
    · rw [hj, wn]
      show (r.1).refcount = _
      rw [hdisp.1, hcopy]
      show (s.inodes n).refcount = _
      rw [(hfr2.1 n)]
    · rw [wj j hj]
  exact freeFrame_trans hfr2 hfr3

theorem hfcsLoop_freeFrame (P : Params) (n : Nat) (bound : Nat)
    (guard : FState → Nat → Bool) :
    ∀ (fuel clustIdx : Nat) (s : FState) (r : FState × List Nat),
      hfcsLoop P n .free bound guard clustIdx s fuel = .ok r →
      FreeFrame s r.1 := by
  intro fuel
  induction fuel with
  | zero =>
    intro clustIdx s r h
    rw [hfcsLoop] at h
    rw [Except.ok.injEq] at h
    rw [← h]
    exact freeFrame_refl s
  | succ f ih =>
    intro clustIdx s r h
    rw [hfcsLoop] at h
    split at h
    · split at h
      · obtain ⟨r1, hr1, h2⟩ := exBind_eq_ok h
        obtain ⟨r2, hr2, h3⟩ := exBind_eq_ok h2
        rw [Except.ok.injEq] at h3
        rw [← h3]
        have hstep : FreeFrame s r1.2 :=
          soHandleFileCluster_free P s n clustIdx r1.1 r1.2 hr1
        have hrec := ih _ _ _ hr2
        exact freeFrame_trans hstep hrec
      · exact ih _ _ _ h
    · rw [Except.ok.injEq] at h
      rw [← h]
      exact freeFrame_refl s

theorem soHandleFileClusters_freeFrame (P : Params) (s : FState)
    (n start : Nat) (t : FState)
    (hok : soHandleFileClusters P s n start .free = .ok t) :
    FreeFrame s t := by
  unfold soHandleFileClusters soHandleFileClustersT at hok
  obtain ⟨rT, hrT, hfin⟩ := exBind_eq_ok hok
  rw [Except.ok.injEq] at hfin
  split at hrT
  · exact absurd hrT (by simp)
  rw [if_neg (show ¬(HOp.free = HOp.get ∨ HOp.free = HOp.alloc) by decide)] at hrT
  rw [if_neg (show ¬(HOp.free = HOp.clean) by decide)] at hrT
  obtain ⟨ri, hri, h1⟩ := exBind_eq_ok hrT
  obtain ⟨hcopy, rcl, rj, rn, rnow, rit, ruid, rgid⟩ :=
    soReadInode_iuin_facts s n ri hri
  have hfr1 : FreeFrame s ri.2 := by
    refine ⟨fun j => ?_, fun c => by rw [rcl], rnow, rit, ruid, rgid⟩
    by_cases hj : j = n
    · rw [hj, rn]
    · rw [rj j hj]
  obtain ⟨rdi, hdi, h2⟩ := exBind_eq_ok h1
  have hfr2 : FreeFrame ri.2 rdi.1 := by
    split at hdi
    · exact hfcsLoop_freeFrame P n _ _ _ _ _ _ hdi
    · rw [Except.ok.injEq] at hdi
      rw [← hdi]
      exact freeFrame_refl _
  obtain ⟨rsi, hsi, h3⟩ := exBind_eq_ok h2
  have hfr3 : FreeFrame rdi.1 rsi.1 := by
    split at hsi
    · exact hfcsLoop_freeFrame P n _ _ _ _ _ _ hsi
    · rw [Except.ok.injEq] at hsi
      rw [← hsi]
      exact freeFrame_refl _
  obtain ⟨rd, hd, h4⟩ := exBind_eq_ok h3
  have hfr4 : FreeFrame rsi.1 rd.1 := hfcsLoop_freeFrame P n _ _ _ _ _ _ hd
  rw [Except.ok.injEq] at h4
  rw [← hfin, ← h4]
  exact freeFrame_trans hfr1 (freeFrame_trans hfr2 (freeFrame_trans hfr3 hfr4))

theorem freeFrame_setInode_keep (s : FState) (i : Nat) (v : Inode)
    (hv : v.refcount = (s.inodes i).refcount) : FreeFrame s (setInode s i v) := by
  refine ⟨fun j => ?_, fun c => rfl, rfl, rfl, rfl, rfl⟩
  dsimp only [setInode]
  by_cases hj : j = i
  · rw [hj, upd_same, hv]
  · rw [upd_other _ _ _ hj]

theorem upd_refcount (f : Nat → Inode) (i : Nat) (v : Inode)
    (hv : v.refcount = (f i).refcount) (j : Nat) :
    (upd f i v j).refcount = (f j).refcount := by
  by_cases hj : j = i
  · rw [hj, upd_same, hv]
  · rw [upd_other _ _ _ hj]

theorem soFreeInode_freeFrame (s : FState) (n : Nat) (t : FState)
    (hok : soFreeInode s n = .ok t) : FreeFrame s t := by
  unfold soFreeInode at hok
  split at hok
  · exact absurd hok (by simp)
  split at hok
  · exact absurd hok (by simp)
  split at hok
  · exact absurd hok (by simp)
  split at hok
  · exact absurd hok (by simp)
  obtain ⟨s3, hs3, h2⟩ := exBind_eq_ok hok
  rw [Except.ok.injEq] at h2
  have htail : FreeFrame s s3 := by
    by_cases ht : s.itail = nullRef
    · simp only [ht, setInode, ne_eq, not_true, ite_true, ite_false, if_true,
        if_false] at hs3
      rw [Except.ok.injEq] at hs3
      rw [← hs3]
      refine ⟨fun j => ?_, fun c => rfl, rfl, rfl, rfl, rfl⟩
      refine upd_refcount _ _ _ ?_ j
      rfl
    · simp only [if_neg ht, setInode] at hs3
      rw [if_pos (show s.itail ≠ nullRef from ht)] at hs3
      split at hs3
      · exact absurd hs3 (by simp)
      · rw [Except.ok.injEq] at hs3
        rw [← hs3]
        refine ⟨fun j => ?_, fun c => rfl, rfl, rfl, rfl, rfl⟩
        refine (upd_refcount _ _ _ ?_ j).trans (upd_refcount _ _ _ ?_ j) <;> rfl
  rw [← h2]
  exact freeFrame_trans htail ⟨fun j => rfl, fun c => rfl, rfl, rfl, rfl, rfl⟩

/-! ### The effect of a successful soRemoveDirEntry -/

theorem cdeLoop_mutFrame (P : Params) (n : Nat) :
    ∀ (fuel cc : Nat) (s t : FState),
      cdeLoop P n cc fuel s = .ok t → MutFrame s t := by
  intro fuel
  induction fuel with
  | zero =>
    intro cc s t h
    rw [cdeLoop] at h
    rw [Except.ok.injEq] at h
    rw [← h]
    exact mutFrame_refl s
  | succ f ih =>
    intro cc s t h
    rw [cdeLoop] at h
    obtain ⟨rp, hrp, h2⟩ := exBind_eq_ok h
    have m1 : MutFrame s rp.2 := mutFrame_of_readFileCluster P hrp
    dsimp only at h2
    split at h2
    · split at h2
      · exact absurd h2 (by simp)
      split at h2
      · exact absurd h2 (by simp)
      split at h2
      · exact absurd h2 (by simp)
      · exact mutFrame_trans m1 (ih _ _ _ h2)
    · split at h2
      · exact absurd h2 (by simp)
      · exact mutFrame_trans m1 (ih _ _ _ h2)

theorem soCheckDirectoryEmptiness_mutFrame (P : Params) (s : FState) (n : Nat)
    (t : FState) (hok : soCheckDirectoryEmptiness P s n = .ok t) :
    MutFrame s t := by
  unfold soCheckDirectoryEmptiness at hok
  split at hok
  · exact absurd hok (by simp)
  obtain ⟨ri, hri, h1⟩ := exBind_eq_ok hok
  split at h1
  · exact absurd h1 (by simp)
  obtain ⟨u, hqc, h2⟩ := exBind_eq_ok h1
  exact mutFrame_trans (mutFrame_of_readInode hri) (cdeLoop_mutFrame P n _ _ _ _ h2)

/-- The deletion alternative at the end of soRemoveDirEntry: whichever way
    the refcount-zero test goes, cluster payloads and every refcount survive
    (the FREE path only touches cluster headers and free-list linkage), and
    the returned directory count is one of the two candidate values. -/
theorem remDelIte_facts (P : Params) (s4 : FState) (nE : Nat) (c : Prop)
    [Decidable c] (x y : Nat) (r7 : FState × Nat)
    (h : (if c then
            exBind (soHandleFileClusters P s4 nE 0 .free) (fun s5 =>
              exBind (soFreeInode s5 nE) (fun s6 => Except.ok (s6, x)))
          else Except.ok (s4, y)) = Except.ok r7) :
    (∀ cl, ((r7.1).clusters cl).info = (s4.clusters cl).info) ∧
    (∀ j, ((r7.1).inodes j).refcount = (s4.inodes j).refcount) ∧
    (r7.2 = x ∨ r7.2 = y) := by
  split at h
  · cases hv1 : soHandleFileClusters P s4 nE 0 .free with
    | error e2 =>
      rw [hv1, exBind_error] at h
      exact Except.noConfusion h
    | ok s5 =>
      rw [hv1, exBind_ok] at h
      cases hv2 : soFreeInode s5 nE with
      | error e2 =>
        rw [hv2, exBind_error] at h
        exact Except.noConfusion h
      | ok s6 =>
        rw [hv2, exBind_ok, Except.ok.injEq] at h
        have hff : FreeFrame s4 s6 :=
          freeFrame_trans (soHandleFileClusters_freeFrame P s4 nE 0 s5 hv1)
            (soFreeInode_freeFrame s5 nE s6 hv2)
        rw [← h]
        exact ⟨fun cl => hff.2.1 cl, fun j => hff.1 j, Or.inl rfl⟩
  · rw [Except.ok.injEq] at h
    rw [← h]
    exact ⟨fun cl => rfl, fun j => rfl, Or.inr rfl⟩

set_option maxRecDepth 4096 in
/-- What a successful soRemoveDirEntry does to the located slot and to the
    two refcounts: in the on-disk cluster holding the located slot the slot
    keeps its nInode, byte MAX_NAME of the name receives the old first
    byte, byte 0 becomes 0 and all other bytes are kept; when the removed
    entry is a distinct non-directory inode, the directory refcount is
    restored from the stale copy and the entry refcount drops by exactly
    one.  No placement restriction: the located slot may live in any zone
    of the directory. -/
theorem soRemoveDirEntry_effect (P : Params) (s : FState) (d : Nat)
    (name : Nat → Nat) (s2 : FState) (idx : Nat)
    (hdpc : 0 < P.dpc) (hmx : 0 < P.maxName) (hname : name 0 ≠ 0)
    (hfound : scanMatch P name (dirTable P s d)
        ((s.inodes d).size / (P.dpc * P.deSize) * P.dpc) = some idx)
    (hok : soRemoveDirEntry P s d name = .ok s2) :
    (dentsOf ((s2.clusters (fileClusterRef P s d (idx / P.dpc))).info)
        (idx % P.dpc)).nInode = (dirTable P s d idx).nInode ∧
    (dentsOf ((s2.clusters (fileClusterRef P s d (idx / P.dpc))).info)
        (idx % P.dpc)).name 0 = 0 ∧
    (dentsOf ((s2.clusters (fileClusterRef P s d (idx / P.dpc))).info)
        (idx % P.dpc)).name P.maxName = (dirTable P s d idx).name 0 ∧
    (∀ k, k ≠ 0 → k ≠ P.maxName →
      (dentsOf ((s2.clusters (fileClusterRef P s d (idx / P.dpc))).info)
        (idx % P.dpc)).name k = (dirTable P s d idx).name k) ∧
    ((dirTable P s d idx).nInode ≠ d →
     (s.inodes ((dirTable P s d idx).nInode)).mode &&& INODE_DIR ≠ INODE_DIR →
       (s2.inodes d).refcount = (s.inodes d).refcount ∧
       (s2.inodes ((dirTable P s d idx).nInode)).refcount =
         u32sub (s.inodes ((dirTable P s d idx).nInode)).refcount 1) := by
  unfold soRemoveDirEntry at hok
  split at hok
  · exact absurd hok (by simp)
  split at hok
  · exact absurd hok (by simp)
  split at hok
  · exact absurd hok (by simp)
  obtain ⟨r1, hr1, hA⟩ := exBind_eq_ok hok
  clear hok
  obtain ⟨r1copy, r1cl, r1j, r1n, r1now, r1it, r1uid, r1gid⟩ :=
    soReadInode_iuin_facts s d r1 hr1
  clear r1cl r1j r1n r1now r1it r1uid r1gid
  split at hA
  · exact absurd hA (by simp)
  obtain ⟨sX, hX, hB⟩ := exBind_eq_ok hA
  clear hA
  cases hWm : soAccessGranted sX d permW with
  | error e =>
    rw [hWm] at hB
    cases e <;> exact absurd hB (by simp)
  | ok sW =>
  rw [hWm] at hB
  dsimp only at hB
  obtain ⟨u, hqc, hC⟩ := exBind_eq_ok hB
  clear hB hqc
  obtain ⟨rg, hg, hD⟩ := exBind_eq_ok hC
  clear hC
  have mf1 : MutFrame s r1.2 := mutFrame_of_readInode hr1
  have mfX : MutFrame s sX := mutFrame_trans mf1 (mutFrame_of_accessGranted hX)
  have mfW : MutFrame s sW := mutFrame_trans mfX (mutFrame_of_accessGranted hWm)
  clear hr1 hX hWm mf1 mfX
  obtain ⟨mfg0, hfit, hfnd, hnf⟩ :=
    soGetDirEntryByName_spec P sW d name rg.1 rg.2 hdpc hg
  clear hg
  have mfg : MutFrame s rg.2 := mutFrame_trans mfW mfg0
  clear mfg0
  have hTeq : dirTable P sW d = dirTable P s d :=
    funext (dirTable_mutFrame P mfW d)
  have hszW : (sW.inodes d).size = (s.inodes d).size := (mfW.2.1 d).2.2.2.2.1
  cases hrg : rg.1 with
  | notFound i =>
    rw [hrg] at hD
    exact absurd hD (by simp)
  | found nE idxF =>
  rw [hrg] at hD
  dsimp only at hD
  obtain ⟨hscanW, hnE⟩ := hfnd nE idxF hrg
  rw [hTeq, hszW] at hscanW
  have hidx : idxF = idx := by
    have h2 := hfound.symm.trans hscanW
    injection h2 with h2
    exact h2.symm
  subst hidx
  rw [hTeq] at hnE
  have hcand := (scanMatch_found P name (dirTable P s d) _ idxF hfound).2
  have hlc : fileClusterRef P s d (idxF / P.dpc) ≠ nullRef := by
    intro hnull
    have hz : dirTable P s d idxF = zeroDent := by
      simp only [dirTable]
      rw [if_pos hnull]
    rw [hz] at hcand
    simp only [candMatchB, zeroDent] at hcand
    rw [strEq_zero P name hname] at hcand
    simp at hcand
  obtain ⟨r2, hr2, hE⟩ := exBind_eq_ok hD
  clear hD
  have mfr2 : MutFrame s r2.2 := mutFrame_trans mfg (mutFrame_of_readInode hr2)
  clear hr2 mfg
  obtain ⟨s3, hs3, hF⟩ := exBind_eq_ok hE
  clear hE
  have mfs3 : MutFrame s s3 := by
    refine mutFrame_trans mfr2 ?_
    split at hs3
    · exact soCheckDirectoryEmptiness_mutFrame P r2.2 nE s3 hs3
    · rw [Except.ok.injEq] at hs3
      rw [← hs3]
      exact mutFrame_refl _
  clear hs3 mfr2
  obtain ⟨rc, hrc, hG⟩ := exBind_eq_ok hF
  clear hF
  obtain ⟨ccl, cj, cn, cnow, cit, cuid, cgid, hpl⟩ :=
    soReadFileCluster_get P s3 d (idxF / P.dpc) rc.1 rc.2 hrc
  have mfrc : MutFrame s rc.2 :=
    mutFrame_trans mfs3 (mutFrame_of_readFileCluster P hrc)
  clear hrc
  have hrefs3 : fileClusterRef P s3 d (idxF / P.dpc) =
      fileClusterRef P s d (idxF / P.dpc) := fileClusterRef_mutFrame P mfs3 d _
  have hrefrc : fileClusterRef P rc.2 d (idxF / P.dpc) =
      fileClusterRef P s d (idxF / P.dpc) := fileClusterRef_mutFrame P mfrc d _
  have hde : ∀ off, dentsOf rc.1 off =
      dentsOf ((s.clusters (fileClusterRef P s d (idxF / P.dpc))).info) off := by
    intro off
    rw [hpl off, hrefs3, if_neg hlc, mfs3.1]
  have hslot : dentsOf rc.1 (idxF % P.dpc) = dirTable P s d idxF := by
    rw [hde (idxF % P.dpc)]
    simp only [dirTable]
    rw [if_neg hlc]
  clear hpl hde hrefs3 mfs3 ccl cj cn cnow cit cuid cgid
  obtain ⟨sw, hsw, hH⟩ := exBind_eq_ok hG
  clear hG
  obtain ⟨wcl, wj, wn, wnow, wit, wuid, wgid⟩ :=
    soWriteFileCluster_get P rc.2 d (idxF / P.dpc) _ sw
      (by rw [hrefrc]; exact hlc) hsw
  clear hsw
  rw [mfrc.1, hrefrc] at wcl
  have swco : ∀ j, SameCore (sw.inodes j) (s.inodes j) := by
    intro j
    by_cases hj : j = d
    · rw [hj, wn]
      exact sameCore_trans (sameCore_stamp2 _ _ _) (mfrc.2.1 d)
    · rw [wj j hj]
      exact mfrc.2.1 j
  obtain ⟨r3, hr3, hI⟩ := exBind_eq_ok hH
  clear hH
  obtain ⟨e3copy, e3cl, e3j, e3n, e3now, e3it, e3uid, e3gid⟩ :=
    soReadInode_iuin_facts sw nE r3 hr3
  clear hr3
  have hr3core : SameCore r3.1 (s.inodes nE) := by
    rw [e3copy]
    exact sameCore_trans (sameCore_stamp1 _ _) (swco nE)
  obtain ⟨s4, hs4, hJ⟩ := exBind_eq_ok hI
  clear hI
  obtain ⟨w4cl, w4j, w4n, w4now, w4it, w4uid, w4gid⟩ :=
    soWriteInode_iuin_facts r3.2 _ nE s4 hs4
  clear hs4
  obtain ⟨r7, h7, hK⟩ := exBind_eq_ok hJ
  clear hJ
  obtain ⟨fcl, fj, fn, fnow, fit, fuid, fgid⟩ :=
    soWriteInode_iuin_facts r7.1 _ d s2 hK
  clear hK
  have h7all := remDelIte_facts P s4 nE _ _ _ r7 h7
  clear h7
  have h7facts : (∀ c, ((r7.1).clusters c).info = (s4.clusters c).info) ∧
      (∀ j, ((r7.1).inodes j).refcount = (s4.inodes j).refcount) :=
    ⟨h7all.1, h7all.2.1⟩
  -- the payload of the located cluster in the final state
  have hinfo2 : (s2.clusters (fileClusterRef P s d (idxF / P.dpc))).info =
      ({ s.clusters (fileClusterRef P s d (idxF / P.dpc)) with
         info := .dents (fun j => if j = idxF % P.dpc then
           { dentsOf rc.1 (idxF % P.dpc) with name := fun k =>
               if k = 0 then 0
               else if k = P.maxName then (dentsOf rc.1 (idxF % P.dpc)).name 0
               else (dentsOf rc.1 (idxF % P.dpc)).name k }
           else dentsOf rc.1 j) }).info := by
    rw [fcl, h7facts.1, w4cl, e3cl, wcl, upd_same]
  -- the slot of the stored cluster in the final state
  have htab2 : dentsOf ((s2.clusters (fileClusterRef P s d (idxF / P.dpc))).info)
        (idxF % P.dpc) =
      { dirTable P s d idxF with name := fun k =>
          if k = 0 then 0
          else if k = P.maxName then (dirTable P s d idxF).name 0
          else (dirTable P s d idxF).name k } := by
    rw [hinfo2]
    show (if idxF % P.dpc = idxF % P.dpc then
            { dentsOf rc.1 (idxF % P.dpc) with name := fun k =>
                if k = 0 then 0
                else if k = P.maxName then (dentsOf rc.1 (idxF % P.dpc)).name 0
                else (dentsOf rc.1 (idxF % P.dpc)).name k }
          else dentsOf rc.1 (idxF % P.dpc)) = _
    rw [if_pos rfl, hslot]
  refine ⟨by rw [htab2], by rw [htab2]; simp, ?_, ?_, ?_⟩
  · rw [htab2]
    show (if P.maxName = 0 then 0
          else if P.maxName = P.maxName then (dirTable P s d idxF).name 0
          else (dirTable P s d idxF).name P.maxName) = _
    rw [if_neg (by omega), if_pos rfl]
  · intro k hk0 hkm
    rw [htab2]
    show (if k = 0 then 0
          else if k = P.maxName then (dirTable P s d idxF).name 0
          else (dirTable P s d idxF).name k) = _
    rw [if_neg hk0, if_neg hkm]
  · intro hnEd hEnondir
    rw [← hnE] at hnEd hEnondir ⊢
    have hmodeE : r3.1.mode &&& INODE_DIR ≠ INODE_DIR := by
      rw [hr3core.1]
      exact hEnondir
    have h4rcE : (s4.inodes nE).refcount = u32sub (s.inodes nE).refcount 1 := by
      rw [w4n]
      show (if r3.1.mode &&& INODE_DIR = INODE_DIR then u32sub r3.1.refcount 2
            else u32sub r3.1.refcount 1) = _
      rw [if_neg hmodeE, hr3core.2.1]
    have h4rcD : (s4.inodes d).refcount = (s.inodes d).refcount := by
      rw [w4j d (fun h => hnEd h.symm), e3j d (fun h => hnEd h.symm)]
      exact (swco d).2.1
    have h72 : r7.2 = r1.1.refcount := by
      rcases h7all.2.2 with hx | hy
      · rw [hx]
        show (if r3.1.mode &&& INODE_DIR = INODE_DIR then u32sub r1.1.refcount 1
              else r1.1.refcount) = _
        rw [if_neg hmodeE]
      · exact hy
    constructor
    · rw [fn]
      show r7.2 = _
      rw [h72, r1copy]
    · rw [fj nE hnEd, h7facts.2, h4rcE]


/-! ### C10: the slot soRemoveDirEntry leaves behind -/

/-- C10: a successful soRemoveDirEntry leaves the located slot's nInode
    unchanged (still naming the removed entry's inode, not NULL_INODE) and
    changes exactly two name bytes: name[MAX_NAME] receives the former
    first byte and name[0] becomes 0, while bytes 1..MAX_NAME-1 are
    preserved.  Stated on the stored cluster for the slot the scan locates
    (the first strcmp match with a non-null inode), for a nonempty name,
    with no restriction on the zone the slot's cluster sits in. -/
theorem claim_C10_remove_slot_effect (P : Params) (s : FState) (d : Nat)
    (name : Nat → Nat) (s2 : FState) (idx : Nat)
    (hdpc : 0 < P.dpc) (hmx : 0 < P.maxName) (hname : name 0 ≠ 0)
    (hfound : scanMatch P name (dirTable P s d)
        ((s.inodes d).size / (P.dpc * P.deSize) * P.dpc) = some idx)
    (hok : soRemoveDirEntry P s d name = .ok s2) :
    (dentsOf ((s2.clusters (fileClusterRef P s d (idx / P.dpc))).info)
        (idx % P.dpc)).nInode = (dirTable P s d idx).nInode ∧
    (dentsOf ((s2.clusters (fileClusterRef P s d (idx / P.dpc))).info)
        (idx % P.dpc)).name 0 = 0 ∧
    (dentsOf ((s2.clusters (fileClusterRef P s d (idx / P.dpc))).info)
        (idx % P.dpc)).name P.maxName = (dirTable P s d idx).name 0 ∧
    ∀ k, 0 < k → k < P.maxName →
      (dentsOf ((s2.clusters (fileClusterRef P s d (idx / P.dpc))).info)
        (idx % P.dpc)).name k = (dirTable P s d idx).name k := by
  obtain ⟨h1, h2, h3, h4, -⟩ := soRemoveDirEntry_effect P s d name s2 idx
    hdpc hmx hname hfound hok
  exact ⟨h1, h2, h3, fun k hk1 hk2 => h4 k (by omega) (by omega)⟩

/-- The removed base name "b". -/
def nameB : Nat → Nat := fun k => if k = 0 then 98 else 0

/-- The directory inode of the C10 witness volume. -/
def inoDirC10 : Inode :=
  { mode := INODE_DIR + 7, refcount := 2, owner := 1, group := 1, size := 24,
    clucount := 1, vD1 := 0, vD2 := 0,
    d := fun k => if k = 0 then 4 else nullRef, i1 := nullRef, i2 := nullRef }

/-- A regular-file inode with two hard links (so the removal does not
    reach the deletion branch). -/
def inoFileC10 : Inode :=
  { mode := INODE_FILE + 7, refcount := 2, owner := 1, group := 1, size := 0,
    clucount := 0, vD1 := 0, vD2 := 0, d := fun _ => nullRef,
    i1 := nullRef, i2 := nullRef }

/-- A volume whose directory (inode 1, cluster 4) holds ".", ".." and the
    entry "b" for inode 2. -/
def sC10 : FState :=
  { itotal := 4, ifree := 0, ihead := nullRef, itail := nullRef,
    dzoneTotal := 8, dzoneFree := 0, retrievIdx := 2, retriev := fun _ => 0,
    insertIdx := 0, insertCache := fun _ => 0, dhead := nullRef, dtail := nullRef,
    inodes := fun i => if i = 1 then inoDirC10 else inoFileC10,
    clusters := fun c =>
      if c = 4 then { clNone with
        stat := 1,
        info := .dents (fun j =>
          if j = 0 then { name := dotStr, nInode := 1 }
          else if j = 1 then { name := dotdotStr, nInode := 0 }
          else if j = 2 then { name := nameB, nInode := 2 }
          else { name := fun _ => 0, nInode := nullRef }) }
      else clNone,
    uid := 1, gid := 1, now := 5 }

/-- The state the removal of "b" leaves. -/
def sC10r : FState :=
  match soRemoveDirEntry PW sC10 1 nameB with
  | .ok t => t
  | .error _ => sC10

theorem claim_C10_remove_slot_effect_witness :
    (dentsOf ((sC10r.clusters (fileClusterRef PW sC10 1 (2 / PW.dpc))).info)
        (2 % PW.dpc)).nInode = (dirTable PW sC10 1 2).nInode ∧
    (dentsOf ((sC10r.clusters (fileClusterRef PW sC10 1 (2 / PW.dpc))).info)
        (2 % PW.dpc)).name 0 = 0 ∧
    (dentsOf ((sC10r.clusters (fileClusterRef PW sC10 1 (2 / PW.dpc))).info)
        (2 % PW.dpc)).name PW.maxName = (dirTable PW sC10 1 2).name 0 ∧
    ∀ k, 0 < k → k < PW.maxName →
      (dentsOf ((sC10r.clusters (fileClusterRef PW sC10 1 (2 / PW.dpc))).info)
          (2 % PW.dpc)).name k = (dirTable PW sC10 1 2).name k :=
  claim_C10_remove_slot_effect PW sC10 1 nameB sC10r 2 (by decide) (by decide)
    (by decide) (by rfl) (by rfl)


/-! ### The effect of a successful soAddDirEntry (non-directory entry) -/

end Sofs
